import Mathlib

/-!
# instatus-to-discord: status-page webhook to Discord embed

Two Go packages, `packages/discordstatus/discord` (incidents only) and
`packages/instatus/discord` (incidents and maintenances), each a single `main.go`. Both decode a
status-page event, build a Discord embed from it and post it with one webhook call.

The development embeds the functions of both files, together with the parts of the Go standard
library they call (`sort.Slice`, `time.Parse`, `Time.Format`), and states the properties of the
rendering over these definitions.
-/

/-!
## Go standard library `sort`: `sort.Slice` (pdqsort, Go 1.19 and later)

The slice is a list addressed by index; every function returns the slice contents after the
call. Loops carry their exact iteration bound as the recursion argument.
-/
namespace GoSort

variable {α : Type}

/-- The call `data.Less(i, j)` of `lessSwap`: the user comparison on the elements now stored at
indices `i` and `j`. -/
def lessAt (less : α → α → Bool) (data : List α) (i j : Nat) : Bool :=
  match data[i]?, data[j]? with
  | some x, some y => less x y
  | _, _ => false

/-- The call `data.Swap(i, j)` of `lessSwap`. -/
def swapAt (data : List α) (i j : Nat) : List α :=
  match data[i]?, data[j]? with
  | some x, some y => (data.set i y).set j x
  | _, _ => data

/-- Inner loop of `insertionSort_func`:
`for j := i; j > a && data.Less(j, j-1); j-- { data.Swap(j, j-1) }`. -/
def insertionSort_inner (less : α → α → Bool) (a : Nat) : Nat → List α → List α
  | 0, data => data
  | j + 1, data =>
    if a < j + 1 && lessAt less data (j + 1) j then
      insertionSort_inner less a j (swapAt data (j + 1) j)
    else data

/-- Outer loop of `insertionSort_func`, `n` iterations starting at index `i`. -/
def insertionSort_loop (less : α → α → Bool) (a : Nat) : Nat → Nat → List α → List α
  | 0, _, data => data
  | n + 1, i, data => insertionSort_loop less a n (i + 1) (insertionSort_inner less a i data)

/-- Go `insertionSort_func(data, a, b)`: `for i := a + 1; i < b; i++ { ... }`. -/
def insertionSort_func (less : α → α → Bool) (data : List α) (a b : Nat) : List α :=
  insertionSort_loop less a (b - (a + 1)) (a + 1) data

/-- Go `siftDown_func(data, lo, hi, first)`; the loop runs at most `hi` times because `root`
strictly increases and stays below `hi`. -/
def siftDown_loop (less : α → α → Bool) (hi first : Nat) : Nat → Nat → List α → List α
  | 0, _, data => data
  | n + 1, root, data =>
    let child := 2 * root + 1
    if hi ≤ child then data
    else
      let child := if child + 1 < hi && lessAt less data (first + child) (first + child + 1)
        then child + 1 else child
      if !lessAt less data (first + root) (first + child) then data
      else siftDown_loop less hi first n child (swapAt data (first + root) (first + child))

def siftDown_func (less : α → α → Bool) (data : List α) (lo hi first : Nat) : List α :=
  siftDown_loop less hi first hi lo data

/-- First loop of `heapSort_func`: `for i := (hi - 1) / 2; i >= 0; i--`, with `n = i + 1`. -/
def heapSort_build (less : α → α → Bool) (hi first : Nat) : Nat → List α → List α
  | 0, data => data
  | i + 1, data => heapSort_build less hi first i (siftDown_func less data i hi first)

/-- Second loop of `heapSort_func`: `for i := hi - 1; i >= 0; i--`, with `n = i + 1`. -/
def heapSort_pop (less : α → α → Bool) (first : Nat) : Nat → List α → List α
  | 0, data => data
  | i + 1, data =>
    heapSort_pop less first i (siftDown_func less (swapAt data first (first + i)) 0 i first)

/-- Go `heapSort_func(data, a, b)`. -/
def heapSort_func (less : α → α → Bool) (data : List α) (a b : Nat) : List α :=
  let first := a
  let hi := b - a
  let data := heapSort_build less hi first ((hi - 1) / 2 + 1) data
  heapSort_pop less first hi data

/-- Go `sortedHint`. -/
inductive sortedHint where
  | unknownHint
  | increasingHint
  | decreasingHint
  deriving DecidableEq

/-- Go `order2_func`: returns the two indices in order and the updated swap counter. -/
def order2_func (less : α → α → Bool) (data : List α) (a b swaps : Nat) : Nat × Nat × Nat :=
  if lessAt less data b a then (b, a, swaps + 1) else (a, b, swaps)

/-- Go `median_func`. -/
def median_func (less : α → α → Bool) (data : List α) (a b c swaps : Nat) : Nat × Nat :=
  let (a, b, swaps) := order2_func less data a b swaps
  let (b, _, swaps) := order2_func less data b c swaps
  let (_, b, swaps) := order2_func less data a b swaps
  (b, swaps)

/-- Go `medianAdjacent_func`. -/
def medianAdjacent_func (less : α → α → Bool) (data : List α) (a swaps : Nat) : Nat × Nat :=
  median_func less data (a - 1) a (a + 1) swaps

/-- Go `choosePivot_func`. -/
def choosePivot_func (less : α → α → Bool) (data : List α) (a b : Nat) : Nat × sortedHint :=
  let l := b - a
  let i := a + l / 4 * 1
  let j := a + l / 4 * 2
  let k := a + l / 4 * 3
  let (j, swaps) :=
    if 8 ≤ l then
      let (i, j, k, swaps) :=
        if 50 ≤ l then
          let (i, s) := medianAdjacent_func less data i 0
          let (j, s) := medianAdjacent_func less data j s
          let (k, s) := medianAdjacent_func less data k s
          (i, j, k, s)
        else (i, j, k, 0)
      median_func less data i j k swaps
    else (j, 0)
  if swaps = 0 then (j, sortedHint.increasingHint)
  else if swaps = 4 * 3 then (j, sortedHint.decreasingHint)
  else (j, sortedHint.unknownHint)

/-- Loop of `reverseRange_func`: `for i < j { data.Swap(i, j); i++; j-- }`. -/
def reverseRange_loop : Nat → Nat → Nat → List α → List α
  | 0, _, _, data => data
  | n + 1, i, j, data =>
    if i < j then reverseRange_loop n (i + 1) (j - 1) (swapAt data i j) else data

/-- Go `reverseRange_func(data, a, b)`. -/
def reverseRange_func (data : List α) (a b : Nat) : List α :=
  reverseRange_loop (b - a) a (b - 1) data

/-- The scan `for i < b && !data.Less(i, i-1) { i++ }` of `partialInsertionSort_func`. -/
def partialInsertionSort_scan (less : α → α → Bool) (data : List α) (b : Nat) : Nat → Nat → Nat
  | 0, i => i
  | n + 1, i =>
    if i < b && !lessAt less data i (i - 1) then partialInsertionSort_scan less data b n (i + 1)
    else i

/-- The loop `for j := i - 1; j >= 1; j-- { if !data.Less(j, j-1) { break }; data.Swap(j, j-1) }`
of `partialInsertionSort_func`. -/
def partialInsertionSort_left (less : α → α → Bool) : Nat → List α → List α
  | 0, data => data
  | j + 1, data =>
    if !lessAt less data (j + 1) j then data
    else partialInsertionSort_left less j (swapAt data (j + 1) j)

/-- The loop `for j := i + 1; j < b; j++ { if !data.Less(j, j-1) { break }; data.Swap(j, j-1) }`
of `partialInsertionSort_func`. -/
def partialInsertionSort_right (less : α → α → Bool) (b : Nat) : Nat → Nat → List α → List α
  | 0, _, data => data
  | n + 1, j, data =>
    if j < b then
      if !lessAt less data j (j - 1) then data
      else partialInsertionSort_right less b n (j + 1) (swapAt data j (j - 1))
    else data

/-- The `maxSteps` iterations of `partialInsertionSort_func`. -/
def partialInsertionSort_steps (less : α → α → Bool) (a b : Nat) :
    Nat → Nat → List α → List α × Bool
  | 0, _, data => (data, false)
  | s + 1, i, data =>
    let i := partialInsertionSort_scan less data b (b - i) i
    if i = b then (data, true)
    else if b - a < 50 then (data, false)
    else
      let data := swapAt data i (i - 1)
      let data := if 2 ≤ i - a then partialInsertionSort_left less (i - 1) data else data
      let data := if 2 ≤ b - i then partialInsertionSort_right less b (b - (i + 1)) (i + 1) data
        else data
      partialInsertionSort_steps less a b s i data

/-- Go `partialInsertionSort_func(data, a, b)` with `maxSteps = 5`, `shortestShifting = 50`. -/
def partialInsertionSort_func (less : α → α → Bool) (data : List α) (a b : Nat) :
    List α × Bool :=
  partialInsertionSort_steps less a b 5 (a + 1) data

/-- The scan `for i <= j && data.Less(i, a) { i++ }` of `partition_func`. -/
def partition_up (less : α → α → Bool) (data : List α) (a j : Nat) : Nat → Nat → Nat
  | 0, i => i
  | n + 1, i => if i ≤ j && lessAt less data i a then partition_up less data a j n (i + 1) else i

/-- The scan `for i <= j && !data.Less(j, a) { j-- }` of `partition_func`. -/
def partition_down (less : α → α → Bool) (data : List α) (a i : Nat) : Nat → Nat → Nat
  | 0, j => j
  | n + 1, j =>
    if i ≤ j && !lessAt less data j a then partition_down less data a i n (j - 1) else j

/-- The unconditional `for { ... }` loop of `partition_func`; returns the data and `j`. -/
def partition_loop (less : α → α → Bool) (a : Nat) : Nat → Nat → Nat → List α → List α × Nat
  | 0, _, j, data => (data, j)
  | n + 1, i, j, data =>
    let i := partition_up less data a j (j + 1 - i) i
    let j := partition_down less data a i (j + 1 - i) j
    if j < i then (data, j)
    else partition_loop less a n (i + 1) (j - 1) (swapAt data i j)

/-- Go `partition_func(data, a, b, pivot)`: the data, `newpivot` and `alreadyPartitioned`. -/
def partition_func (less : α → α → Bool) (data : List α) (a b pivot : Nat) :
    List α × Nat × Bool :=
  let data := swapAt data a pivot
  let i := a + 1
  let j := b - 1
  let i := partition_up less data a j (j + 1 - i) i
  let j := partition_down less data a i (j + 1 - i) j
  if j < i then (swapAt data j a, j, true)
  else
    let data := swapAt data i j
    let (data, j) := partition_loop less a (b - a) (i + 1) (j - 1) data
    (swapAt data j a, j, false)

/-- The scan `for i <= j && !data.Less(a, i) { i++ }` of `partitionEqual_func`. -/
def partitionEqual_up (less : α → α → Bool) (data : List α) (a j : Nat) : Nat → Nat → Nat
  | 0, i => i
  | n + 1, i =>
    if i ≤ j && !lessAt less data a i then partitionEqual_up less data a j n (i + 1) else i

/-- The scan `for i <= j && data.Less(a, j) { j-- }` of `partitionEqual_func`. -/
def partitionEqual_down (less : α → α → Bool) (data : List α) (a i : Nat) : Nat → Nat → Nat
  | 0, j => j
  | n + 1, j =>
    if i ≤ j && lessAt less data a j then partitionEqual_down less data a i n (j - 1) else j

/-- The `for { ... }` loop of `partitionEqual_func`; returns the data and `i`. -/
def partitionEqual_loop (less : α → α → Bool) (a : Nat) :
    Nat → Nat → Nat → List α → List α × Nat
  | 0, i, _, data => (data, i)
  | n + 1, i, j, data =>
    let i := partitionEqual_up less data a j (j + 1 - i) i
    let j := partitionEqual_down less data a i (j + 1 - i) j
    if j < i then (data, i)
    else partitionEqual_loop less a n (i + 1) (j - 1) (swapAt data i j)

/-- Go `partitionEqual_func(data, a, b, pivot)`: the data and `newpivot`. -/
def partitionEqual_func (less : α → α → Bool) (data : List α) (a b pivot : Nat) :
    List α × Nat :=
  partitionEqual_loop less a (b - a) (a + 1) (b - 1) (swapAt data a pivot)

/-- Loop computing the number of binary digits of `n`, at most as many as the first argument. -/
def bitsLen_loop : Nat → Nat → Nat
  | 0, _ => 0
  | w + 1, n => if n = 0 then 0 else bitsLen_loop w (n / 2) + 1

/-- Go `bits.Len(uint(n))`: the number of bits needed to write the 64-bit `n`. -/
def bitsLen (n : Nat) : Nat := bitsLen_loop 64 n

/-- Go `nextPowerOfTwo`, a `uint`. -/
def nextPowerOfTwo (length : Nat) : Nat := (1 <<< bitsLen length) % 2 ^ 64

/-- Go `(*xorshift).Next` on a `uint64`. -/
def xorshift_Next (r : Nat) : Nat :=
  let r := r ^^^ ((r <<< 13) % 2 ^ 64)
  let r := r ^^^ (r >>> 7)
  let r := r ^^^ ((r <<< 17) % 2 ^ 64)
  r

/-- The loop `for i := 0; i < 3; i++` of `breakPatterns_func`. -/
def breakPatterns_loop (a length modulus idx : Nat) : Nat → Nat → Nat → List α → List α
  | 0, _, _, data => data
  | n + 1, i, random, data =>
    let random := xorshift_Next random
    let other := random &&& (modulus - 1)
    let other := if length ≤ other then other - length else other
    breakPatterns_loop a length modulus idx n (i + 1) random (swapAt data (idx - 1 + i) (a + other))

/-- Go `breakPatterns_func(data, a, b)`. -/
def breakPatterns_func (data : List α) (a b : Nat) : List α :=
  let length := b - a
  if 8 ≤ length then
    breakPatterns_loop a length (nextPowerOfTwo length) (a + length / 4 * 2 - 1) 3 0 length data
  else data

/-- Go `pdqsort_func(data, a, b, limit)`. The `for` loop and the recursive call are both steps of
this function; `wasBalanced` and `wasPartitioned` are the loop's local flags, `true` when the
function is entered. The first argument bounds the number of steps; `none` means the bound was
reached before the sort returned. -/
def pdqsort_func (less : α → α → Bool) :
    Nat → List α → Nat → Nat → Nat → Bool → Bool → Option (List α)
  | 0, _, _, _, _, _, _ => none
  | fuel + 1, data, a, b, limit, wasBalanced, wasPartitioned =>
    let length := b - a
    if length ≤ 12 then some (insertionSort_func less data a b)
    else if limit = 0 then some (heapSort_func less data a b)
    else
      let data := if !wasBalanced then breakPatterns_func data a b else data
      let limit := if !wasBalanced then limit - 1 else limit
      let ph := choosePivot_func less data a b
      let data := if ph.2 = sortedHint.decreasingHint then reverseRange_func data a b else data
      let pivot := if ph.2 = sortedHint.decreasingHint then (b - 1) - (ph.1 - a) else ph.1
      let hint := if ph.2 = sortedHint.decreasingHint then sortedHint.increasingHint else ph.2
      let pis := if wasBalanced && wasPartitioned && hint = sortedHint.increasingHint
        then partialInsertionSort_func less data a b else (data, false)
      if pis.2 then some pis.1
      else
        let data := pis.1
        if 0 < a && !lessAt less data (a - 1) pivot then
          let pe := partitionEqual_func less data a b pivot
          pdqsort_func less fuel pe.1 pe.2 b limit wasBalanced wasPartitioned
        else
          let p := partition_func less data a b pivot
          let mid := p.2.1
          let leftLen := mid - a
          let rightLen := b - mid
          let balanceThreshold := length / 8
          if leftLen < rightLen then
            match pdqsort_func less fuel p.1 a mid limit true true with
            | none => none
            | some data =>
              pdqsort_func less fuel data (mid + 1) b limit
                (decide (balanceThreshold ≤ leftLen)) p.2.2
          else
            match pdqsort_func less fuel p.1 (mid + 1) b limit true true with
            | none => none
            | some data =>
              pdqsort_func less fuel data a mid limit
                (decide (balanceThreshold ≤ rightLen)) p.2.2

/-- Go `sort.Slice(x, less)`: `pdqsort_func(lessSwap{less, swap}, 0, length, bits.Len(length))`. -/
def Slice (less : α → α → Bool) (x : List α) : Option (List α) :=
  pdqsort_func less (x.length + 1) x 0 x.length (bitsLen x.length) true true

end GoSort

/-!
## Go standard library `time`: `time.Parse(time.RFC3339Nano, value)` and `Time.Format("15:04:05z")`

`humanizedTime` calls the general layout-driven parser with the fixed layout
`"2006-01-02T15:04:05.999999999Z07:00"`. The layout is a constant of the call, so the parser is
embedded unrolled over the chunks of that layout, in the order `nextStdChunk` yields them:
`stdLongYear`, `"-"`, `stdZeroMonth`, `"-"`, `stdZeroDay`, `"T"`, `stdHour`, `":"`,
`stdZeroMinute`, `":"`, `stdZeroSecond`, `stdFracSecond9`, `stdISO8601ColonTZ`.
A Go string is a byte sequence; every byte these functions accept is ASCII, so they are embedded
on the characters of a `String`.
-/
namespace GoTime

/-- Go `isDigit(s, i)`. -/
def isDigit (s : List Char) (i : Nat) : Bool :=
  match s[i]? with
  | some c => decide ('0' ≤ c) && decide (c ≤ '9')
  | none => false

/-- The value `c - '0'` of a digit byte. -/
def digitVal (c : Char) : Nat := c.toNat - 48

/-- Go `commaOrPeriod`. -/
def commaOrPeriod (c : Char) : Bool := c == '.' || c == ','

/-- Go `leadingInt`: the leading digits as a number and the rest; `none` on the overflow checks
`x > 1<<63/10` and `x > 1<<63`. -/
def leadingInt : List Char → Nat → Option (Nat × List Char)
  | [], x => some (x, [])
  | c :: rest, x =>
    if c < '0' || '9' < c then some (x, c :: rest)
    else if 2 ^ 63 / 10 < x then none
    else if 2 ^ 63 < x * 10 + digitVal c then none
    else leadingInt rest (x * 10 + digitVal c)

/-- Go `atoi`. -/
def atoi (s : List Char) : Option Int :=
  let neg := s.head? == some '-'
  let s := if s.head? == some '-' || s.head? == some '+' then s.drop 1 else s
  match leadingInt s 0 with
  | some (q, []) => some (if neg then -(q : Int) else (q : Int))
  | _ => none

/-- Go `getnum(s, fixed)`: one or two leading digits, two exactly when `fixed`. -/
def getnum (s : List Char) (fixed : Bool) : Option (Nat × List Char) :=
  if !isDigit s 0 then none
  else if !isDigit s 1 then
    if fixed then none else some (digitVal (s.headD '0'), s.drop 1)
  else some (digitVal (s.headD '0') * 10 + digitVal ((s.drop 1).headD '0'), s.drop 2)

/-- Go `skip(value, prefix)` for a prefix without spaces (the literal chunks of the layout are
`"-"`, `"T"` and `":"`). -/
def skip : List Char → List Char → Option (List Char)
  | value, [] => some value
  | [], _ :: _ => none
  | v :: value, p :: pre => if v = p then skip value pre else none

/-- Go `parseNanoseconds(value, nbytes)`. -/
def parseNanoseconds (value : List Char) (nbytes : Nat) : Option Nat :=
  if !commaOrPeriod (value.headD ' ') then none
  else
    let value := if 10 < nbytes then value.take 10 else value
    let nbytes := if 10 < nbytes then 10 else nbytes
    match atoi ((value.take nbytes).drop 1) with
    | none => none
    | some ns => if ns < 0 then none else some (ns.toNat * 10 ^ (10 - nbytes))

/-- Go `isLeap`. -/
def isLeap (year : Int) : Bool := year % 4 == 0 && (year % 100 != 0 || year % 400 == 0)

/-- Go `daysBefore`: days in a non-leap year before the end of month `m` (`daysBefore[0] = 0`). -/
def daysBefore (m : Nat) : Nat :=
  [0, 31, 59, 90, 120, 151, 181, 212, 243, 273, 304, 334, 365].getD m 0

/-- Go `daysIn(m, year)`. -/
def daysIn (m : Nat) (year : Int) : Nat :=
  if m == 2 && isLeap year then 29 else daysBefore m - daysBefore (m - 1)

/-- Go `Time`, as the instant in seconds since the Unix epoch, the nanoseconds within the second,
and the offset east of UTC, in seconds, of the location the value carries. -/
structure Time where
  unixSec : Int
  nsec : Nat
  offset : Int
  deriving DecidableEq

/-- Days from 1970-01-01 to the given civil date of the proleptic Gregorian calendar. -/
def daysSinceEpoch (year : Int) (month day : Nat) : Int :=
  let y := year - 1
  365 * y + y / 4 - y / 100 + y / 400 + (daysBefore (month - 1) : Int)
    + (if isLeap year && decide (3 ≤ month) then 1 else 0) + ((day : Int) - 1) - 719162

/-- Go `Date(year, month, day, hour, min, sec, nsec, loc)` for in-range fields and a location at
fixed offset `offset`: the instant whose wall clock in that location shows the fields. -/
def Date (year : Int) (month day hour min sec nsec : Nat) (offset : Int) : Time :=
  { unixSec := daysSinceEpoch year month day * 86400 + (hour * 3600 + min * 60 + sec : Nat)
      - offset
    nsec := nsec
    offset := offset }

/-- The `stdFracSecond9` chunk: an optional `.` or `,` followed by digits. -/
def parseFracSecond9 (value : List Char) : Option (Nat × List Char) :=
  if value.length < 2 || !commaOrPeriod (value.headD ' ') || !isDigit value 1 then
    some (0, value)
  else
    let i := ((value.drop 1).takeWhile (fun c => decide ('0' ≤ c) && decide (c ≤ '9'))).length
    match parseNanoseconds value (1 + i) with
    | none => none
    | some ns => some (ns, value.drop (1 + i))

/-- The `stdISO8601ColonTZ` chunk: `Z`, or a sign, two digits, `:`, two digits; the result is the
zone offset in seconds (`Z` is UTC, offset 0). -/
def parseISO8601ColonTZ (value : List Char) : Option (Int × List Char) :=
  if value.head? == some 'Z' then some (0, value.drop 1)
  else if value.length < 6 then none
  else if value[3]? != some ':' then none
  else
    match getnum ((value.drop 1).take 2) true, getnum ((value.drop 4).take 2) true with
    | some (hr, _), some (mm, _) =>
      if 24 < hr then none
      else if 60 < mm then none
      else
        let zoneOffset : Int := (((hr * 60 + mm) * 60 : Nat) : Int)
        if value.head? == some '+' then some (zoneOffset, value.drop 6)
        else if value.head? == some '-' then some (-zoneOffset, value.drop 6)
        else none
    | _, _ => none

/-- Go `time.Parse(time.RFC3339Nano, value)`; `none` stands for a non-nil error. -/
def Parse_RFC3339Nano (value : List Char) : Option Time :=
  if value.length < 4 || !isDigit value 0 then none else
  match atoi (value.take 4) with
  | none => none
  | some year =>
  match skip (value.drop 4) ['-'] with
  | none => none
  | some value =>
  match getnum value true with
  | none => none
  | some (month, value) =>
  if month = 0 || decide (12 < month) then none else
  match skip value ['-'] with
  | none => none
  | some value =>
  match getnum value true with
  | none => none
  | some (day, value) =>
  match skip value ['T'] with
  | none => none
  | some value =>
  match getnum value false with
  | none => none
  | some (hour, value) =>
  if 24 ≤ hour then none else
  match skip value [':'] with
  | none => none
  | some value =>
  match getnum value true with
  | none => none
  | some (min, value) =>
  if 60 ≤ min then none else
  match skip value [':'] with
  | none => none
  | some value =>
  match getnum value true with
  | none => none
  | some (sec, value) =>
  if 60 ≤ sec then none else
  match parseFracSecond9 value with
  | none => none
  | some (nsec, value) =>
  match parseISO8601ColonTZ value with
  | none => none
  | some (zoneOffset, value) =>
  if value ≠ [] then none
  else if day < 1 || decide (daysIn month year < day) then none
  else some (Date year month day hour min sec nsec zoneOffset)

/-- Go `absClock` on `t.abs()`: hour, minute and second of the wall clock the value shows in its
own location. -/
def Time.Clock (t : Time) : Nat × Nat × Nat :=
  let sec := ((t.unixSec + t.offset) % 86400).toNat
  (sec / 3600, sec % 3600 / 60, sec % 60)

/-- Go `appendInt(b, x, width)` for `x ≥ 0`: the decimal digits, zero-padded to `width`. -/
def appendInt (x width : Nat) : List Char :=
  let ds := Nat.toDigits 10 x
  List.replicate (width - ds.length) '0' ++ ds

/-- Go `t.Format("15:04:05z")`: the layout chunks are `stdHour`, `":"`, `stdZeroMinute`, `":"`,
`stdZeroSecond` and the literal text `"z"`. -/
def Time.Format_150405z (t : Time) : String :=
  String.mk (appendInt t.Clock.1 2 ++ ':' :: appendInt t.Clock.2.1 2
    ++ ':' :: appendInt t.Clock.2.2 2 ++ ['z'])

end GoTime

/-!
## Package `github.com/bwmarrin/discordgo`: the records the functions build
-/
namespace discordgo

/-- Go `discordgo.MessageEmbedField`. -/
structure MessageEmbedField where
  Name : String
  Value : String
  Inline : Bool
  deriving DecidableEq

/-- Go `discordgo.MessageEmbedFooter` (the field the code sets). -/
structure MessageEmbedFooter where
  Text : String
  deriving DecidableEq

/-- Go `discordgo.MessageEmbed` (the fields the code sets; a field left out of the composite
literal has its zero value: `""`, `0`, no fields, `nil` footer). -/
structure MessageEmbed where
  URL : String
  Title : String
  Color : Nat
  Fields : List MessageEmbedField
  Footer : Option MessageEmbedFooter
  Timestamp : String
  deriving DecidableEq

/-- Go `discordgo.WebhookParams` (the fields the code sets). -/
structure WebhookParams where
  Content : String
  Embeds : List MessageEmbed
  deriving DecidableEq

/-- One call `s.WebhookExecute(webhookID, token, wait, data)`. -/
structure WebhookExecute where
  webhookID : String
  token : String
  wait : Bool
  data : WebhookParams
  deriving DecidableEq

end discordgo

/-- Go `a < b` on strings. Go compares the bytes of the two strings in order; the strings the
packages compare come out of JSON decoding and are valid UTF-8, for which the order of the
encodings is the order of the character sequences, so the comparison is embedded on the
characters: the first position where the strings differ decides, and a proper initial part of a
string is less than the string. -/
def stringLess_loop : List Char → List Char → Bool
  | [], [] => false
  | [], _ :: _ => true
  | _ :: _, [] => false
  | a :: as, b :: bs => if a < b then true else if b < a then false else stringLess_loop as bs

/-- Go `a < b` on strings. -/
def stringLess (a b : String) : Bool := stringLess_loop a.data b.data

/-- The function `sort.Slice` the packages are linked against, as a function from the comparison
and the slice contents before the call to the slice contents after it. -/
abbrev SliceSorter : Type 1 := (α : Type) → (α → α → Bool) → List α → List α

/-- The requirement Go documents for the `less` argument of `sort.Slice` (that of
`sort.Interface.Less`): a transitive ordering, in which elements neither of which is less than
the other count as equal. -/
def IsTransitiveOrdering {α : Type} (less : α → α → Bool) : Prop :=
  (∀ a, less a a = false) ∧
  (∀ a b c, less a b = true → less b c = true → less a c = true) ∧
  (∀ a b c, less a b = false → less b c = false → less a c = false)

/-- What Go documents `sort.Slice` to do: it sorts the slice in place by `less`, so the contents
after the call are a rearrangement of the contents before it in which no element is less than its
predecessor (`sort.SliceIsSorted`). It is documented as not guaranteed to be stable. -/
def SortsSlice (sortSlice : SliceSorter) : Prop :=
  ∀ (α : Type) (less : α → α → Bool) (x : List α), IsTransitiveOrdering less →
    (sortSlice α less x).Perm x ∧
    (sortSlice α less x).Chain' (fun a b => less b a = false)

/-- The `sort.Slice` of the Go standard library embedded in `GoSort`. -/
def GoSort.sortSlice : SliceSorter := fun _ less x => (GoSort.Slice less x).getD x

/-!
## Package `packages/discordstatus/discord` (incidents only)
-/
namespace Discordstatus

def RedEmoji : String := "<:statusred:816435667001147482>"
def YellowEmoji : String := "<:statusyellow:816435667017400350>"
def GreenEmoji : String := "<:statusgreen:816435666988171314>"

/-- Go `PageMeta`. -/
structure PageMeta where
  MetaUnsubscribe : String
  MetaDocumentation : String
  PageID : String
  PageURL : String
  PageStatusIndicator : String
  PageStatusDescription : String
  deriving DecidableEq

/-- Go `AffectedComponent`. -/
structure AffectedComponent where
  ID : String
  Name : String
  Status : String
  deriving DecidableEq

/-- Go `IncidentStatus`, a string type. -/
abbrev IncidentStatus : Type := String

def IncidentStatusInvestigating : IncidentStatus := "investigating"
def IncidentStatusIdentified : IncidentStatus := "identified"
def IncidentStatusMonitoring : IncidentStatus := "monitoring"
def IncidentStatusResolved : IncidentStatus := "resolved"

/-- Go `IncidentUpdate`. -/
structure IncidentUpdate where
  ID : String
  IncidentID : String
  Status : IncidentStatus
  Body : String
  Markdown : String
  CreatedAt : String
  UpdatedAt : String
  deriving DecidableEq

/-- Go `Incident`. -/
structure Incident where
  ID : String
  Name : String
  URL : String
  Status : IncidentStatus
  Impact : String
  Backfilled : Bool
  CreatedAt : String
  UpdatedAt : String
  ResolvedAt : Option String
  Components : List AffectedComponent
  Updates : List IncidentUpdate
  deriving DecidableEq

/-- Go `InstatusWebhook`; a nil `Incident` pointer is `none`. -/
structure InstatusWebhook where
  PageMeta : PageMeta
  Incident : Option Incident
  deriving DecidableEq

/-- Go `func (u *Incident) Emoji() string`. -/
def Incident.Emoji (u : Incident) : String :=
  if u.Status = IncidentStatusInvestigating then RedEmoji
  else if u.Status = IncidentStatusIdentified ∨ u.Status = IncidentStatusMonitoring then
    YellowEmoji
  else if u.Status = IncidentStatusResolved then GreenEmoji
  else ""

/-- Go `humanizedTime`. -/
def humanizedTime (t : String) : String :=
  match GoTime.Parse_RFC3339Nano t.data with
  | none => t
  | some parsed => parsed.Format_150405z

/-- Go `func (u *IncidentUpdate) HumanizedTime() string`. -/
def IncidentUpdate.HumanizedTime (u : IncidentUpdate) : String :=
  humanizedTime u.CreatedAt

/-- Go `func (u *IncidentUpdate) Emoji() string`. -/
def IncidentUpdate.Emoji (u : IncidentUpdate) : String :=
  if u.Status = IncidentStatusInvestigating then "<:statusred:816435667001147482>"
  else if u.Status = IncidentStatusIdentified ∨ u.Status = IncidentStatusMonitoring then
    "<:statusyellow:816435667017400350>"
  else if u.Status = IncidentStatusResolved then "<:statusgreen:816435666988171314>"
  else ""

/-- The `less` closure of `makeIncidentEmbed`, on the elements at the two indices:
`inc.Updates[i].CreatedAt < inc.Updates[j].CreatedAt`. -/
def updateLess (a b : IncidentUpdate) : Bool := stringLess a.CreatedAt b.CreatedAt

/-- The field appended for one update in the loop of `makeIncidentEmbed`. -/
def incidentField (u : IncidentUpdate) : discordgo.MessageEmbedField :=
  { Name := u.Emoji ++ " " ++ u.Status ++ " (" ++ u.HumanizedTime ++ ")"
    Value := u.Body
    Inline := false }

/-- Go `makeIncidentEmbed(inc *Incident)`. The function sorts `inc.Updates` in place through the
pointer, so the result is the incident as the caller sees it afterwards together with the
returned embed. -/
def makeIncidentEmbed (sortSlice : SliceSorter) (inc : Incident) :
    Incident × discordgo.MessageEmbed :=
  let inc := { inc with Updates := sortSlice IncidentUpdate updateLess inc.Updates }
  let fields := inc.Updates.foldl (fun fields u => fields ++ [incidentField u]) []
  (inc,
    { URL := "https://discordstatus.com/incidents/" ++ inc.ID
      Title := inc.Emoji ++ " Incident: " ++ inc.Name
      Color := 0x2483C5
      Fields := fields
      Footer := some { Text := "Started at" }
      Timestamp := inc.CreatedAt })

/-- What a run of `Main` leaves behind: the calls made on the session, in order, and the event
as it is after the run. -/
structure MainResult where
  calls : List discordgo.WebhookExecute
  event : InstatusWebhook
  deriving DecidableEq

/-- Go `Main(ctx, event)`. `getenv` is `os.Getenv`; `newFails` tells whether `discordgo.New("")`
returned a non-nil error. -/
def Main (sortSlice : SliceSorter) (getenv : String → String) (newFails : Bool)
    (event : InstatusWebhook) : MainResult :=
  let webhookID := getenv "DISCORD_WEBHOOK_ID"
  let webhookToken := getenv "DISCORD_WEBHOOK_TOKEN"
  if newFails then { calls := [], event := event }
  else
    match event.Incident with
    | some inc =>
      let r := makeIncidentEmbed sortSlice inc
      let p : discordgo.WebhookParams := { Content := "", Embeds := [r.2] }
      { calls := [{ webhookID := webhookID, token := webhookToken, wait := false, data := p }]
        event := { event with Incident := some r.1 } }
    | none => { calls := [], event := event }

end Discordstatus

/-!
## Package `packages/instatus/discord` (incidents and maintenances)
-/
namespace Instatus

def RedEmoji : String := "<:statusred:816435667001147482>"
def YellowEmoji : String := "<:statusyellow:816435667017400350>"
def GreenEmoji : String := "<:statusgreen:816435666988171314>"

/-- Go `PageMeta`. -/
structure PageMeta where
  MetaUnsubscribe : String
  MetaDocumentation : String
  PageID : String
  PageURL : String
  PageStatusIndicator : String
  PageStatusDescription : String
  deriving DecidableEq

/-- Go `AffectedComponent`. -/
structure AffectedComponent where
  ID : String
  Name : String
  Status : String
  deriving DecidableEq

/-- Go `IncidentStatus`, a string type. -/
abbrev IncidentStatus : Type := String

def IncidentStatusInvestigating : IncidentStatus := "Investigating"
def IncidentStatusIdentified : IncidentStatus := "Identified"
def IncidentStatusMonitoring : IncidentStatus := "Monitoring"
def IncidentStatusResolved : IncidentStatus := "Resolved"

/-- Go `IncidentUpdate`. -/
structure IncidentUpdate where
  ID : String
  IncidentID : String
  Status : IncidentStatus
  Body : String
  Markdown : String
  CreatedAt : String
  UpdatedAt : String
  deriving DecidableEq

/-- Go `Incident`. -/
structure Incident where
  ID : String
  Name : String
  URL : String
  Status : IncidentStatus
  Impact : String
  Backfilled : Bool
  CreatedAt : String
  UpdatedAt : String
  ResolvedAt : Option String
  Components : List AffectedComponent
  Updates : List IncidentUpdate
  deriving DecidableEq

/-- Go `MaintenanceStatus`, a string type. -/
abbrev MaintenanceStatus : Type := String

def MaintenanceStatusPlanned : MaintenanceStatus := "Planned"
def MaintenanceStatusInProgress : MaintenanceStatus := "In progress"
def MaintenanceStatusCompleted : MaintenanceStatus := "Completed"

/-- Go `MaintenanceUpdate`. -/
structure MaintenanceUpdate where
  ID : String
  MaintenanceID : String
  Body : String
  Markdown : String
  CreatedAt : String
  UpdatedAt : String
  deriving DecidableEq

/-- Go `Maintenance`. `Duration` is a `float64` the code never reads; it is carried as its
64-bit pattern. -/
structure Maintenance where
  ID : String
  Name : String
  URL : String
  Duration : Nat
  Status : MaintenanceStatus
  Impact : String
  Backfilled : Bool
  CreatedAt : String
  UpdatedAt : String
  ResolvedAt : Option String
  Components : List AffectedComponent
  Updates : List MaintenanceUpdate
  deriving DecidableEq

/-- Go `InstatusWebhook`; a nil pointer is `none`. -/
structure InstatusWebhook where
  PageMeta : PageMeta
  Incident : Option Incident
  Maintenance : Option Maintenance
  deriving DecidableEq

/-- Go `func (u *Incident) Emoji() string`. -/
def Incident.Emoji (u : Incident) : String :=
  if u.Status = IncidentStatusInvestigating then RedEmoji
  else if u.Status = IncidentStatusIdentified ∨ u.Status = IncidentStatusMonitoring then
    YellowEmoji
  else if u.Status = IncidentStatusResolved then GreenEmoji
  else ""

/-- Go `humanizedTime`. -/
def humanizedTime (t : String) : String :=
  match GoTime.Parse_RFC3339Nano t.data with
  | none => t
  | some parsed => parsed.Format_150405z

/-- Go `func (u *IncidentUpdate) HumanizedTime() string`. -/
def IncidentUpdate.HumanizedTime (u : IncidentUpdate) : String :=
  humanizedTime u.CreatedAt

/-- Go `func (u *IncidentUpdate) Emoji() string`. -/
def IncidentUpdate.Emoji (u : IncidentUpdate) : String :=
  if u.Status = IncidentStatusInvestigating then "<:statusred:816435667001147482>"
  else if u.Status = IncidentStatusIdentified ∨ u.Status = IncidentStatusMonitoring then
    "<:statusyellow:816435667017400350>"
  else if u.Status = IncidentStatusResolved then "<:statusgreen:816435666988171314>"
  else ""

/-- Go `func (u *Maintenance) Emoji() string`. -/
def Maintenance.Emoji (u : Maintenance) : String :=
  if u.Status = MaintenanceStatusPlanned then YellowEmoji
  else if u.Status = MaintenanceStatusInProgress then RedEmoji
  else if u.Status = MaintenanceStatusCompleted then GreenEmoji
  else ""

/-- Go `func (u *MaintenanceUpdate) HumanizedTime() string`. -/
def MaintenanceUpdate.HumanizedTime (u : MaintenanceUpdate) : String :=
  humanizedTime u.CreatedAt

/-- The `less` closure of `makeIncidentEmbed`, on the elements at the two indices:
`inc.Updates[i].CreatedAt < inc.Updates[j].CreatedAt`. -/
def updateLess (a b : IncidentUpdate) : Bool := stringLess a.CreatedAt b.CreatedAt

/-- The `less` closure of `makeMaintenanceEmbed`, on the elements at the two indices:
`m.Updates[i].CreatedAt < m.Updates[j].CreatedAt`. -/
def maintenanceUpdateLess (a b : MaintenanceUpdate) : Bool :=
  stringLess a.CreatedAt b.CreatedAt

/-- The field appended for one update in the loop of `makeIncidentEmbed`. -/
def incidentField (u : IncidentUpdate) : discordgo.MessageEmbedField :=
  { Name := u.Emoji ++ " " ++ u.Status ++ " (" ++ u.HumanizedTime ++ ")"
    Value := u.Markdown
    Inline := false }

/-- The field appended for one update in the loop of `makeMaintenanceEmbed`. -/
def maintenanceField (u : MaintenanceUpdate) : discordgo.MessageEmbedField :=
  { Name := "Update (" ++ u.HumanizedTime ++ ")"
    Value := u.Markdown
    Inline := false }

/-- Go `makeIncidentEmbed(inc *Incident)`. The function sorts `inc.Updates` in place through the
pointer, so the result is the incident as the caller sees it afterwards together with the
returned embed. -/
def makeIncidentEmbed (sortSlice : SliceSorter) (inc : Incident) :
    Incident × discordgo.MessageEmbed :=
  let inc := { inc with Updates := sortSlice IncidentUpdate updateLess inc.Updates }
  let fields := inc.Updates.foldl (fun fields u => fields ++ [incidentField u]) []
  (inc,
    { URL := inc.URL
      Title := inc.Emoji ++ " Incident: " ++ inc.Name
      Color := 0x2483C5
      Fields := fields
      Footer := some { Text := "Started at" }
      Timestamp := inc.CreatedAt })

/-- Go `makeMaintenanceEmbed(m *Maintenance)`; like `makeIncidentEmbed` it sorts `m.Updates` in
place. `Footer` and `Timestamp` are not set in the composite literal. -/
def makeMaintenanceEmbed (sortSlice : SliceSorter) (m : Maintenance) :
    Maintenance × discordgo.MessageEmbed :=
  let m := { m with Updates := sortSlice MaintenanceUpdate maintenanceUpdateLess m.Updates }
  let fields := m.Updates.foldl (fun fields u => fields ++ [maintenanceField u]) []
  (m,
    { URL := m.URL
      Title := m.Emoji ++ " Maintenance: " ++ m.Name
      Color := 0x2483C5
      Fields := fields
      Footer := none
      Timestamp := "" })

/-- What a run of `Main` leaves behind: the calls made on the session, in order, and the event
as it is after the run. -/
structure MainResult where
  calls : List discordgo.WebhookExecute
  event : InstatusWebhook
  deriving DecidableEq

/-- Go `Main(ctx, event)`. `getenv` is `os.Getenv`; `newFails` tells whether `discordgo.New("")`
returned a non-nil error. -/
def Main (sortSlice : SliceSorter) (getenv : String → String) (newFails : Bool)
    (event : InstatusWebhook) : MainResult :=
  let webhookID := getenv "DISCORD_WEBHOOK_ID"
  let webhookToken := getenv "DISCORD_WEBHOOK_TOKEN"
  let statusRoleID := getenv "DISCORD_STATUS_ROLE_ID"
  if newFails then { calls := [], event := event }
  else
    match event.Incident, event.Maintenance with
    | some inc, _ =>
      let r := makeIncidentEmbed sortSlice inc
      let p : discordgo.WebhookParams :=
        { Content := "<@&" ++ statusRoleID ++ ">", Embeds := [r.2] }
      { calls := [{ webhookID := webhookID, token := webhookToken, wait := false, data := p }]
        event := { event with Incident := some r.1 } }
    | none, some m =>
      let r := makeMaintenanceEmbed sortSlice m
      let p : discordgo.WebhookParams :=
        { Content := "<@&" ++ statusRoleID ++ ">", Embeds := [r.2] }
      { calls := [{ webhookID := webhookID, token := webhookToken, wait := false, data := p }]
        event := { event with Maintenance := some r.1 } }
    | none, none => { calls := [], event := event }

end Instatus

/-!
## Auxiliary definitions used to state the properties
-/

/-- The string `s` contains `sub` as a substring (a contiguous run of its characters). -/
def Contains (s sub : String) : Prop := sub.data <:+: s.data

instance (s sub : String) : Decidable (Contains s sub) := by
  unfold Contains; infer_instance

/-- Stability of a rearrangement with respect to a key: for every key value, the elements carrying
it occur in `out` exactly as they occur, and in the order they occur, in `inp`. -/
def StableBy {α : Type} (key : α → String) (inp out : List α) : Prop :=
  ∀ k : String, out.filter (fun u => key u == k) = inp.filter (fun u => key u == k)

/-- A sorter meeting the documented contract and written without reference to the Go library:
insertion of each element before the first element it is not greater than. -/
def referenceSorter : SliceSorter :=
  fun _ less x => x.insertionSort (fun a b => less b a = false)

/-- A second sorter meeting the documented contract: the reference sorter run on the slice read
backwards, so that elements neither of which is less than the other come out in the reverse of
their order in the slice. -/
def tieReversingSorter : SliceSorter :=
  fun _ less x => x.reverse.insertionSort (fun a b => less b a = false)

namespace Discordstatus

/-- An update with the given body, status and creation timestamp, other fields empty. -/
def updateOf (body status createdAt : String) : IncidentUpdate :=
  { ID := "", IncidentID := "", Status := status, Body := body, Markdown := "",
    CreatedAt := createdAt, UpdatedAt := "" }

/-- An incident with the given status, name and updates, other fields empty. -/
def incidentOf (status name : String) (updates : List IncidentUpdate) : Incident :=
  { ID := "", Name := name, URL := "", Status := status, Impact := "", Backfilled := false,
    CreatedAt := "", UpdatedAt := "", ResolvedAt := none, Components := [], Updates := updates }

/-- An event with empty page metadata. -/
def eventOf (inc : Option Incident) : InstatusWebhook :=
  { PageMeta :=
      { MetaUnsubscribe := "", MetaDocumentation := "", PageID := "", PageURL := "",
        PageStatusIndicator := "", PageStatusDescription := "" },
    Incident := inc }

/-- Thirteen updates, bodies `u0` to `u12` in payload order, whose creation timestamps alternate
between one second past midnight (even positions) and midnight (odd positions). -/
def thirteenUpdates : List IncidentUpdate :=
  [ updateOf "u0" "investigating" "2024-01-02T00:00:01Z",
    updateOf "u1" "investigating" "2024-01-02T00:00:00Z",
    updateOf "u2" "investigating" "2024-01-02T00:00:01Z",
    updateOf "u3" "investigating" "2024-01-02T00:00:00Z",
    updateOf "u4" "investigating" "2024-01-02T00:00:01Z",
    updateOf "u5" "investigating" "2024-01-02T00:00:00Z",
    updateOf "u6" "investigating" "2024-01-02T00:00:01Z",
    updateOf "u7" "investigating" "2024-01-02T00:00:00Z",
    updateOf "u8" "investigating" "2024-01-02T00:00:01Z",
    updateOf "u9" "investigating" "2024-01-02T00:00:00Z",
    updateOf "u10" "investigating" "2024-01-02T00:00:01Z",
    updateOf "u11" "investigating" "2024-01-02T00:00:00Z",
    updateOf "u12" "investigating" "2024-01-02T00:00:01Z" ]

end Discordstatus

namespace Instatus

/-- An update with the given body text, status and creation timestamp, other fields empty. -/
def updateOf (markdown status createdAt : String) : IncidentUpdate :=
  { ID := "", IncidentID := "", Status := status, Body := "", Markdown := markdown,
    CreatedAt := createdAt, UpdatedAt := "" }

/-- A maintenance update with the given body text and creation timestamp, other fields empty. -/
def maintenanceUpdateOf (markdown createdAt : String) : MaintenanceUpdate :=
  { ID := "", MaintenanceID := "", Body := "", Markdown := markdown,
    CreatedAt := createdAt, UpdatedAt := "" }

/-- An incident with the given status, name and updates, other fields empty. -/
def incidentOf (status name : String) (updates : List IncidentUpdate) : Incident :=
  { ID := "", Name := name, URL := "", Status := status, Impact := "", Backfilled := false,
    CreatedAt := "", UpdatedAt := "", ResolvedAt := none, Components := [], Updates := updates }

/-- A maintenance with the given status, name and updates, other fields empty. -/
def maintenanceOf (status name : String) (updates : List MaintenanceUpdate) : Maintenance :=
  { ID := "", Name := name, URL := "", Duration := 0, Status := status, Impact := "",
    Backfilled := false, CreatedAt := "", UpdatedAt := "", ResolvedAt := none, Components := [],
    Updates := updates }

/-- An event with empty page metadata. -/
def eventOf (inc : Option Incident) (m : Option Maintenance) : InstatusWebhook :=
  { PageMeta :=
      { MetaUnsubscribe := "", MetaDocumentation := "", PageID := "", PageURL := "",
        PageStatusIndicator := "", PageStatusDescription := "" },
    Incident := inc, Maintenance := m }

end Instatus

/-- The two decimal digits of a number below 100, tens first: the zero-padded rendering. -/
def twoDigits (n : Nat) : List Char := [Char.ofNat (48 + n / 10), Char.ofNat (48 + n % 10)]

/-- The fields render the updates in ascending order of their string key: there is one field per
update of the input, the fields are the renderings of the list `out`, `out` is a rearrangement of
the input whose keys strictly ascend, and the element at position `i` of `out` is the element of
the input that has exactly `i` elements of the input with a smaller key. -/
def RendersAscending {α : Type} (key : α → String) (render : α → discordgo.MessageEmbedField)
    (inp out : List α) (fields : List discordgo.MessageEmbedField) : Prop :=
  fields.length = inp.length ∧
  fields = out.map render ∧
  out.Perm inp ∧
  out.Pairwise (fun a b => stringLess (key a) (key b) = true) ∧
  ∀ (i : Nat) (u : α), out[i]? = some u →
    u ∈ inp ∧ (inp.filter (fun v => stringLess (key v) (key u))).length = i

namespace Discordstatus

/-- Three updates with different timestamps, the latest first in the payload. -/
def threeUpdates : List IncidentUpdate :=
  [ updateOf "third" "resolved" "2024-01-02T03:04:07.000Z",
    updateOf "first" "investigating" "2024-01-02T03:04:05.000Z",
    updateOf "second" "identified" "2024-01-02T03:04:06.000Z" ]

/-- Four updates on two timestamps, interleaved in the payload. -/
def tiedUpdates : List IncidentUpdate :=
  [ updateOf "late1" "monitoring" "2024-01-02T03:04:06.000Z",
    updateOf "early1" "investigating" "2024-01-02T03:04:05.000Z",
    updateOf "late2" "resolved" "2024-01-02T03:04:06.000Z",
    updateOf "early2" "identified" "2024-01-02T03:04:05.000Z" ]

end Discordstatus

namespace Instatus

/-- Three updates with different timestamps, the latest first in the payload. -/
def threeUpdates : List IncidentUpdate :=
  [ updateOf "third" "Resolved" "2024-01-02T03:04:07.000Z",
    updateOf "first" "Investigating" "2024-01-02T03:04:05.000Z",
    updateOf "second" "Identified" "2024-01-02T03:04:06.000Z" ]

/-- Four updates on two timestamps, interleaved in the payload. -/
def tiedUpdates : List IncidentUpdate :=
  [ updateOf "late1" "Monitoring" "2024-01-02T03:04:06.000Z",
    updateOf "early1" "Investigating" "2024-01-02T03:04:05.000Z",
    updateOf "late2" "Resolved" "2024-01-02T03:04:06.000Z",
    updateOf "early2" "Identified" "2024-01-02T03:04:05.000Z" ]

/-- Three maintenance updates with different timestamps, the latest first in the payload. -/
def threeMaintenanceUpdates : List MaintenanceUpdate :=
  [ maintenanceUpdateOf "third" "2024-01-02T03:04:07.000Z",
    maintenanceUpdateOf "first" "2024-01-02T03:04:05.000Z",
    maintenanceUpdateOf "second" "2024-01-02T03:04:06.000Z" ]

/-- Four maintenance updates on two timestamps, interleaved in the payload. -/
def tiedMaintenanceUpdates : List MaintenanceUpdate :=
  [ maintenanceUpdateOf "late1" "2024-01-02T03:04:06.000Z",
    maintenanceUpdateOf "early1" "2024-01-02T03:04:05.000Z",
    maintenanceUpdateOf "late2" "2024-01-02T03:04:06.000Z",
    maintenanceUpdateOf "early2" "2024-01-02T03:04:05.000Z" ]

end Instatus

/-- The process environment of a deployment: `os.Getenv` returns the webhook identifier `"42"`,
the token `"secret"`, the given role identifier, and the empty string for every variable that is
not set. A role that is not configured is the empty string. -/
def environmentOf (role : String) : String → String := fun name =>
  if name = "DISCORD_WEBHOOK_ID" then "42"
  else if name = "DISCORD_WEBHOOK_TOKEN" then "secret"
  else if name = "DISCORD_STATUS_ROLE_ID" then role
  else ""

/-- Three incident updates of package discordstatus that arrive in ascending order of their
timestamps. -/
def Discordstatus.orderedUpdates : List Discordstatus.IncidentUpdate :=
  [ Discordstatus.updateOf "first" "investigating" "2024-01-02T03:04:05.000Z",
    Discordstatus.updateOf "second" "identified" "2024-01-02T03:04:06.000Z",
    Discordstatus.updateOf "third" "resolved" "2024-01-02T03:04:07.000Z" ]

/-- Three incident updates of package instatus that arrive in ascending order of their
timestamps. -/
def Instatus.orderedUpdates : List Instatus.IncidentUpdate :=
  [ Instatus.updateOf "first" "Investigating" "2024-01-02T03:04:05.000Z",
    Instatus.updateOf "second" "Identified" "2024-01-02T03:04:06.000Z",
    Instatus.updateOf "third" "Resolved" "2024-01-02T03:04:07.000Z" ]

/-- Three maintenance updates that arrive in ascending order of their timestamps. -/
def Instatus.orderedMaintenanceUpdates : List Instatus.MaintenanceUpdate :=
  [ Instatus.maintenanceUpdateOf "first" "2024-01-02T03:04:05.000Z",
    Instatus.maintenanceUpdateOf "second" "2024-01-02T03:04:06.000Z",
    Instatus.maintenanceUpdateOf "third" "2024-01-02T03:04:07.000Z" ]

/-- Go `func (t Time) UTC() Time`: the same instant with the location set to UTC. -/
def GoTime.Time.UTC (t : GoTime.Time) : GoTime.Time := { t with offset := 0 }

/-- Go `func (t Time) Before(u Time) bool`: the instant of `t` is strictly earlier than the
instant of `u`; the locations do not count. -/
def GoTime.Time.Before (t u : GoTime.Time) : Bool :=
  decide (t.unixSec < u.unixSec) || (decide (t.unixSec = u.unixSec) && decide (t.nsec < u.nsec))

/-- The character of the last decimal digit of `n`. -/
def digitChar (n : Nat) : Char := Char.ofNat (48 + n % 10)

/-- The last `width` decimal digits of `n`, most significant first: `n` written zero-padded in a
field of that width. -/
def padDigits : Nat → Nat → List Char
  | 0, _ => []
  | width + 1, n => padDigits width (n / 10) ++ [digitChar n]

/-- The fields of a timestamp: a calendar date, a time of day and a fraction of a second, the
latter counted in units of the last fractional digit written. -/
structure Stamp where
  year : Nat
  month : Nat
  day : Nat
  hour : Nat
  minute : Nat
  second : Nat
  fraction : Nat
  deriving DecidableEq

/-- The fields denote a date and time of day that exist, with a four-digit year and a fraction
that fits `digits` fractional digits. -/
def Stamp.Valid (digits : Nat) (s : Stamp) : Prop :=
  s.year ≤ 9999 ∧ 1 ≤ s.month ∧ s.month ≤ 12 ∧ 1 ≤ s.day ∧
  s.day ≤ GoTime.daysIn s.month s.year ∧ s.hour < 24 ∧ s.minute < 60 ∧ s.second < 60 ∧
  s.fraction < 10 ^ digits

instance (digits : Nat) (s : Stamp) : Decidable (s.Valid digits) := by
  unfold Stamp.Valid; infer_instance

/-- The timestamp written in the fixed profile `YYYY-MM-DDTHH:MM:SS.f…fZ`: zero-padded fields,
`digits` fractional digits, literal `Z`. -/
def Stamp.render (digits : Nat) (s : Stamp) : String :=
  String.mk (padDigits 4 s.year ++ '-' :: (padDigits 2 s.month ++ '-' :: (padDigits 2 s.day ++
    'T' :: (padDigits 2 s.hour ++ ':' :: (padDigits 2 s.minute ++ ':' :: (padDigits 2 s.second ++
    '.' :: (padDigits digits s.fraction ++ ['Z'])))))))

/-- The fields of `a`, read from the year down to the fraction, are less than those of `b` at the
first field where the two differ. -/
def Stamp.FieldsLess (a b : Stamp) : Prop :=
  a.year < b.year ∨ (a.year = b.year ∧ (a.month < b.month ∨ (a.month = b.month ∧
  (a.day < b.day ∨ (a.day = b.day ∧ (a.hour < b.hour ∨ (a.hour = b.hour ∧
  (a.minute < b.minute ∨ (a.minute = b.minute ∧ (a.second < b.second ∨ (a.second = b.second ∧
  a.fraction < b.fraction)))))))))))

/-- The fields of the timestamp "2024-01-02T03:04:05.123Z". -/
def Stamp.earlySample : Stamp :=
  { year := 2024, month := 1, day := 2, hour := 3, minute := 4, second := 5, fraction := 123 }

/-- The fields of the timestamp "2024-01-02T03:04:06.000Z". -/
def Stamp.lateSample : Stamp :=
  { year := 2024, month := 1, day := 2, hour := 3, minute := 4, second := 6, fraction := 0 }

/-!
## Status icons
-/

/-- The three icon constants are pairwise different and none is empty. -/
theorem Discordstatus.emoji_consts_distinct :
    Discordstatus.RedEmoji ≠ Discordstatus.YellowEmoji ∧
    Discordstatus.RedEmoji ≠ Discordstatus.GreenEmoji ∧
    Discordstatus.YellowEmoji ≠ Discordstatus.GreenEmoji ∧
    Discordstatus.RedEmoji ≠ "" ∧ Discordstatus.YellowEmoji ≠ "" ∧
    Discordstatus.GreenEmoji ≠ "" := by decide

/-- The icon of a status string in package discordstatus, as a function of the string alone. -/
theorem Discordstatus.emoji_of_status (s : String) :
    ((if s = "investigating" then Discordstatus.RedEmoji
      else if s = "identified" ∨ s = "monitoring" then Discordstatus.YellowEmoji
      else if s = "resolved" then Discordstatus.GreenEmoji else "") = Discordstatus.RedEmoji ↔
      s = "investigating") ∧
    ((if s = "investigating" then Discordstatus.RedEmoji
      else if s = "identified" ∨ s = "monitoring" then Discordstatus.YellowEmoji
      else if s = "resolved" then Discordstatus.GreenEmoji else "") = Discordstatus.YellowEmoji ↔
      s = "identified" ∨ s = "monitoring") ∧
    ((if s = "investigating" then Discordstatus.RedEmoji
      else if s = "identified" ∨ s = "monitoring" then Discordstatus.YellowEmoji
      else if s = "resolved" then Discordstatus.GreenEmoji else "") = Discordstatus.GreenEmoji ↔
      s = "resolved") ∧
    ((if s = "investigating" then Discordstatus.RedEmoji
      else if s = "identified" ∨ s = "monitoring" then Discordstatus.YellowEmoji
      else if s = "resolved" then Discordstatus.GreenEmoji else "") = "" ↔
      s ≠ "investigating" ∧ s ≠ "identified" ∧ s ≠ "monitoring" ∧ s ≠ "resolved") := by
  obtain ⟨h1, h2, h3, h4, h5, h6⟩ := Discordstatus.emoji_consts_distinct
  by_cases a : s = "investigating"
  · simp [a, h1, h2, h4]
  · by_cases b : s = "identified"
    · simp [b, h1.symm, h3, h5]
    · by_cases c : s = "monitoring"
      · simp [c, h1.symm, h3, h5]
      · by_cases d : s = "resolved"
        · simp [d, h2.symm, h3.symm, h6]
        · simp [a, b, c, d, Ne.symm h4, Ne.symm h5, Ne.symm h6]

/-- C3. In package discordstatus the icon of an incident and the icon of an incident update are
each determined exactly by the status string: red if and only if the status is "investigating",
yellow if and only if it is "identified" or "monitoring", green if and only if it is "resolved",
and the empty string if and only if it is none of these four. Both functions are total. -/
theorem Discordstatus.emoji_total_exact (inc : Discordstatus.Incident)
    (u : Discordstatus.IncidentUpdate) :
    ((inc.Emoji = Discordstatus.RedEmoji ↔ inc.Status = "investigating") ∧
     (inc.Emoji = Discordstatus.YellowEmoji ↔
        inc.Status = "identified" ∨ inc.Status = "monitoring") ∧
     (inc.Emoji = Discordstatus.GreenEmoji ↔ inc.Status = "resolved") ∧
     (inc.Emoji = "" ↔ inc.Status ≠ "investigating" ∧ inc.Status ≠ "identified" ∧
        inc.Status ≠ "monitoring" ∧ inc.Status ≠ "resolved")) ∧
    ((u.Emoji = Discordstatus.RedEmoji ↔ u.Status = "investigating") ∧
     (u.Emoji = Discordstatus.YellowEmoji ↔ u.Status = "identified" ∨ u.Status = "monitoring") ∧
     (u.Emoji = Discordstatus.GreenEmoji ↔ u.Status = "resolved") ∧
     (u.Emoji = "" ↔ u.Status ≠ "investigating" ∧ u.Status ≠ "identified" ∧
        u.Status ≠ "monitoring" ∧ u.Status ≠ "resolved")) :=
  ⟨Discordstatus.emoji_of_status inc.Status, Discordstatus.emoji_of_status u.Status⟩

/-- The icon of a maintenance status string, as a function of the string alone. -/
theorem Instatus.maintenance_emoji_of_status (s : String) :
    ((if s = "Planned" then Instatus.YellowEmoji
      else if s = "In progress" then Instatus.RedEmoji
      else if s = "Completed" then Instatus.GreenEmoji else "") = Instatus.YellowEmoji ↔
      s = "Planned") ∧
    ((if s = "Planned" then Instatus.YellowEmoji
      else if s = "In progress" then Instatus.RedEmoji
      else if s = "Completed" then Instatus.GreenEmoji else "") = Instatus.RedEmoji ↔
      s = "In progress") ∧
    ((if s = "Planned" then Instatus.YellowEmoji
      else if s = "In progress" then Instatus.RedEmoji
      else if s = "Completed" then Instatus.GreenEmoji else "") = Instatus.GreenEmoji ↔
      s = "Completed") ∧
    ((if s = "Planned" then Instatus.YellowEmoji
      else if s = "In progress" then Instatus.RedEmoji
      else if s = "Completed" then Instatus.GreenEmoji else "") = "" ↔
      s ≠ "Planned" ∧ s ≠ "In progress" ∧ s ≠ "Completed") := by
  have h1 : Instatus.RedEmoji ≠ Instatus.YellowEmoji := by decide
  have h2 : Instatus.RedEmoji ≠ Instatus.GreenEmoji := by decide
  have h3 : Instatus.YellowEmoji ≠ Instatus.GreenEmoji := by decide
  have h4 : Instatus.RedEmoji ≠ "" := by decide
  have h5 : Instatus.YellowEmoji ≠ "" := by decide
  have h6 : Instatus.GreenEmoji ≠ "" := by decide
  by_cases a : s = "Planned"
  · simp [a, h1.symm, h3, h5]
  · by_cases b : s = "In progress"
    · simp [b, h1, h2, h4]
    · by_cases c : s = "Completed"
      · simp [c, h2.symm, h3.symm, h6]
      · simp [a, b, c, Ne.symm h4, Ne.symm h5, Ne.symm h6]

/-- C4, as stated, fails: a maintenance whose status is the lower-case "planned", "in_progress"
or "completed" of the data model gets the empty string, not the yellow, red or green icon. -/
theorem Instatus.maintenance_emoji_lowercase_empty :
    (Instatus.maintenanceOf "planned" "db" []).Emoji = "" ∧
    (Instatus.maintenanceOf "planned" "db" []).Emoji ≠ Instatus.YellowEmoji ∧
    (Instatus.maintenanceOf "in_progress" "db" []).Emoji = "" ∧
    (Instatus.maintenanceOf "in_progress" "db" []).Emoji ≠ Instatus.RedEmoji ∧
    (Instatus.maintenanceOf "completed" "db" []).Emoji = "" ∧
    (Instatus.maintenanceOf "completed" "db" []).Emoji ≠ Instatus.GreenEmoji := by decide

/-- C4, amended. The icon of a maintenance is determined exactly by the status string as the
package spells it: yellow if and only if the status is "Planned", red if and only if it is
"In progress", green if and only if it is "Completed", and the empty string if and only if it is
none of these three. -/
theorem Instatus.maintenance_emoji_exact (m : Instatus.Maintenance) :
    (m.Emoji = Instatus.YellowEmoji ↔ m.Status = "Planned") ∧
    (m.Emoji = Instatus.RedEmoji ↔ m.Status = "In progress") ∧
    (m.Emoji = Instatus.GreenEmoji ↔ m.Status = "Completed") ∧
    (m.Emoji = "" ↔ m.Status ≠ "Planned" ∧ m.Status ≠ "In progress" ∧
      m.Status ≠ "Completed") :=
  Instatus.maintenance_emoji_of_status m.Status

/-!
## Title, link, footer and field bodies of the embed
-/

/-- The loop that appends one field per update builds the list of the rendered updates. -/
theorem foldl_append_singleton {α β : Type} (f : α → β) (l : List α) (acc : List β) :
    l.foldl (fun fields u => fields ++ [f u]) acc = acc ++ l.map f := by
  induction l generalizing acc with
  | nil => simp
  | cons a l ih => simp [ih]

/-- The fields of the discordstatus incident embed are the updates, as they stand after the sort,
rendered one by one. -/
theorem Discordstatus.discordstatus_incident_fields (sortSlice : SliceSorter)
    (inc : Discordstatus.Incident) :
    (Discordstatus.makeIncidentEmbed sortSlice inc).2.Fields =
      (sortSlice _ Discordstatus.updateLess inc.Updates).map Discordstatus.incidentField := by
  simp [Discordstatus.makeIncidentEmbed, foldl_append_singleton]

/-- The fields of the instatus incident embed are the updates, as they stand after the sort,
rendered one by one. -/
theorem Instatus.instatus_incident_fields (sortSlice : SliceSorter) (inc : Instatus.Incident) :
    (Instatus.makeIncidentEmbed sortSlice inc).2.Fields =
      (sortSlice _ Instatus.updateLess inc.Updates).map Instatus.incidentField := by
  simp [Instatus.makeIncidentEmbed, foldl_append_singleton]

/-- The fields of the maintenance embed are the updates, as they stand after the sort, rendered
one by one. -/
theorem Instatus.instatus_maintenance_fields (sortSlice : SliceSorter)
    (m : Instatus.Maintenance) :
    (Instatus.makeMaintenanceEmbed sortSlice m).2.Fields =
      (sortSlice _ Instatus.maintenanceUpdateLess m.Updates).map Instatus.maintenanceField := by
  simp [Instatus.makeMaintenanceEmbed, foldl_append_singleton]

/-- C5, as stated, fails: in package instatus an incident with status "resolved" and name
"API outage" gets the title " Incident: API outage", which contains "Incident: API outage" but
not the green icon. -/
theorem Instatus.resolved_lowercase_title_has_no_icon :
    (Instatus.makeIncidentEmbed GoSort.sortSlice
        (Instatus.incidentOf "resolved" "API outage" [])).2.Title = " Incident: API outage" ∧
    ¬ Contains (Instatus.makeIncidentEmbed GoSort.sortSlice
        (Instatus.incidentOf "resolved" "API outage" [])).2.Title Instatus.GreenEmoji := by
  decide

/-- C5, amended. In package instatus, for every incident whose status is "Resolved" (the spelling
of the package's constant) and every name, the title of the embed is the green icon followed by
" Incident: " and the name, so it contains the green icon and the substring "Incident: " followed
by the name. -/
theorem Instatus.resolved_title (sortSlice : SliceSorter) (inc : Instatus.Incident)
    (h : inc.Status = "Resolved") :
    (Instatus.makeIncidentEmbed sortSlice inc).2.Title =
      Instatus.GreenEmoji ++ " Incident: " ++ inc.Name ∧
    Contains (Instatus.makeIncidentEmbed sortSlice inc).2.Title Instatus.GreenEmoji ∧
    Contains (Instatus.makeIncidentEmbed sortSlice inc).2.Title ("Incident: " ++ inc.Name) := by
  have ht : (Instatus.makeIncidentEmbed sortSlice inc).2.Title =
      Instatus.GreenEmoji ++ " Incident: " ++ inc.Name := by
    simp [Instatus.makeIncidentEmbed, Instatus.Incident.Emoji, h,
      Instatus.IncidentStatusInvestigating, Instatus.IncidentStatusIdentified,
      Instatus.IncidentStatusMonitoring, Instatus.IncidentStatusResolved]
  refine ⟨ht, ?_, ?_⟩
  · rw [ht]
    exact ⟨[], (" Incident: " ++ inc.Name).data, by simp [String.data_append]⟩
  · rw [ht]
    exact ⟨(Instatus.GreenEmoji ++ " ").data, [], by
      simp [String.data_append, Instatus.GreenEmoji]⟩

/-- Witness of C5 amended: status "Resolved", name "API outage". -/
theorem Instatus.resolved_title_witness :
    (Instatus.incidentOf "Resolved" "API outage" []).Status = "Resolved" ∧
    (Instatus.makeIncidentEmbed GoSort.sortSlice
        (Instatus.incidentOf "Resolved" "API outage" [])).2.Title =
      Instatus.GreenEmoji ++ " Incident: " ++ "API outage" ∧
    Contains (Instatus.makeIncidentEmbed GoSort.sortSlice
        (Instatus.incidentOf "Resolved" "API outage" [])).2.Title Instatus.GreenEmoji ∧
    Contains (Instatus.makeIncidentEmbed GoSort.sortSlice
        (Instatus.incidentOf "Resolved" "API outage" [])).2.Title "Incident: API outage" :=
  ⟨rfl, Instatus.resolved_title GoSort.sortSlice
    (Instatus.incidentOf "Resolved" "API outage" []) rfl⟩

/-!
## The event handler
-/

/-- C7. An event that carries neither an incident nor a maintenance (in package discordstatus:
no incident) makes `Main` return without a single webhook call, whatever the environment, the
outcome of the session construction and the sort routine; the event is left as it was. -/
theorem Main_no_entity_no_call (sortSlice : SliceSorter) (getenv : String → String)
    (newFails : Bool) (de : Discordstatus.InstatusWebhook) (ie : Instatus.InstatusWebhook)
    (hd : de.Incident = none) (hi : ie.Incident = none) (hm : ie.Maintenance = none) :
    (Discordstatus.Main sortSlice getenv newFails de).calls = [] ∧
    (Discordstatus.Main sortSlice getenv newFails de).event = de ∧
    (Instatus.Main sortSlice getenv newFails ie).calls = [] ∧
    (Instatus.Main sortSlice getenv newFails ie).event = ie := by
  unfold Discordstatus.Main Instatus.Main
  cases newFails <;> simp [hd, hi, hm]

/-- Witness of C7: the events with empty slots, an environment that defines every variable as
"x", and a session construction that succeeds. -/
theorem Main_no_entity_no_call_witness :
    (Discordstatus.eventOf none).Incident = none ∧
    (Instatus.eventOf none none).Incident = none ∧
    (Instatus.eventOf none none).Maintenance = none ∧
    (Discordstatus.Main GoSort.sortSlice (fun _ => "x") false
        (Discordstatus.eventOf none)).calls = [] ∧
    (Discordstatus.Main GoSort.sortSlice (fun _ => "x") false
        (Discordstatus.eventOf none)).event = Discordstatus.eventOf none ∧
    (Instatus.Main GoSort.sortSlice (fun _ => "x") false
        (Instatus.eventOf none none)).calls = [] ∧
    (Instatus.Main GoSort.sortSlice (fun _ => "x") false
        (Instatus.eventOf none none)).event = Instatus.eventOf none none :=
  ⟨rfl, rfl, rfl, Main_no_entity_no_call GoSort.sortSlice (fun _ => "x") false
    (Discordstatus.eventOf none) (Instatus.eventOf none none) rfl rfl rfl⟩

/-- C8. The embed of an incident, in both packages, has a footer whose text is "Started at"; the
embed of a maintenance has none. -/
theorem embed_footer (sortSlice : SliceSorter) (dinc : Discordstatus.Incident)
    (iinc : Instatus.Incident) (m : Instatus.Maintenance) :
    (Discordstatus.makeIncidentEmbed sortSlice dinc).2.Footer = some { Text := "Started at" } ∧
    (Instatus.makeIncidentEmbed sortSlice iinc).2.Footer = some { Text := "Started at" } ∧
    (Instatus.makeMaintenanceEmbed sortSlice m).2.Footer = none :=
  ⟨rfl, rfl, rfl⟩

/-- C9. The title of an incident embed, in both packages, is the incident's icon, then
" Incident: ", then its name; the title of a maintenance embed is the maintenance's icon, then
" Maintenance: ", then its name. When the icon is empty, which is the case for every status the
icon function does not list, the title is " Incident: " or " Maintenance: " followed by the
name: it starts with a space and carries no icon. -/
theorem embed_title (sortSlice : SliceSorter) (dinc : Discordstatus.Incident)
    (iinc : Instatus.Incident) (m : Instatus.Maintenance) :
    ((Discordstatus.makeIncidentEmbed sortSlice dinc).2.Title =
        dinc.Emoji ++ " Incident: " ++ dinc.Name ∧
      (Instatus.makeIncidentEmbed sortSlice iinc).2.Title =
        iinc.Emoji ++ " Incident: " ++ iinc.Name ∧
      (Instatus.makeMaintenanceEmbed sortSlice m).2.Title =
        m.Emoji ++ " Maintenance: " ++ m.Name) ∧
    ((dinc.Status ≠ "investigating" ∧ dinc.Status ≠ "identified" ∧
        dinc.Status ≠ "monitoring" ∧ dinc.Status ≠ "resolved" →
      (Discordstatus.makeIncidentEmbed sortSlice dinc).2.Title = " Incident: " ++ dinc.Name) ∧
     (iinc.Status ≠ "Investigating" ∧ iinc.Status ≠ "Identified" ∧
        iinc.Status ≠ "Monitoring" ∧ iinc.Status ≠ "Resolved" →
      (Instatus.makeIncidentEmbed sortSlice iinc).2.Title = " Incident: " ++ iinc.Name) ∧
     (m.Status ≠ "Planned" ∧ m.Status ≠ "In progress" ∧ m.Status ≠ "Completed" →
      (Instatus.makeMaintenanceEmbed sortSlice m).2.Title = " Maintenance: " ++ m.Name)) := by
  refine ⟨⟨rfl, rfl, rfl⟩, ?_, ?_, ?_⟩
  · rintro ⟨a, b, c, d⟩
    simp [Discordstatus.makeIncidentEmbed, Discordstatus.Incident.Emoji, a, b, c, d,
      Discordstatus.IncidentStatusInvestigating, Discordstatus.IncidentStatusIdentified,
      Discordstatus.IncidentStatusMonitoring, Discordstatus.IncidentStatusResolved]
  · rintro ⟨a, b, c, d⟩
    simp [Instatus.makeIncidentEmbed, Instatus.Incident.Emoji, a, b, c, d,
      Instatus.IncidentStatusInvestigating, Instatus.IncidentStatusIdentified,
      Instatus.IncidentStatusMonitoring, Instatus.IncidentStatusResolved]
  · rintro ⟨a, b, c⟩
    simp [Instatus.makeMaintenanceEmbed, Instatus.Maintenance.Emoji, a, b, c,
      Instatus.MaintenanceStatusPlanned, Instatus.MaintenanceStatusInProgress,
      Instatus.MaintenanceStatusCompleted]

/-- Witness of C9: an incident of each package and a maintenance with the unlisted status
"postmortem". -/
theorem embed_title_witness :
    (Discordstatus.makeIncidentEmbed GoSort.sortSlice
        (Discordstatus.incidentOf "postmortem" "API outage" [])).2.Title =
      " Incident: API outage" ∧
    (Instatus.makeIncidentEmbed GoSort.sortSlice
        (Instatus.incidentOf "postmortem" "API outage" [])).2.Title = " Incident: API outage" ∧
    (Instatus.makeMaintenanceEmbed GoSort.sortSlice
        (Instatus.maintenanceOf "postmortem" "DB upgrade" [])).2.Title =
      " Maintenance: DB upgrade" :=
  have h := (embed_title GoSort.sortSlice (Discordstatus.incidentOf "postmortem" "API outage" [])
    (Instatus.incidentOf "postmortem" "API outage" [])
    (Instatus.maintenanceOf "postmortem" "DB upgrade" [])).2
  ⟨h.1 (by decide), h.2.1 (by decide), h.2.2 (by decide)⟩

/-- C10. The two packages differ in link and field body. In package discordstatus the embed URL
is "https://discordstatus.com/incidents/" followed by the incident ID, does not depend on the
incident's URL field, and each field value is the plain-text body of its update. In package
instatus the embed URL is the URL field of the incident (of the maintenance), does not depend on
the ID, and each field value is the Markdown of its update. -/
theorem embed_url_and_values (sortSlice : SliceSorter) (dinc : Discordstatus.Incident)
    (iinc : Instatus.Incident) (m : Instatus.Maintenance) (other : String) :
    ((Discordstatus.makeIncidentEmbed sortSlice dinc).2.URL =
        "https://discordstatus.com/incidents/" ++ dinc.ID ∧
      (Discordstatus.makeIncidentEmbed sortSlice { dinc with URL := other }).2 =
        (Discordstatus.makeIncidentEmbed sortSlice dinc).2 ∧
      (Discordstatus.makeIncidentEmbed sortSlice dinc).2.Fields.map (fun f => f.Value) =
        (Discordstatus.makeIncidentEmbed sortSlice dinc).1.Updates.map (fun u => u.Body)) ∧
    ((Instatus.makeIncidentEmbed sortSlice iinc).2.URL = iinc.URL ∧
      (Instatus.makeIncidentEmbed sortSlice { iinc with ID := other }).2 =
        (Instatus.makeIncidentEmbed sortSlice iinc).2 ∧
      (Instatus.makeIncidentEmbed sortSlice iinc).2.Fields.map (fun f => f.Value) =
        (Instatus.makeIncidentEmbed sortSlice iinc).1.Updates.map (fun u => u.Markdown)) ∧
    ((Instatus.makeMaintenanceEmbed sortSlice m).2.URL = m.URL ∧
      (Instatus.makeMaintenanceEmbed sortSlice { m with ID := other }).2 =
        (Instatus.makeMaintenanceEmbed sortSlice m).2 ∧
      (Instatus.makeMaintenanceEmbed sortSlice m).2.Fields.map (fun f => f.Value) =
        (Instatus.makeMaintenanceEmbed sortSlice m).1.Updates.map (fun u => u.Markdown)) := by
  refine ⟨⟨rfl, rfl, ?_⟩, ⟨rfl, rfl, ?_⟩, ⟨rfl, rfl, ?_⟩⟩
  · rw [Discordstatus.discordstatus_incident_fields]
    simp [Discordstatus.makeIncidentEmbed, Discordstatus.incidentField]
  · rw [Instatus.instatus_incident_fields]
    simp [Instatus.makeIncidentEmbed, Instatus.incidentField]
  · rw [Instatus.instatus_maintenance_fields]
    simp [Instatus.makeMaintenanceEmbed, Instatus.maintenanceField]

/-!
## Humanized time
-/

/-- Go `appendInt` with width 2 writes a number below 100 as its two decimal digits. -/
theorem GoTime.appendInt_two (n : Nat) (h : n < 100) : GoTime.appendInt n 2 = twoDigits n := by
  revert n
  decide

/-- The wall clock of a time value is a time of day. -/
theorem GoTime.Clock_lt (t : GoTime.Time) :
    t.Clock.1 < 24 ∧ t.Clock.2.1 < 60 ∧ t.Clock.2.2 < 60 := by
  unfold GoTime.Time.Clock
  have h0 : 0 ≤ (t.unixSec + t.offset) % 86400 := Int.emod_nonneg _ (by norm_num)
  have h1 : (t.unixSec + t.offset) % 86400 < 86400 := Int.emod_lt_of_pos _ (by norm_num)
  have h2 : ((t.unixSec + t.offset) % 86400).toNat < 86400 := by omega
  refine ⟨?_, ?_, ?_⟩ <;> simp only <;> omega

/-- The layout "15:04:05z" renders a time value as eight characters of zero-padded clock and the
letter z. -/
theorem GoTime.Format_150405z_eq (t : GoTime.Time) :
    t.Format_150405z = String.mk (twoDigits t.Clock.1 ++ ':' :: twoDigits t.Clock.2.1 ++
      ':' :: twoDigits t.Clock.2.2 ++ ['z']) := by
  obtain ⟨h, m, s⟩ := GoTime.Clock_lt t
  unfold GoTime.Time.Format_150405z
  rw [GoTime.appendInt_two _ (by omega), GoTime.appendInt_two _ (by omega),
    GoTime.appendInt_two _ (by omega)]

/-- C6. For every string, `humanizedTime` (the same function in both packages) either finds that
the string does not parse under the RFC3339Nano layout and returns it unchanged, or it parses to
a time value and the result is exactly nine characters: the two digits of the hour (below 24),
a colon, the two digits of the minute (below 60), a colon, the two digits of the second (below
60), all of the parsed value's clock, and the letter z. "not-a-date" is returned unchanged and
"2024-01-02T03:04:05.123Z" gives "03:04:05z". The function is total. -/
theorem humanizedTime_total (t : String) :
    (Instatus.humanizedTime t = Discordstatus.humanizedTime t) ∧
    ((GoTime.Parse_RFC3339Nano t.data = none ∧ Discordstatus.humanizedTime t = t) ∨
     (∃ parsed, GoTime.Parse_RFC3339Nano t.data = some parsed ∧
        parsed.Clock.1 < 24 ∧ parsed.Clock.2.1 < 60 ∧ parsed.Clock.2.2 < 60 ∧
        Discordstatus.humanizedTime t =
          String.mk (twoDigits parsed.Clock.1 ++ ':' :: twoDigits parsed.Clock.2.1 ++
            ':' :: twoDigits parsed.Clock.2.2 ++ ['z']) ∧
        (Discordstatus.humanizedTime t).length = 9)) ∧
    Discordstatus.humanizedTime "not-a-date" = "not-a-date" ∧
    Discordstatus.humanizedTime "2024-01-02T03:04:05.123Z" = "03:04:05z" := by
  refine ⟨rfl, ?_, by decide, by decide⟩
  unfold Discordstatus.humanizedTime
  cases hp : GoTime.Parse_RFC3339Nano t.data with
  | none => exact Or.inl ⟨rfl, rfl⟩
  | some parsed =>
    refine Or.inr ⟨parsed, rfl, (GoTime.Clock_lt parsed).1, (GoTime.Clock_lt parsed).2.1,
      (GoTime.Clock_lt parsed).2.2, GoTime.Format_150405z_eq parsed, ?_⟩
    simp only [GoTime.Format_150405z_eq parsed]
    simp [String.length, twoDigits]

/-!
## String order
-/

theorem stringLess_loop_irrefl (a : List Char) : stringLess_loop a a = false := by
  induction a with
  | nil => rfl
  | cons c a ih => simp [stringLess_loop, ih]

theorem stringLess_loop_trans (a b c : List Char) (hab : stringLess_loop a b = true)
    (hbc : stringLess_loop b c = true) : stringLess_loop a c = true := by
  induction a generalizing b c with
  | nil =>
    cases b with
    | nil => simp [stringLess_loop] at hab
    | cons y b =>
      cases c with
      | nil => simp [stringLess_loop] at hbc
      | cons z c => rfl
  | cons x a ih =>
    cases b with
    | nil => simp [stringLess_loop] at hab
    | cons y b =>
      cases c with
      | nil => simp [stringLess_loop] at hbc
      | cons z c =>
        simp only [stringLess_loop] at hab hbc ⊢
        by_cases hxy : x < y
        · by_cases hyz : y < z
          · simp [lt_trans hxy hyz]
          · by_cases hzy : z < y
            · simp [hyz, hzy] at hbc
            · have hyz' : y = z := le_antisymm (not_lt.mp hzy) (not_lt.mp hyz)
              subst hyz'
              simp [hxy]
        · by_cases hyx : y < x
          · simp [hxy, hyx] at hab
          · have hxy' : x = y := le_antisymm (not_lt.mp hyx) (not_lt.mp hxy)
            subst hxy'
            by_cases hxz : x < z
            · simp [hxz]
            · by_cases hzx : z < x
              · simp [hxz, hzx] at hbc
              · simp only [hxy, hxz, hzx, if_false] at hab hbc ⊢
                exact ih b c hab hbc

theorem stringLess_loop_total (a b : List Char) (hab : stringLess_loop a b = false)
    (hba : stringLess_loop b a = false) : a = b := by
  induction a generalizing b with
  | nil =>
    cases b with
    | nil => rfl
    | cons y b => simp [stringLess_loop] at hab
  | cons x a ih =>
    cases b with
    | nil => simp [stringLess_loop] at hba
    | cons y b =>
      simp only [stringLess_loop] at hab hba
      by_cases hxy : x < y
      · simp [hxy] at hab
      · by_cases hyx : y < x
        · simp [hyx] at hba
        · have hxy' : x = y := le_antisymm (not_lt.mp hyx) (not_lt.mp hxy)
          subst hxy'
          simp only [hxy, if_false] at hab hba
          rw [ih b hab hba]

/-- No string is less than itself. -/
theorem stringLess_irrefl (a : String) : stringLess a a = false :=
  stringLess_loop_irrefl a.data

/-- The string order is transitive. -/
theorem stringLess_trans (a b c : String) (hab : stringLess a b = true)
    (hbc : stringLess b c = true) : stringLess a c = true :=
  stringLess_loop_trans _ _ _ hab hbc

/-- Two strings neither of which is less than the other are the same string. -/
theorem stringLess_total (a b : String) (hab : stringLess a b = false)
    (hba : stringLess b a = false) : a = b := by
  have := stringLess_loop_total _ _ hab hba
  cases a; cases b; simp_all

/-- The string order is asymmetric. -/
theorem stringLess_asymm (a b : String) (hab : stringLess a b = true) :
    stringLess b a = false := by
  cases h : stringLess b a with
  | false => rfl
  | true =>
    have := stringLess_trans a b a hab h
    rw [stringLess_irrefl] at this
    exact absurd this (by simp)

/-- Comparing records by a string key is a transitive ordering in the sense Go requires. -/
theorem isTransitiveOrdering_of_key {α : Type} (key : α → String) (less : α → α → Bool)
    (hless : ∀ a b, less a b = stringLess (key a) (key b)) : IsTransitiveOrdering less := by
  refine ⟨fun a => by rw [hless]; exact stringLess_irrefl _,
    fun a b c hab hbc => ?_, fun a b c hab hbc => ?_⟩
  · rw [hless] at hab hbc ⊢
    exact stringLess_trans _ _ _ hab hbc
  · rw [hless] at hab hbc ⊢
    cases hac : stringLess (key a) (key c) with
    | false => rfl
    | true =>
      cases hcb : stringLess (key c) (key b) with
      | true =>
        have := stringLess_trans _ _ _ hac hcb
        rw [hab] at this
        exact absurd this (by simp)
      | false =>
        have hbc' : key b = key c := stringLess_total _ _ hbc hcb
        rw [hbc', hac] at hab
        exact absurd hab (by simp)

/-!
## The sort under the documented contract of sort.Slice
-/

/-- A rearrangement of records with pairwise different string keys, in which no record is less
than its predecessor under the comparison of keys, has strictly ascending keys. -/
theorem strictly_ascending_of_sorted {α : Type} (key : α → String) (less : α → α → Bool)
    (hless : ∀ a b, less a b = stringLess (key a) (key b)) (x out : List α)
    (hnd : (x.map key).Nodup) (hperm : out.Perm x)
    (hchain : out.Chain' (fun a b => less b a = false)) :
    out.Pairwise (fun a b => stringLess (key a) (key b) = true) := by
  have hto := isTransitiveOrdering_of_key key less hless
  have htrans : IsTrans α (fun a b => less b a = false) :=
    ⟨fun a b c hab hbc => hto.2.2 c b a hbc hab⟩
  have hpw : out.Pairwise (fun a b => less b a = false) := List.chain'_iff_pairwise.mp hchain
  have hnd' : (out.map key).Nodup := (hperm.map key).nodup_iff.mpr hnd
  have hne : out.Pairwise (fun a b => key a ≠ key b) := by
    rw [List.Nodup, List.pairwise_map] at hnd'
    exact hnd'
  refine (hpw.and hne).imp ?_
  rintro a b ⟨hba, hab⟩
  cases h : stringLess (key a) (key b) with
  | true => rfl
  | false =>
    rw [hless] at hba
    exact absurd (stringLess_total _ _ h hba) hab

/-- In a list whose keys strictly ascend, the element at position i has exactly i elements with a
smaller key. -/
theorem count_smaller_of_ascending {α : Type} (key : α → String) (l : List α)
    (hpw : l.Pairwise (fun a b => stringLess (key a) (key b) = true)) (i : Nat) (u : α)
    (hu : l[i]? = some u) :
    (l.filter (fun v => stringLess (key v) (key u))).length = i := by
  induction l generalizing i with
  | nil => simp at hu
  | cons a l ih =>
    rw [List.pairwise_cons] at hpw
    cases i with
    | zero =>
      simp only [List.getElem?_cons_zero, Option.some.injEq] at hu
      subst hu
      rw [List.filter_cons, stringLess_irrefl]
      simp only [Bool.false_eq_true, if_false, List.length_eq_zero, List.filter_eq_nil_iff]
      intro v hv
      rw [stringLess_asymm _ _ (hpw.1 v hv)]
      simp
    | succ i =>
      simp only [List.getElem?_cons_succ] at hu
      have hmem : u ∈ l := List.getElem?_mem hu
      rw [List.filter_cons, hpw.1 u hmem]
      simp [ih hpw.2 i hu]

/-- Rendering a rearrangement of records with pairwise different keys in which no record is less
than its predecessor: one field per record, in strictly ascending order of the keys, the i-th
from the record with exactly i smaller keys in the input. -/
theorem rendersAscending_of_sorted {α : Type} (key : α → String) (less : α → α → Bool)
    (hless : ∀ a b, less a b = stringLess (key a) (key b))
    (render : α → discordgo.MessageEmbedField) (x out : List α) (hnd : (x.map key).Nodup)
    (hperm : out.Perm x) (hchain : out.Chain' (fun a b => less b a = false)) :
    RendersAscending key render x out (out.map render) := by
  have hpw := strictly_ascending_of_sorted key less hless x out hnd hperm hchain
  refine ⟨by rw [List.length_map, hperm.length_eq], rfl, hperm, hpw, fun i u hu =>
    ⟨hperm.subset (List.getElem?_mem hu), ?_⟩⟩
  rw [← (hperm.filter _).length_eq]
  exact count_smaller_of_ascending key _ hpw i u hu

/-- The reference sorter meets the contract of sort.Slice. -/
theorem referenceSorter_sortsSlice : SortsSlice referenceSorter := by
  intro α less x hto
  have htotal : IsTotal α (fun a b => less b a = false) := ⟨fun a b => by
    cases hab : less b a with
    | false => exact Or.inl rfl
    | true =>
      right
      cases hba : less a b with
      | false => rfl
      | true =>
        have := hto.2.1 a b a hba hab
        rw [hto.1] at this
        exact absurd this (by simp)⟩
  have htrans : IsTrans α (fun a b => less b a = false) :=
    ⟨fun a b c hab hbc => hto.2.2 c b a hbc hab⟩
  exact ⟨List.perm_insertionSort _ x, (List.sorted_insertionSort _ x).chain'⟩

/-!
## The short-slice path of Go's sort.Slice: insertion sort
-/

/-- Swapping two neighbours of a list exchanges them and leaves the rest in place. -/
theorem GoSort.swapAt_adjacent {α : Type} (data : List α) (j : Nat) (x y : α)
    (hx : data[j]? = some x) (hy : data[j + 1]? = some y) :
    ∃ l r, data = l ++ x :: y :: r ∧ GoSort.swapAt data (j + 1) j = l ++ y :: x :: r := by
  induction data generalizing j with
  | nil => simp at hx
  | cons a t ih =>
    cases j with
    | zero =>
      cases t with
      | nil => simp at hy
      | cons b r =>
        simp only [List.getElem?_cons_zero, Option.some.injEq, zero_add,
          List.getElem?_cons_succ] at hx hy
        subst hx; subst hy
        exact ⟨[], r, rfl, by simp [GoSort.swapAt]⟩
    | succ j =>
      simp only [List.getElem?_cons_succ] at hx hy
      obtain ⟨l, r, h1, h2⟩ := ih j hx hy
      refine ⟨a :: l, r, by simp [h1], ?_⟩
      have : GoSort.swapAt (a :: t) (j + 1 + 1) (j + 1) = a :: GoSort.swapAt t (j + 1) j := by
        simp only [GoSort.swapAt, List.getElem?_cons_succ, hx, hy, List.set_cons_succ]
      rw [this, h2]
      rfl

/-- A swap of two neighbours that a predicate does not both select leaves the selected elements
and their order unchanged. -/
theorem GoSort.filter_swapAt_adjacent {α : Type} (p : α → Bool) (data : List α) (j : Nat)
    (x y : α) (hx : data[j]? = some x) (hy : data[j + 1]? = some y)
    (hp : ¬ (p x = true ∧ p y = true)) :
    (GoSort.swapAt data (j + 1) j).filter p = data.filter p := by
  obtain ⟨l, r, h1, h2⟩ := GoSort.swapAt_adjacent data j x y hx hy
  rw [h2, h1]
  simp only [List.filter_append, List.filter_cons]
  cases hpx : p x <;> cases hpy : p y <;> simp_all

/-- The comparison on indices holds only for two stored elements the comparison holds for. -/
theorem GoSort.lessAt_eq_true {α : Type} (less : α → α → Bool) (data : List α) (i j : Nat)
    (h : GoSort.lessAt less data i j = true) :
    ∃ x y, data[i]? = some x ∧ data[j]? = some y ∧ less x y = true := by
  unfold GoSort.lessAt at h
  cases hi : data[i]? with
  | none => simp [hi] at h
  | some x =>
    cases hj : data[j]? with
    | none => simp [hi, hj] at h
    | some y =>
      simp only [hi, hj] at h
      exact ⟨x, y, rfl, rfl, h⟩

/-- The inner loop of insertion sort keeps, for every predicate that never selects two elements
one of which is less than the other, the selected elements in their order. -/
theorem GoSort.insertionSort_inner_filter {α : Type} (less : α → α → Bool) (p : α → Bool)
    (hp : ∀ x y, less x y = true → ¬ (p x = true ∧ p y = true)) (a j : Nat) (data : List α) :
    (GoSort.insertionSort_inner less a j data).filter p = data.filter p := by
  induction j generalizing data with
  | zero => rfl
  | succ j ih =>
    unfold GoSort.insertionSort_inner
    split
    · next h =>
      simp only [Bool.and_eq_true, decide_eq_true_eq] at h
      obtain ⟨y, x, hy, hx, hlt⟩ := GoSort.lessAt_eq_true less data (j + 1) j h.2
      rw [ih, GoSort.filter_swapAt_adjacent p data j x y hx hy]
      intro hxy
      exact hp y x hlt ⟨hxy.2, hxy.1⟩
    · rfl

/-- The outer loop of insertion sort keeps the selected elements in their order. -/
theorem GoSort.insertionSort_loop_filter {α : Type} (less : α → α → Bool) (p : α → Bool)
    (hp : ∀ x y, less x y = true → ¬ (p x = true ∧ p y = true)) (a n i : Nat)
    (data : List α) :
    (GoSort.insertionSort_loop less a n i data).filter p = data.filter p := by
  induction n generalizing i data with
  | zero => rfl
  | succ n ih =>
    unfold GoSort.insertionSort_loop
    rw [ih, GoSort.insertionSort_inner_filter less p hp]

/-- On a slice of at most twelve elements Go's sort.Slice is an insertion sort, and it
returns. -/
theorem GoSort.Slice_short {α : Type} (less : α → α → Bool) (x : List α)
    (h : x.length ≤ 12) :
    GoSort.Slice less x = some (GoSort.insertionSort_func less x 0 x.length) := by
  unfold GoSort.Slice GoSort.pdqsort_func
  simp [h]

/-- On a slice of at most twelve elements Go's sort.Slice, with a comparison of string keys, is
stable. -/
theorem GoSort.sortSlice_short_stable {α : Type} (key : α → String) (less : α → α → Bool)
    (hless : ∀ a b, less a b = stringLess (key a) (key b)) (x : List α)
    (h : x.length ≤ 12) : StableBy key x (GoSort.sortSlice α less x) := by
  intro k
  unfold GoSort.sortSlice
  rw [GoSort.Slice_short less x h]
  simp only [Option.getD_some, GoSort.insertionSort_func]
  apply GoSort.insertionSort_loop_filter
  intro a b hab hk
  simp only [beq_iff_eq] at hk
  rw [hless, hk.1, hk.2, stringLess_irrefl] at hab
  exact absurd hab (by simp)

/-- Swapping the neighbours at the end of an initial part. -/
theorem GoSort.swapAt_append_cons {α : Type} (l : List α) (y x : α) (r : List α) :
    GoSort.swapAt (l ++ y :: x :: r) (l.length + 1) l.length = l ++ x :: y :: r := by
  induction l with
  | nil => simp [GoSort.swapAt]
  | cons a l ih =>
    have h : GoSort.swapAt (a :: (l ++ y :: x :: r)) (l.length + 1 + 1) (l.length + 1) =
        a :: GoSort.swapAt (l ++ y :: x :: r) (l.length + 1) l.length := by
      simp [GoSort.swapAt]
    simpa [ih] using h

/-- The comparison on the neighbours at the end of an initial part. -/
theorem GoSort.lessAt_append_cons {α : Type} (less : α → α → Bool) (l : List α) (y x : α)
    (r : List α) :
    GoSort.lessAt less (l ++ y :: x :: r) (l.length + 1) l.length = less x y := by
  have h1 : (l ++ y :: x :: r)[l.length + 1]? = some x := by
    rw [List.getElem?_append_right (by omega)]
    simp
  have h2 : (l ++ y :: x :: r)[l.length]? = some y := by
    rw [List.getElem?_append_right (by omega)]
    simp
  simp only [GoSort.lessAt, h1, h2]

/-- The inner loop of insertion sort, started on the element behind an ordered initial part,
leaves an ordered rearrangement of that part and the element, and the rest in place. -/
theorem GoSort.insertionSort_inner_sorts {α : Type} (less : α → α → Bool)
    (hto : IsTransitiveOrdering less) (j : Nat) (l : List α) (x : α) (r : List α)
    (hj : l.length = j) (hl : l.Pairwise (fun a b => less b a = false)) :
    ∃ l', GoSort.insertionSort_inner less 0 j (l ++ x :: r) = l' ++ r ∧ l'.Perm (x :: l) ∧
      l'.Pairwise (fun a b => less b a = false) := by
  induction j generalizing l x r with
  | zero =>
    have hnil : l = [] := List.length_eq_zero.mp hj
    subst hnil
    exact ⟨[x], rfl, List.Perm.refl _, List.pairwise_singleton _ _⟩
  | succ j ih =>
    rcases List.eq_nil_or_concat l with hnil | ⟨l0, y, hl0⟩
    · subst hnil
      simp at hj
    · rw [List.concat_eq_append] at hl0
      subst hl0
      have hlen : l0.length = j := by simpa using hj
      subst hlen
      have hdata : l0 ++ [y] ++ x :: r = l0 ++ y :: x :: r := by simp
      rw [List.pairwise_append] at hl
      obtain ⟨hl0, -, hy⟩ := hl
      rw [hdata]
      unfold GoSort.insertionSort_inner
      rw [GoSort.lessAt_append_cons]
      cases hxy : less x y with
      | true =>
        simp only [Nat.zero_lt_succ, decide_True, Bool.and_self, if_true]
        rw [GoSort.swapAt_append_cons]
        obtain ⟨l', h1, h2, h3⟩ := ih l0 x (y :: r) rfl hl0
        refine ⟨l' ++ [y], by rw [h1]; simp, ?_, ?_⟩
        · exact (h2.append_right [y]).trans (by simp)
        · rw [List.pairwise_append]
          refine ⟨h3, List.pairwise_singleton _ _, ?_⟩
          intro a ha b hb
          rw [List.mem_singleton] at hb
          subst hb
          rcases List.mem_cons.mp (h2.subset ha) with hax | hal
          · subst hax
            cases hba : less b a with
            | false => rfl
            | true =>
              have := hto.2.1 a b a hxy hba
              rw [hto.1] at this
              exact absurd this (by simp)
          · exact hy a hal b (List.mem_singleton_self b)
      | false =>
        simp only [Bool.and_false, Bool.false_eq_true, if_false]
        refine ⟨l0 ++ [y] ++ [x], by simp, List.perm_append_singleton x (l0 ++ [y]), ?_⟩
        rw [List.pairwise_append]
        refine ⟨List.pairwise_append.mpr ⟨hl0, List.pairwise_singleton _ _, hy⟩,
          List.pairwise_singleton _ _, ?_⟩
        intro a ha b hb
        rw [List.mem_singleton] at hb
        subst hb
        rcases List.mem_append.mp ha with hal | hay
        · exact hto.2.2 b y a hxy (hy a hal y (List.mem_singleton_self y))
        · rw [List.mem_singleton] at hay
          subst hay
          exact hxy

/-- The outer loop of insertion sort, started behind an ordered initial part, leaves an ordered
rearrangement of the slice. -/
theorem GoSort.insertionSort_loop_sorts {α : Type} (less : α → α → Bool)
    (hto : IsTransitiveOrdering less) (n : Nat) (l r : List α) (hn : r.length = n)
    (hl : l.Pairwise (fun a b => less b a = false)) :
    (GoSort.insertionSort_loop less 0 n l.length (l ++ r)).Perm (l ++ r) ∧
    (GoSort.insertionSort_loop less 0 n l.length (l ++ r)).Pairwise
      (fun a b => less b a = false) := by
  induction n generalizing l r with
  | zero =>
    have hnil : r = [] := List.length_eq_zero.mp hn
    subst hnil
    simpa [GoSort.insertionSort_loop] using hl
  | succ n ih =>
    cases r with
    | nil => simp at hn
    | cons x r =>
      have hr : r.length = n := by simpa using hn
      obtain ⟨l', h1, h2, h3⟩ := GoSort.insertionSort_inner_sorts less hto l.length l x r rfl hl
      have hlen : l.length + 1 = l'.length := by simpa using h2.length_eq.symm
      unfold GoSort.insertionSort_loop
      rw [h1, hlen]
      obtain ⟨g1, g2⟩ := ih l' r hr h3
      refine ⟨g1.trans ?_, g2⟩
      exact (h2.append_right r).trans List.perm_middle.symm

/-- Go's insertion sort on the whole of a slice leaves an ordered rearrangement of it. -/
theorem GoSort.insertionSort_func_sorts {α : Type} (less : α → α → Bool)
    (hto : IsTransitiveOrdering less) (x : List α) :
    (GoSort.insertionSort_func less x 0 x.length).Perm x ∧
    (GoSort.insertionSort_func less x 0 x.length).Pairwise (fun a b => less b a = false) := by
  cases x with
  | nil => simp [GoSort.insertionSort_func, GoSort.insertionSort_loop]
  | cons a t =>
    have h := GoSort.insertionSort_loop_sorts less hto t.length [a] t rfl
      (List.pairwise_singleton _ _)
    simpa [GoSort.insertionSort_func] using h

/-- On a slice of at most twelve elements Go's sort.Slice does what its documentation says: it
leaves a rearrangement of the slice in which no element is less than its predecessor. -/
theorem GoSort.sortSlice_short_sorts {α : Type} (less : α → α → Bool)
    (hto : IsTransitiveOrdering less) (x : List α) (h : x.length ≤ 12) :
    (GoSort.sortSlice α less x).Perm x ∧
    (GoSort.sortSlice α less x).Chain' (fun a b => less b a = false) := by
  unfold GoSort.sortSlice
  rw [GoSort.Slice_short less x h]
  simp only [Option.getD_some]
  exact ⟨(GoSort.insertionSort_func_sorts less hto x).1,
    (GoSort.insertionSort_func_sorts less hto x).2.chain'⟩

/-- A sort routine that meets the contract of sort.Slice, and Go's sort.Slice on a slice of at
most twelve elements, both leave a rearrangement of the slice in which no element is less than
its predecessor. -/
theorem sorted_of_contract_or_short {α : Type} (sortSlice : SliceSorter) (less : α → α → Bool)
    (hto : IsTransitiveOrdering less) (x : List α)
    (hs : SortsSlice sortSlice ∨ (sortSlice = GoSort.sortSlice ∧ x.length ≤ 12)) :
    (sortSlice α less x).Perm x ∧ (sortSlice α less x).Chain' (fun a b => less b a = false) := by
  rcases hs with hs | ⟨hgo, hlen⟩
  · exact hs α less x hto
  · rw [hgo]
    exact GoSort.sortSlice_short_sorts less hto x hlen

/-!
## Order of the fields
-/

/-- C2, as stated, fails. Thirteen updates whose timestamps alternate between two values, bodies
u0 to u12 in payload order: Go's sort.Slice returns, and the fields come out with u9 ahead of
u1, u3, u5 and u7, which share its timestamp and precede it in the payload, and with u0 behind
u2, u4, u6 and u8. -/
theorem Discordstatus.thirteen_updates_not_stable :
    (GoSort.Slice Discordstatus.updateLess Discordstatus.thirteenUpdates).isSome = true ∧
    (Discordstatus.makeIncidentEmbed GoSort.sortSlice
        (Discordstatus.incidentOf "investigating" "API outage"
          Discordstatus.thirteenUpdates)).2.Fields.map (fun f => f.Value) =
      ["u9", "u1", "u3", "u5", "u7", "u11", "u2", "u4", "u6", "u8", "u0", "u10", "u12"] ∧
    ¬ StableBy (fun u => u.CreatedAt) Discordstatus.thirteenUpdates
        (Discordstatus.makeIncidentEmbed GoSort.sortSlice
          (Discordstatus.incidentOf "investigating" "API outage"
            Discordstatus.thirteenUpdates)).1.Updates := by
  refine ⟨by decide, by decide, ?_⟩
  intro h
  exact absurd (h "2024-01-02T00:00:00Z") (by decide)

/-- C1. Let sort.Slice do what Go documents it to do, or let it be the sort.Slice of the Go
library and no update list have more than twelve entries. Then for every incident (of either
package) and every maintenance whose updates carry pairwise different CreatedAt strings, in any
order, the embed has exactly one field per update, the fields are the renderings of the updates
as the sort leaves them, that list is a rearrangement of the payload's updates whose CreatedAt
strictly ascend in string order, and its i-th element is the update with exactly i updates of
smaller CreatedAt. -/
theorem fields_ascending_by_CreatedAt (sortSlice : SliceSorter)
    (dinc : Discordstatus.Incident) (iinc : Instatus.Incident) (m : Instatus.Maintenance)
    (hs : SortsSlice sortSlice ∨
      (sortSlice = GoSort.sortSlice ∧ dinc.Updates.length ≤ 12 ∧ iinc.Updates.length ≤ 12 ∧
        m.Updates.length ≤ 12))
    (hd : (dinc.Updates.map (fun u => u.CreatedAt)).Nodup)
    (hi : (iinc.Updates.map (fun u => u.CreatedAt)).Nodup)
    (hm : (m.Updates.map (fun u => u.CreatedAt)).Nodup) :
    RendersAscending (fun u => u.CreatedAt) Discordstatus.incidentField dinc.Updates
      (Discordstatus.makeIncidentEmbed sortSlice dinc).1.Updates
      (Discordstatus.makeIncidentEmbed sortSlice dinc).2.Fields ∧
    RendersAscending (fun u => u.CreatedAt) Instatus.incidentField iinc.Updates
      (Instatus.makeIncidentEmbed sortSlice iinc).1.Updates
      (Instatus.makeIncidentEmbed sortSlice iinc).2.Fields ∧
    RendersAscending (fun u => u.CreatedAt) Instatus.maintenanceField m.Updates
      (Instatus.makeMaintenanceEmbed sortSlice m).1.Updates
      (Instatus.makeMaintenanceEmbed sortSlice m).2.Fields := by
  refine ⟨?_, ?_, ?_⟩
  · rw [Discordstatus.discordstatus_incident_fields]
    have hk : ∀ a b, Discordstatus.updateLess a b =
        stringLess ((fun u : Discordstatus.IncidentUpdate => u.CreatedAt) a)
          ((fun u : Discordstatus.IncidentUpdate => u.CreatedAt) b) := fun _ _ => rfl
    obtain ⟨hperm, hchain⟩ := sorted_of_contract_or_short sortSlice Discordstatus.updateLess
      (isTransitiveOrdering_of_key _ _ hk) dinc.Updates
      (hs.imp id (fun h => ⟨h.1, h.2.1⟩))
    exact rendersAscending_of_sorted _ _ hk Discordstatus.incidentField dinc.Updates _ hd
      hperm hchain
  · rw [Instatus.instatus_incident_fields]
    have hk : ∀ a b, Instatus.updateLess a b =
        stringLess ((fun u : Instatus.IncidentUpdate => u.CreatedAt) a)
          ((fun u : Instatus.IncidentUpdate => u.CreatedAt) b) := fun _ _ => rfl
    obtain ⟨hperm, hchain⟩ := sorted_of_contract_or_short sortSlice Instatus.updateLess
      (isTransitiveOrdering_of_key _ _ hk) iinc.Updates
      (hs.imp id (fun h => ⟨h.1, h.2.2.1⟩))
    exact rendersAscending_of_sorted _ _ hk Instatus.incidentField iinc.Updates _ hi
      hperm hchain
  · rw [Instatus.instatus_maintenance_fields]
    have hk : ∀ a b, Instatus.maintenanceUpdateLess a b =
        stringLess ((fun u : Instatus.MaintenanceUpdate => u.CreatedAt) a)
          ((fun u : Instatus.MaintenanceUpdate => u.CreatedAt) b) := fun _ _ => rfl
    obtain ⟨hperm, hchain⟩ := sorted_of_contract_or_short sortSlice
      Instatus.maintenanceUpdateLess (isTransitiveOrdering_of_key _ _ hk) m.Updates
      (hs.imp id (fun h => ⟨h.1, h.2.2.2⟩))
    exact rendersAscending_of_sorted _ _ hk Instatus.maintenanceField m.Updates _ hm
      hperm hchain

/-- Witness of C1: Go's sort.Slice on three updates with different timestamps that arrive latest
first; the fields read first, second, third. The reference sorter shows that the documented
contract of sort.Slice can be met for slices of every length. -/
theorem fields_ascending_by_CreatedAt_witness :
    (Discordstatus.threeUpdates.length ≤ 12 ∧ Instatus.threeUpdates.length ≤ 12 ∧
      Instatus.threeMaintenanceUpdates.length ≤ 12) ∧
    (Discordstatus.threeUpdates.map (fun u => u.CreatedAt)).Nodup ∧
    (Instatus.threeUpdates.map (fun u => u.CreatedAt)).Nodup ∧
    (Instatus.threeMaintenanceUpdates.map (fun u => u.CreatedAt)).Nodup ∧
    (RendersAscending (fun u => u.CreatedAt) Discordstatus.incidentField
      Discordstatus.threeUpdates
      (Discordstatus.makeIncidentEmbed GoSort.sortSlice
        (Discordstatus.incidentOf "resolved" "API outage" Discordstatus.threeUpdates)).1.Updates
      (Discordstatus.makeIncidentEmbed GoSort.sortSlice
        (Discordstatus.incidentOf "resolved" "API outage" Discordstatus.threeUpdates)).2.Fields ∧
    RendersAscending (fun u => u.CreatedAt) Instatus.incidentField Instatus.threeUpdates
      (Instatus.makeIncidentEmbed GoSort.sortSlice
        (Instatus.incidentOf "Resolved" "API outage" Instatus.threeUpdates)).1.Updates
      (Instatus.makeIncidentEmbed GoSort.sortSlice
        (Instatus.incidentOf "Resolved" "API outage" Instatus.threeUpdates)).2.Fields ∧
    RendersAscending (fun u => u.CreatedAt) Instatus.maintenanceField
      Instatus.threeMaintenanceUpdates
      (Instatus.makeMaintenanceEmbed GoSort.sortSlice
        (Instatus.maintenanceOf "Completed" "DB upgrade"
          Instatus.threeMaintenanceUpdates)).1.Updates
      (Instatus.makeMaintenanceEmbed GoSort.sortSlice
        (Instatus.maintenanceOf "Completed" "DB upgrade"
          Instatus.threeMaintenanceUpdates)).2.Fields) ∧
    ((Discordstatus.makeIncidentEmbed GoSort.sortSlice
        (Discordstatus.incidentOf "resolved" "API outage"
          Discordstatus.threeUpdates)).2.Fields.map (fun f => f.Value) =
      ["first", "second", "third"] ∧
     (Instatus.makeIncidentEmbed GoSort.sortSlice
        (Instatus.incidentOf "Resolved" "API outage"
          Instatus.threeUpdates)).2.Fields.map (fun f => f.Value) =
      ["first", "second", "third"] ∧
     (Instatus.makeMaintenanceEmbed GoSort.sortSlice
        (Instatus.maintenanceOf "Completed" "DB upgrade"
          Instatus.threeMaintenanceUpdates)).2.Fields.map (fun f => f.Value) =
      ["first", "second", "third"]) ∧
    SortsSlice referenceSorter :=
  ⟨by decide, by decide, by decide, by decide,
    fields_ascending_by_CreatedAt GoSort.sortSlice
      (Discordstatus.incidentOf "resolved" "API outage" Discordstatus.threeUpdates)
      (Instatus.incidentOf "Resolved" "API outage" Instatus.threeUpdates)
      (Instatus.maintenanceOf "Completed" "DB upgrade" Instatus.threeMaintenanceUpdates)
      (Or.inr ⟨rfl, by decide, by decide, by decide⟩) (by decide) (by decide) (by decide),
    by decide, referenceSorter_sortsSlice⟩

/-- The sort.Slice of Go 1.19 and later, as embedded in `GoSort`, happens to keep ties in place
on short slices, which it sorts by insertion: every incident (of either package) and every
maintenance with at most twelve updates is rendered with the updates of each CreatedAt value in
the relative order they had in the payload. Go documents no such guarantee, and earlier versions
of the library differ. -/
theorem short_update_lists_stable (dinc : Discordstatus.Incident) (iinc : Instatus.Incident)
    (m : Instatus.Maintenance) (hd : dinc.Updates.length ≤ 12) (hi : iinc.Updates.length ≤ 12)
    (hm : m.Updates.length ≤ 12) :
    (StableBy (fun u => u.CreatedAt) dinc.Updates
        (Discordstatus.makeIncidentEmbed GoSort.sortSlice dinc).1.Updates ∧
      (Discordstatus.makeIncidentEmbed GoSort.sortSlice dinc).2.Fields =
        (Discordstatus.makeIncidentEmbed GoSort.sortSlice dinc).1.Updates.map
          Discordstatus.incidentField) ∧
    (StableBy (fun u => u.CreatedAt) iinc.Updates
        (Instatus.makeIncidentEmbed GoSort.sortSlice iinc).1.Updates ∧
      (Instatus.makeIncidentEmbed GoSort.sortSlice iinc).2.Fields =
        (Instatus.makeIncidentEmbed GoSort.sortSlice iinc).1.Updates.map
          Instatus.incidentField) ∧
    (StableBy (fun u => u.CreatedAt) m.Updates
        (Instatus.makeMaintenanceEmbed GoSort.sortSlice m).1.Updates ∧
      (Instatus.makeMaintenanceEmbed GoSort.sortSlice m).2.Fields =
        (Instatus.makeMaintenanceEmbed GoSort.sortSlice m).1.Updates.map
          Instatus.maintenanceField) :=
  ⟨⟨GoSort.sortSlice_short_stable (fun u : Discordstatus.IncidentUpdate => u.CreatedAt)
      Discordstatus.updateLess
      (fun _ _ => rfl) dinc.Updates hd, Discordstatus.discordstatus_incident_fields _ dinc⟩,
    ⟨GoSort.sortSlice_short_stable (fun u : Instatus.IncidentUpdate => u.CreatedAt)
      Instatus.updateLess
      (fun _ _ => rfl) iinc.Updates hi, Instatus.instatus_incident_fields _ iinc⟩,
    ⟨GoSort.sortSlice_short_stable (fun u : Instatus.MaintenanceUpdate => u.CreatedAt)
      Instatus.maintenanceUpdateLess
      (fun _ _ => rfl) m.Updates hm, Instatus.instatus_maintenance_fields _ m⟩⟩

/-- The embedded sort.Slice on four updates on two timestamps, interleaved. -/
theorem short_update_lists_stable_witness :
    Discordstatus.tiedUpdates.length ≤ 12 ∧ Instatus.tiedUpdates.length ≤ 12 ∧
    Instatus.tiedMaintenanceUpdates.length ≤ 12 ∧
    (Discordstatus.makeIncidentEmbed GoSort.sortSlice
        (Discordstatus.incidentOf "resolved" "API outage"
          Discordstatus.tiedUpdates)).2.Fields.map (fun f => f.Value) =
      ["early1", "early2", "late1", "late2"] ∧
    StableBy (fun u => u.CreatedAt) Discordstatus.tiedUpdates
      (Discordstatus.makeIncidentEmbed GoSort.sortSlice
        (Discordstatus.incidentOf "resolved" "API outage"
          Discordstatus.tiedUpdates)).1.Updates ∧
    StableBy (fun u => u.CreatedAt) Instatus.tiedUpdates
      (Instatus.makeIncidentEmbed GoSort.sortSlice
        (Instatus.incidentOf "Resolved" "API outage" Instatus.tiedUpdates)).1.Updates ∧
    StableBy (fun u => u.CreatedAt) Instatus.tiedMaintenanceUpdates
      (Instatus.makeMaintenanceEmbed GoSort.sortSlice
        (Instatus.maintenanceOf "Completed" "DB upgrade"
          Instatus.tiedMaintenanceUpdates)).1.Updates :=
  have h := short_update_lists_stable
    (Discordstatus.incidentOf "resolved" "API outage" Discordstatus.tiedUpdates)
    (Instatus.incidentOf "Resolved" "API outage" Instatus.tiedUpdates)
    (Instatus.maintenanceOf "Completed" "DB upgrade" Instatus.tiedMaintenanceUpdates)
    (by decide) (by decide) (by decide)
  ⟨by decide, by decide, by decide, by decide, h.1.1, h.2.1.1, h.2.2.1⟩

/-!
## Go's sort.Slice only swaps
-/

/-- Writing `a` over the element `y` stored at an index, and putting `y` in front instead of `a`,
rearranges the list. -/
theorem GoSort.cons_set_perm {α : Type} (t : List α) (j : Nat) (y a : α)
    (h : t[j]? = some y) : (y :: t.set j a).Perm (a :: t) := by
  induction t generalizing j with
  | nil => simp at h
  | cons b t ih =>
    cases j with
    | zero =>
      simp only [List.getElem?_cons_zero, Option.some.injEq] at h
      subst h
      simpa using List.Perm.swap a b t
    | succ j =>
      simp only [List.getElem?_cons_succ] at h
      simp only [List.set_cons_succ]
      exact (List.Perm.swap b y _).trans
        (((ih j h).cons b).trans (List.Perm.swap a b t))

/-- The call `data.Swap(i, j)` rearranges the slice. -/
theorem GoSort.swapAt_perm {α : Type} (data : List α) (i j : Nat) :
    (GoSort.swapAt data i j).Perm data := by
  induction data generalizing i j with
  | nil => simp [GoSort.swapAt]
  | cons a t ih =>
    cases i with
    | zero =>
      cases j with
      | zero => simp [GoSort.swapAt]
      | succ j =>
        unfold GoSort.swapAt
        cases hj : (a :: t)[j + 1]? with
        | none => simp
        | some y =>
          simp only [List.getElem?_cons_zero, List.set_cons_zero, List.set_cons_succ]
          simp only [List.getElem?_cons_succ] at hj
          exact GoSort.cons_set_perm t j y a hj
    | succ i =>
      cases j with
      | zero =>
        unfold GoSort.swapAt
        cases hi : (a :: t)[i + 1]? with
        | none => simp
        | some x =>
          simp only [List.getElem?_cons_zero, List.set_cons_zero, List.set_cons_succ]
          simp only [List.getElem?_cons_succ] at hi
          exact GoSort.cons_set_perm t i x a hi
      | succ j =>
        have h : GoSort.swapAt (a :: t) (i + 1) (j + 1) = a :: GoSort.swapAt t i j := by
          unfold GoSort.swapAt
          simp only [List.getElem?_cons_succ]
          cases t[i]? <;> cases t[j]? <;> simp
        rw [h]
        exact (ih i j).cons a

theorem GoSort.insertionSort_inner_perm {α : Type} (less : α → α → Bool) (a j : Nat)
    (data : List α) : (GoSort.insertionSort_inner less a j data).Perm data := by
  induction j generalizing data with
  | zero => exact List.Perm.refl _
  | succ j ih =>
    unfold GoSort.insertionSort_inner
    split
    · exact (ih _).trans (GoSort.swapAt_perm data (j + 1) j)
    · exact List.Perm.refl _

theorem GoSort.insertionSort_loop_perm {α : Type} (less : α → α → Bool) (a n i : Nat)
    (data : List α) : (GoSort.insertionSort_loop less a n i data).Perm data := by
  induction n generalizing i data with
  | zero => exact List.Perm.refl _
  | succ n ih =>
    unfold GoSort.insertionSort_loop
    exact (ih _ _).trans (GoSort.insertionSort_inner_perm less a i data)

theorem GoSort.insertionSort_func_perm {α : Type} (less : α → α → Bool) (data : List α)
    (a b : Nat) : (GoSort.insertionSort_func less data a b).Perm data :=
  GoSort.insertionSort_loop_perm less a _ _ data

theorem GoSort.siftDown_loop_perm {α : Type} (less : α → α → Bool) (hi first n root : Nat)
    (data : List α) : (GoSort.siftDown_loop less hi first n root data).Perm data := by
  induction n generalizing root data with
  | zero => exact List.Perm.refl _
  | succ n ih =>
    unfold GoSort.siftDown_loop
    simp only
    split
    · exact List.Perm.refl _
    · split <;> split <;>
        first | exact List.Perm.refl _ | exact (ih _ _).trans (GoSort.swapAt_perm _ _ _)

theorem GoSort.siftDown_func_perm {α : Type} (less : α → α → Bool) (data : List α)
    (lo hi first : Nat) : (GoSort.siftDown_func less data lo hi first).Perm data :=
  GoSort.siftDown_loop_perm less hi first hi lo data

theorem GoSort.heapSort_build_perm {α : Type} (less : α → α → Bool) (hi first n : Nat)
    (data : List α) : (GoSort.heapSort_build less hi first n data).Perm data := by
  induction n generalizing data with
  | zero => exact List.Perm.refl _
  | succ n ih =>
    unfold GoSort.heapSort_build
    exact (ih _).trans (GoSort.siftDown_func_perm less data n hi first)

theorem GoSort.heapSort_pop_perm {α : Type} (less : α → α → Bool) (first n : Nat)
    (data : List α) : (GoSort.heapSort_pop less first n data).Perm data := by
  induction n generalizing data with
  | zero => exact List.Perm.refl _
  | succ n ih =>
    unfold GoSort.heapSort_pop
    exact (ih _).trans ((GoSort.siftDown_func_perm less _ 0 n first).trans
      (GoSort.swapAt_perm data first (first + n)))

theorem GoSort.heapSort_func_perm {α : Type} (less : α → α → Bool) (data : List α)
    (a b : Nat) : (GoSort.heapSort_func less data a b).Perm data := by
  unfold GoSort.heapSort_func
  exact (GoSort.heapSort_pop_perm less _ _ _).trans (GoSort.heapSort_build_perm less _ _ _ data)

theorem GoSort.reverseRange_loop_perm {α : Type} (n i j : Nat) (data : List α) :
    (GoSort.reverseRange_loop n i j data).Perm data := by
  induction n generalizing i j data with
  | zero => exact List.Perm.refl _
  | succ n ih =>
    unfold GoSort.reverseRange_loop
    split
    · exact (ih _ _ _).trans (GoSort.swapAt_perm data i j)
    · exact List.Perm.refl _

theorem GoSort.reverseRange_func_perm {α : Type} (data : List α) (a b : Nat) :
    (GoSort.reverseRange_func data a b).Perm data :=
  GoSort.reverseRange_loop_perm _ _ _ data

theorem GoSort.partialInsertionSort_left_perm {α : Type} (less : α → α → Bool) (j : Nat)
    (data : List α) : (GoSort.partialInsertionSort_left less j data).Perm data := by
  induction j generalizing data with
  | zero => exact List.Perm.refl _
  | succ j ih =>
    unfold GoSort.partialInsertionSort_left
    split
    · exact List.Perm.refl _
    · exact (ih _).trans (GoSort.swapAt_perm data (j + 1) j)

theorem GoSort.partialInsertionSort_right_perm {α : Type} (less : α → α → Bool) (b n j : Nat)
    (data : List α) : (GoSort.partialInsertionSort_right less b n j data).Perm data := by
  induction n generalizing j data with
  | zero => exact List.Perm.refl _
  | succ n ih =>
    unfold GoSort.partialInsertionSort_right
    split
    · split
      · exact List.Perm.refl _
      · exact (ih _ _).trans (GoSort.swapAt_perm data j (j - 1))
    · exact List.Perm.refl _

theorem GoSort.partialInsertionSort_steps_perm {α : Type} (less : α → α → Bool) (a b s i : Nat)
    (data : List α) : (GoSort.partialInsertionSort_steps less a b s i data).1.Perm data := by
  induction s generalizing i data with
  | zero => exact List.Perm.refl _
  | succ s ih =>
    unfold GoSort.partialInsertionSort_steps
    simp only
    split
    · exact List.Perm.refl _
    · split
      · exact List.Perm.refl _
      · refine (ih _ _).trans ?_
        have h1 := GoSort.swapAt_perm data
          (GoSort.partialInsertionSort_scan less data b (b - i) i)
          (GoSort.partialInsertionSort_scan less data b (b - i) i - 1)
        refine List.Perm.trans ?_ h1
        split
        · refine (GoSort.partialInsertionSort_right_perm less b _ _ _).trans ?_
          split
          · exact GoSort.partialInsertionSort_left_perm less _ _
          · exact List.Perm.refl _
        · split
          · exact GoSort.partialInsertionSort_left_perm less _ _
          · exact List.Perm.refl _

theorem GoSort.partialInsertionSort_func_perm {α : Type} (less : α → α → Bool)
    (data : List α) (a b : Nat) : (GoSort.partialInsertionSort_func less data a b).1.Perm data :=
  GoSort.partialInsertionSort_steps_perm less a b 5 (a + 1) data

theorem GoSort.partition_loop_perm {α : Type} (less : α → α → Bool) (a n i j : Nat)
    (data : List α) : (GoSort.partition_loop less a n i j data).1.Perm data := by
  induction n generalizing i j data with
  | zero => exact List.Perm.refl _
  | succ n ih =>
    unfold GoSort.partition_loop
    simp only
    split
    · exact List.Perm.refl _
    · exact (ih _ _ _).trans (GoSort.swapAt_perm _ _ _)

theorem GoSort.partition_func_perm {α : Type} (less : α → α → Bool) (data : List α)
    (a b pivot : Nat) : (GoSort.partition_func less data a b pivot).1.Perm data := by
  unfold GoSort.partition_func
  simp only
  split
  · exact (GoSort.swapAt_perm _ _ _).trans (GoSort.swapAt_perm data a pivot)
  · exact (GoSort.swapAt_perm _ _ _).trans ((GoSort.partition_loop_perm less a _ _ _ _).trans
      ((GoSort.swapAt_perm _ _ _).trans (GoSort.swapAt_perm data a pivot)))

theorem GoSort.partitionEqual_loop_perm {α : Type} (less : α → α → Bool) (a n i j : Nat)
    (data : List α) : (GoSort.partitionEqual_loop less a n i j data).1.Perm data := by
  induction n generalizing i j data with
  | zero => exact List.Perm.refl _
  | succ n ih =>
    unfold GoSort.partitionEqual_loop
    simp only
    split
    · exact List.Perm.refl _
    · exact (ih _ _ _).trans (GoSort.swapAt_perm _ _ _)

theorem GoSort.partitionEqual_func_perm {α : Type} (less : α → α → Bool) (data : List α)
    (a b pivot : Nat) : (GoSort.partitionEqual_func less data a b pivot).1.Perm data :=
  (GoSort.partitionEqual_loop_perm less a _ _ _ _).trans (GoSort.swapAt_perm data a pivot)

theorem GoSort.breakPatterns_loop_perm {α : Type} (a length modulus idx n i random : Nat)
    (data : List α) :
    (GoSort.breakPatterns_loop a length modulus idx n i random data).Perm data := by
  induction n generalizing i random data with
  | zero => exact List.Perm.refl _
  | succ n ih =>
    unfold GoSort.breakPatterns_loop
    exact (ih _ _ _).trans (GoSort.swapAt_perm _ _ _)

theorem GoSort.breakPatterns_func_perm {α : Type} (data : List α) (a b : Nat) :
    (GoSort.breakPatterns_func data a b).Perm data := by
  unfold GoSort.breakPatterns_func
  simp only
  split
  · exact GoSort.breakPatterns_loop_perm _ _ _ _ _ _ _ data
  · exact List.Perm.refl _

/-- Every step of Go's pdqsort rearranges the slice: whatever it returns is a rearrangement of
what it was given. -/
theorem GoSort.pdqsort_func_perm {α : Type} (less : α → α → Bool) (fuel : Nat) :
    ∀ (data : List α) (a b limit : Nat) (wasBalanced wasPartitioned : Bool) (out : List α),
      GoSort.pdqsort_func less fuel data a b limit wasBalanced wasPartitioned = some out →
      out.Perm data := by
  induction fuel with
  | zero =>
    intro data a b limit wb wp out h
    simp [GoSort.pdqsort_func] at h
  | succ fuel ih =>
    intro data a b limit wb wp out
    unfold GoSort.pdqsort_func
    lift_lets
    intro length d1 limit1 ph d2 pivot hint pis d3 pe p mid leftLen rightLen balanceThreshold h
    have hd1 : d1.Perm data := by
      show (if (!wb) = true then GoSort.breakPatterns_func data a b else data).Perm data
      split
      · exact GoSort.breakPatterns_func_perm data a b
      · exact List.Perm.refl _
    have hd2 : d2.Perm d1 := by
      show (if ph.2 = GoSort.sortedHint.decreasingHint then GoSort.reverseRange_func d1 a b
        else d1).Perm d1
      split
      · exact GoSort.reverseRange_func_perm d1 a b
      · exact List.Perm.refl _
    have hd3 : d3.Perm d2 := by
      show (if (wb && wp && decide (hint = GoSort.sortedHint.increasingHint)) = true then
        GoSort.partialInsertionSort_func less d2 a b else (d2, false)).1.Perm d2
      split
      · exact GoSort.partialInsertionSort_func_perm less d2 a b
      · exact List.Perm.refl _
    have hpis : d3.Perm data := hd3.trans (hd2.trans hd1)
    have hpe : pe.1.Perm data := (GoSort.partitionEqual_func_perm less d3 a b pivot).trans hpis
    have hp : p.1.Perm data := (GoSort.partition_func_perm less d3 a b pivot).trans hpis
    split at h
    · cases h
      exact GoSort.insertionSort_func_perm less data a b
    · split at h
      · cases h
        exact GoSort.heapSort_func_perm less data a b
      · split at h
        · cases h
          exact hpis
        · split at h
          · exact (ih _ _ _ _ _ _ _ h).trans hpe
          · split at h
            · split at h
              · cases h
              · next d hd =>
                exact (ih _ _ _ _ _ _ _ h).trans ((ih _ _ _ _ _ _ _ hd).trans hp)
            · split at h
              · cases h
              · next d hd =>
                exact (ih _ _ _ _ _ _ _ h).trans ((ih _ _ _ _ _ _ _ hd).trans hp)

/-- Go's sort.Slice rearranges the slice, for every comparison function and every slice. -/
theorem GoSort.sortSlice_perm {α : Type} (less : α → α → Bool) (x : List α) :
    (GoSort.sortSlice α less x).Perm x := by
  unfold GoSort.sortSlice GoSort.Slice
  cases h : GoSort.pdqsort_func less (x.length + 1) x 0 x.length (GoSort.bitsLen x.length)
      true true with
  | none => exact List.Perm.refl _
  | some out => exact GoSort.pdqsort_func_perm less _ _ _ _ _ _ _ _ h

/-!
## Field headings, icon duplicates, timestamp and colour
-/

/-- C11. In both packages every field of an incident embed is rendered from the update at the
same position of the sorted update list: its name is the update's icon, a space, the status,
" (", the humanized CreatedAt and ")", and it is not inline. Every field of a maintenance embed
has the name "Update (", the humanized CreatedAt and ")", without status or icon, and is not
inline. An update with status "resolved" created at "2024-01-02T03:04:05.000Z" gets the name
"<:statusgreen:816435666988171314> resolved (03:04:05z)", a maintenance update created then
the name "Update (03:04:05z)". -/
theorem field_name_and_inline (sortSlice : SliceSorter) (dinc : Discordstatus.Incident)
    (iinc : Instatus.Incident) (m : Instatus.Maintenance) :
    (Discordstatus.makeIncidentEmbed sortSlice dinc).2.Fields =
      (Discordstatus.makeIncidentEmbed sortSlice dinc).1.Updates.map (fun u =>
        { Name := u.Emoji ++ " " ++ u.Status ++ " (" ++
            Discordstatus.humanizedTime u.CreatedAt ++ ")"
          Value := u.Body
          Inline := false }) ∧
    (Instatus.makeIncidentEmbed sortSlice iinc).2.Fields =
      (Instatus.makeIncidentEmbed sortSlice iinc).1.Updates.map (fun u =>
        { Name := u.Emoji ++ " " ++ u.Status ++ " (" ++
            Instatus.humanizedTime u.CreatedAt ++ ")"
          Value := u.Markdown
          Inline := false }) ∧
    (Instatus.makeMaintenanceEmbed sortSlice m).2.Fields =
      (Instatus.makeMaintenanceEmbed sortSlice m).1.Updates.map (fun u =>
        { Name := "Update (" ++ Instatus.humanizedTime u.CreatedAt ++ ")"
          Value := u.Markdown
          Inline := false }) ∧
    (Discordstatus.incidentField
        (Discordstatus.updateOf "fixed" "resolved" "2024-01-02T03:04:05.000Z")).Name =
      "<:statusgreen:816435666988171314> resolved (03:04:05z)" ∧
    (Instatus.incidentField
        (Instatus.updateOf "fixed" "Resolved" "2024-01-02T03:04:05.000Z")).Name =
      "<:statusgreen:816435666988171314> Resolved (03:04:05z)" ∧
    (Instatus.maintenanceField
        (Instatus.maintenanceUpdateOf "done" "2024-01-02T03:04:05.000Z")).Name =
      "Update (03:04:05z)" := by
  refine ⟨?_, ?_, ?_, by decide, by decide, by decide⟩
  · rw [Discordstatus.discordstatus_incident_fields]
    rfl
  · rw [Instatus.instatus_incident_fields]
    rfl
  · rw [Instatus.instatus_maintenance_fields]
    rfl

/-- C18. In each package the icon of an incident and the icon of an incident update are the same
string whenever the two carry the same status string, whatever that string is: the mapping
written with the constants and the mapping written with the literals agree. -/
theorem incident_icon_mappings_agree (s : String) (dinc : Discordstatus.Incident)
    (du : Discordstatus.IncidentUpdate) (iinc : Instatus.Incident)
    (iu : Instatus.IncidentUpdate) :
    Discordstatus.Incident.Emoji { dinc with Status := s } =
      Discordstatus.IncidentUpdate.Emoji { du with Status := s } ∧
    Instatus.Incident.Emoji { iinc with Status := s } =
      Instatus.IncidentUpdate.Emoji { iu with Status := s } :=
  ⟨rfl, rfl⟩

/-- C19. The timestamp of an incident embed, in both packages, is the incident's CreatedAt string
as it stands, whatever it is (for "not-a-date" it is "not-a-date"), so it depends neither on
UpdatedAt nor on the updates; the colour is 0x2483C5. The timestamp of a maintenance embed is the
empty string and its colour is 0x2483C5 too. -/
theorem embed_timestamp_and_color (sortSlice : SliceSorter) (dinc : Discordstatus.Incident)
    (iinc : Instatus.Incident) (m : Instatus.Maintenance) (other : String)
    (dups : List Discordstatus.IncidentUpdate) (iups : List Instatus.IncidentUpdate) :
    ((Discordstatus.makeIncidentEmbed sortSlice dinc).2.Timestamp = dinc.CreatedAt ∧
      (Discordstatus.makeIncidentEmbed sortSlice
        { dinc with UpdatedAt := other, Updates := dups }).2.Timestamp = dinc.CreatedAt ∧
      (Discordstatus.makeIncidentEmbed sortSlice
        { dinc with CreatedAt := "not-a-date" }).2.Timestamp = "not-a-date" ∧
      (Discordstatus.makeIncidentEmbed sortSlice dinc).2.Color = 0x2483C5) ∧
    ((Instatus.makeIncidentEmbed sortSlice iinc).2.Timestamp = iinc.CreatedAt ∧
      (Instatus.makeIncidentEmbed sortSlice
        { iinc with UpdatedAt := other, Updates := iups }).2.Timestamp = iinc.CreatedAt ∧
      (Instatus.makeIncidentEmbed sortSlice
        { iinc with CreatedAt := "not-a-date" }).2.Timestamp = "not-a-date" ∧
      (Instatus.makeIncidentEmbed sortSlice iinc).2.Color = 0x2483C5) ∧
    ((Instatus.makeMaintenanceEmbed sortSlice m).2.Timestamp = "" ∧
      (Instatus.makeMaintenanceEmbed sortSlice m).2.Color = 0x2483C5) :=
  ⟨⟨rfl, rfl, rfl, rfl⟩, ⟨rfl, rfl, rfl, rfl⟩, ⟨rfl, rfl⟩⟩

/-!
## The outbound call
-/

/-- C15. When the session is constructed and the event carries an incident, `Main` makes exactly
one webhook call, in both packages: it is addressed with the values of DISCORD_WEBHOOK_ID and
DISCORD_WEBHOOK_TOKEN, does not wait, and carries exactly one embed, the result of
`makeIncidentEmbed` on that incident; in package instatus this is so whether or not the event
carries a maintenance as well. When the event carries a maintenance and no incident, the one
call carries the result of `makeMaintenanceEmbed` on the maintenance. -/
theorem Main_exactly_one_call (sortSlice : SliceSorter) (getenv : String → String)
    (de : Discordstatus.InstatusWebhook) (ie : Instatus.InstatusWebhook)
    (dinc : Discordstatus.Incident) (iinc : Instatus.Incident) (m : Instatus.Maintenance) :
    (Discordstatus.Main sortSlice getenv false { de with Incident := some dinc }).calls =
      [{ webhookID := getenv "DISCORD_WEBHOOK_ID"
         token := getenv "DISCORD_WEBHOOK_TOKEN"
         wait := false
         data :=
          { Content := ""
            Embeds := [(Discordstatus.makeIncidentEmbed sortSlice dinc).2] } }] ∧
    (Instatus.Main sortSlice getenv false { ie with Incident := some iinc }).calls =
      [{ webhookID := getenv "DISCORD_WEBHOOK_ID"
         token := getenv "DISCORD_WEBHOOK_TOKEN"
         wait := false
         data :=
          { Content := "<@&" ++ getenv "DISCORD_STATUS_ROLE_ID" ++ ">"
            Embeds := [(Instatus.makeIncidentEmbed sortSlice iinc).2] } }] ∧
    (Instatus.Main sortSlice getenv false
        { ie with Incident := some iinc, Maintenance := some m }).calls =
      [{ webhookID := getenv "DISCORD_WEBHOOK_ID"
         token := getenv "DISCORD_WEBHOOK_TOKEN"
         wait := false
         data :=
          { Content := "<@&" ++ getenv "DISCORD_STATUS_ROLE_ID" ++ ">"
            Embeds := [(Instatus.makeIncidentEmbed sortSlice iinc).2] } }] ∧
    (Instatus.Main sortSlice getenv false
        { ie with Incident := none, Maintenance := some m }).calls =
      [{ webhookID := getenv "DISCORD_WEBHOOK_ID"
         token := getenv "DISCORD_WEBHOOK_TOKEN"
         wait := false
         data :=
          { Content := "<@&" ++ getenv "DISCORD_STATUS_ROLE_ID" ++ ">"
            Embeds := [(Instatus.makeMaintenanceEmbed sortSlice m).2] } }] := by
  refine ⟨rfl, ?_, rfl, rfl⟩
  cases h : ie.Maintenance <;> simp [Instatus.Main, h]

/-- C14, as stated, fails: with no role identifier configured, the instatus `Main` sends the
content "<@&>" with an incident and with a maintenance, not an empty content. -/
theorem Instatus.unset_role_content_not_empty :
    (Instatus.Main GoSort.sortSlice (environmentOf "") false
        (Instatus.eventOf (some (Instatus.incidentOf "Resolved" "API outage" [])) none)).calls.map
      (fun c => c.data.Content) = ["<@&>"] ∧
    (Instatus.Main GoSort.sortSlice (environmentOf "") false
        (Instatus.eventOf none
          (some (Instatus.maintenanceOf "Completed" "DB upgrade" [])))).calls.map
      (fun c => c.data.Content) = ["<@&>"] ∧
    environmentOf "" "DISCORD_STATUS_ROLE_ID" = "" ∧ "<@&>" ≠ "" := by
  decide

/-- C14, amended. In package instatus every call `Main` makes has the content "<@&", the value
of DISCORD_STATUS_ROLE_ID and ">", which is "<@&1234>" for the role 1234 and "<@&>" when no role
is configured; the embeds it sends are the same under every environment, so the mention is in
the content only; in package discordstatus every call has the empty content. -/
theorem role_mention_in_content (sortSlice : SliceSorter) (getenv other : String → String)
    (newFails : Bool) (de : Discordstatus.InstatusWebhook) (ie : Instatus.InstatusWebhook) :
    (Instatus.Main sortSlice getenv newFails ie).calls.map (fun c => c.data.Content) =
      (Instatus.Main sortSlice getenv newFails ie).calls.map
        (fun _ => "<@&" ++ getenv "DISCORD_STATUS_ROLE_ID" ++ ">") ∧
    (Instatus.Main sortSlice getenv newFails ie).calls.map (fun c => c.data.Embeds) =
      (Instatus.Main sortSlice other newFails ie).calls.map (fun c => c.data.Embeds) ∧
    (Discordstatus.Main sortSlice getenv newFails de).calls.map (fun c => c.data.Content) =
      (Discordstatus.Main sortSlice getenv newFails de).calls.map (fun _ => "") ∧
    (Discordstatus.Main sortSlice getenv newFails de).calls.map (fun c => c.data.Embeds) =
      (Discordstatus.Main sortSlice other newFails de).calls.map (fun c => c.data.Embeds) ∧
    (Instatus.Main GoSort.sortSlice (environmentOf "1234") false
        (Instatus.eventOf (some (Instatus.incidentOf "Resolved" "API outage" [])) none)).calls.map
      (fun c => c.data.Content) = ["<@&1234>"] := by
  refine ⟨?_, ?_, ?_, ?_, by decide⟩
  · unfold Instatus.Main
    cases newFails <;> cases ie.Incident <;> cases ie.Maintenance <;> rfl
  · unfold Instatus.Main
    cases newFails <;> cases ie.Incident <;> cases ie.Maintenance <;> rfl
  · unfold Discordstatus.Main
    cases newFails <;> cases de.Incident <;> rfl
  · unfold Discordstatus.Main
    cases newFails <;> cases de.Incident <;> rfl

/-!
## What the sort does to the input record
-/

/-- A rearrangement of a list with strictly ascending keys in which no record is less than its
predecessor is the list itself. -/
theorem eq_of_sorted_of_ascending {α : Type} (key : α → String) (less : α → α → Bool)
    (hless : ∀ a b, less a b = stringLess (key a) (key b)) (x out : List α)
    (hx : x.Pairwise (fun a b => stringLess (key a) (key b) = true)) (hperm : out.Perm x)
    (hchain : out.Chain' (fun a b => less b a = false)) : out = x := by
  have hnd : (x.map key).Nodup := by
    rw [List.Nodup, List.pairwise_map]
    refine hx.imp ?_
    intro a b hab heq
    rw [heq, stringLess_irrefl] at hab
    exact absurd hab (by simp)
  have hout := strictly_ascending_of_sorted key less hless x out hnd hperm hchain
  haveI : IsAntisymm α (fun a b => stringLess (key a) (key b) = true) :=
    ⟨fun a b hab hba => by
      rw [stringLess_asymm _ _ hab] at hba
      exact absurd hba (by simp)⟩
  exact List.eq_of_perm_of_sorted hperm hout hx

/-- C17. Let sort.Slice do what Go documents it to do, or let it be the sort.Slice of the Go
library. Then for every incident (of either package) and every maintenance, the Updates list
after the call is a rearrangement of the Updates list before it, made of the same update records
with all their fields, and the record after the call is the record before it with that list in
the place of Updates: every other field of the incident or maintenance is unchanged. -/
theorem sort_keeps_records (sortSlice : SliceSorter)
    (hs : SortsSlice sortSlice ∨ sortSlice = GoSort.sortSlice)
    (dinc : Discordstatus.Incident) (iinc : Instatus.Incident) (m : Instatus.Maintenance) :
    ((Discordstatus.makeIncidentEmbed sortSlice dinc).1.Updates.Perm dinc.Updates ∧
      (Discordstatus.makeIncidentEmbed sortSlice dinc).1 =
        { dinc with Updates := (Discordstatus.makeIncidentEmbed sortSlice dinc).1.Updates }) ∧
    ((Instatus.makeIncidentEmbed sortSlice iinc).1.Updates.Perm iinc.Updates ∧
      (Instatus.makeIncidentEmbed sortSlice iinc).1 =
        { iinc with Updates := (Instatus.makeIncidentEmbed sortSlice iinc).1.Updates }) ∧
    ((Instatus.makeMaintenanceEmbed sortSlice m).1.Updates.Perm m.Updates ∧
      (Instatus.makeMaintenanceEmbed sortSlice m).1 =
        { m with Updates := (Instatus.makeMaintenanceEmbed sortSlice m).1.Updates }) := by
  have hperm : ∀ (α : Type) (key : α → String) (less : α → α → Bool)
      (_ : ∀ a b, less a b = stringLess (key a) (key b)) (x : List α),
      (sortSlice α less x).Perm x := by
    intro α key less hless x
    rcases hs with hs | hgo
    · exact (hs α less x (isTransitiveOrdering_of_key key less hless)).1
    · rw [hgo]
      exact GoSort.sortSlice_perm less x
  exact ⟨⟨hperm _ (fun u : Discordstatus.IncidentUpdate => u.CreatedAt) _ (fun _ _ => rfl) _, rfl⟩,
    ⟨hperm _ (fun u : Instatus.IncidentUpdate => u.CreatedAt) _ (fun _ _ => rfl) _, rfl⟩,
    ⟨hperm _ (fun u : Instatus.MaintenanceUpdate => u.CreatedAt) _ (fun _ _ => rfl) _, rfl⟩⟩

/-- Witness of C17: Go's sort.Slice on the thirteen updates with two alternating timestamps, on
three incident updates and on three maintenance updates that arrive latest first. -/
theorem sort_keeps_records_witness :
    SortsSlice referenceSorter ∧
    ((Discordstatus.makeIncidentEmbed GoSort.sortSlice
        (Discordstatus.incidentOf "investigating" "API outage"
          Discordstatus.thirteenUpdates)).1.Updates.Perm Discordstatus.thirteenUpdates ∧
      (Discordstatus.makeIncidentEmbed GoSort.sortSlice
        (Discordstatus.incidentOf "investigating" "API outage"
          Discordstatus.thirteenUpdates)).1 =
        { Discordstatus.incidentOf "investigating" "API outage" Discordstatus.thirteenUpdates
          with Updates := (Discordstatus.makeIncidentEmbed GoSort.sortSlice
            (Discordstatus.incidentOf "investigating" "API outage"
              Discordstatus.thirteenUpdates)).1.Updates }) ∧
    ((Instatus.makeIncidentEmbed GoSort.sortSlice
        (Instatus.incidentOf "Resolved" "API outage"
          Instatus.threeUpdates)).1.Updates.Perm Instatus.threeUpdates ∧
      (Instatus.makeIncidentEmbed GoSort.sortSlice
        (Instatus.incidentOf "Resolved" "API outage" Instatus.threeUpdates)).1 =
        { Instatus.incidentOf "Resolved" "API outage" Instatus.threeUpdates
          with Updates := (Instatus.makeIncidentEmbed GoSort.sortSlice
            (Instatus.incidentOf "Resolved" "API outage" Instatus.threeUpdates)).1.Updates }) ∧
    ((Instatus.makeMaintenanceEmbed GoSort.sortSlice
        (Instatus.maintenanceOf "Completed" "DB upgrade"
          Instatus.threeMaintenanceUpdates)).1.Updates.Perm Instatus.threeMaintenanceUpdates ∧
      (Instatus.makeMaintenanceEmbed GoSort.sortSlice
        (Instatus.maintenanceOf "Completed" "DB upgrade" Instatus.threeMaintenanceUpdates)).1 =
        { Instatus.maintenanceOf "Completed" "DB upgrade" Instatus.threeMaintenanceUpdates
          with Updates := (Instatus.makeMaintenanceEmbed GoSort.sortSlice
            (Instatus.maintenanceOf "Completed" "DB upgrade"
              Instatus.threeMaintenanceUpdates)).1.Updates }) :=
  ⟨referenceSorter_sortsSlice, sort_keeps_records GoSort.sortSlice (Or.inr rfl)
    (Discordstatus.incidentOf "investigating" "API outage" Discordstatus.thirteenUpdates)
    (Instatus.incidentOf "Resolved" "API outage" Instatus.threeUpdates)
    (Instatus.maintenanceOf "Completed" "DB upgrade" Instatus.threeMaintenanceUpdates)⟩

/-- C12, as stated, fails: an incident whose three updates arrive latest first is not the same
record after `makeIncidentEmbed`; its updates, third, first, second before the call, stand in the
order first, second, third after it. -/
theorem Discordstatus.embed_builder_reorders_input :
    (Discordstatus.incidentOf "resolved" "API outage" Discordstatus.threeUpdates).Updates.map
      (fun u => u.Body) = ["third", "first", "second"] ∧
    (Discordstatus.makeIncidentEmbed GoSort.sortSlice
      (Discordstatus.incidentOf "resolved" "API outage" Discordstatus.threeUpdates)).1.Updates.map
      (fun u => u.Body) = ["first", "second", "third"] ∧
    (Discordstatus.makeIncidentEmbed GoSort.sortSlice
      (Discordstatus.incidentOf "resolved" "API outage" Discordstatus.threeUpdates)).1 ≠
      Discordstatus.incidentOf "resolved" "API outage" Discordstatus.threeUpdates := by
  decide

/-- A list in which no element is less than its predecessor has no element less than any
element before it, the comparison being a transitive ordering. -/
theorem pairwise_of_chain {α : Type} (less : α → α → Bool) (hto : IsTransitiveOrdering less)
    (l : List α) (h : l.Chain' (fun a b => less b a = false)) :
    l.Pairwise (fun a b => less b a = false) := by
  have htrans : IsTrans α (fun a b => less b a = false) :=
    ⟨fun a b c hab hbc => hto.2.2 c b a hbc hab⟩
  exact List.chain'_iff_pairwise.mp h

/-- What the sort leaves of a list of records compared by a string key, when sort.Slice does what
Go documents it to do or is the sort.Slice of the Go library run on at most twelve records: a
rearrangement in which no record has a key less than that of a record before it, and the list
itself when its keys strictly ascend. -/
theorem sorted_in_place {α : Type} (sortSlice : SliceSorter) (key : α → String)
    (less : α → α → Bool) (hless : ∀ a b, less a b = stringLess (key a) (key b)) (x : List α)
    (hs : SortsSlice sortSlice ∨ (sortSlice = GoSort.sortSlice ∧ x.length ≤ 12)) :
    (sortSlice α less x).Perm x ∧
    (sortSlice α less x).Pairwise (fun a b => stringLess (key b) (key a) = false) ∧
    (x.Pairwise (fun a b => stringLess (key a) (key b) = true) → sortSlice α less x = x) := by
  have hto := isTransitiveOrdering_of_key key less hless
  obtain ⟨hperm, hchain⟩ := sorted_of_contract_or_short sortSlice less hto x hs
  refine ⟨hperm, ?_, fun hx => eq_of_sorted_of_ascending key less hless x _ hx hperm hchain⟩
  refine (pairwise_of_chain less hto _ hchain).imp ?_
  intro a b hab
  rw [← hless]
  exact hab

/-- C12, amended. The embed builders have one effect on their input, whatever the input and the
sort routine: the record after the call is the record before it with the result of the sort in
the place of Updates, every other field unchanged. When sort.Slice does what Go documents it to
do, or is the sort.Slice of the Go library run on at most twelve updates, that list is a
rearrangement of the updates of the input in which no update has a CreatedAt less than that of an
update before it, and if the updates arrive with strictly ascending CreatedAt the record after
the call is equal to the record before it. -/
theorem embed_builder_sorts_input_in_place (sortSlice : SliceSorter)
    (dinc : Discordstatus.Incident) (iinc : Instatus.Incident) (m : Instatus.Maintenance) :
    ((Discordstatus.makeIncidentEmbed sortSlice dinc).1 =
        { dinc with Updates := sortSlice _ Discordstatus.updateLess dinc.Updates } ∧
      (Instatus.makeIncidentEmbed sortSlice iinc).1 =
        { iinc with Updates := sortSlice _ Instatus.updateLess iinc.Updates } ∧
      (Instatus.makeMaintenanceEmbed sortSlice m).1 =
        { m with Updates := sortSlice _ Instatus.maintenanceUpdateLess m.Updates }) ∧
    ((SortsSlice sortSlice ∨ (sortSlice = GoSort.sortSlice ∧ dinc.Updates.length ≤ 12)) →
      (Discordstatus.makeIncidentEmbed sortSlice dinc).1.Updates.Perm dinc.Updates ∧
      (Discordstatus.makeIncidentEmbed sortSlice dinc).1.Updates.Pairwise
        (fun a b => stringLess b.CreatedAt a.CreatedAt = false) ∧
      (dinc.Updates.Pairwise (fun a b => stringLess a.CreatedAt b.CreatedAt = true) →
        (Discordstatus.makeIncidentEmbed sortSlice dinc).1 = dinc)) ∧
    ((SortsSlice sortSlice ∨ (sortSlice = GoSort.sortSlice ∧ iinc.Updates.length ≤ 12)) →
      (Instatus.makeIncidentEmbed sortSlice iinc).1.Updates.Perm iinc.Updates ∧
      (Instatus.makeIncidentEmbed sortSlice iinc).1.Updates.Pairwise
        (fun a b => stringLess b.CreatedAt a.CreatedAt = false) ∧
      (iinc.Updates.Pairwise (fun a b => stringLess a.CreatedAt b.CreatedAt = true) →
        (Instatus.makeIncidentEmbed sortSlice iinc).1 = iinc)) ∧
    ((SortsSlice sortSlice ∨ (sortSlice = GoSort.sortSlice ∧ m.Updates.length ≤ 12)) →
      (Instatus.makeMaintenanceEmbed sortSlice m).1.Updates.Perm m.Updates ∧
      (Instatus.makeMaintenanceEmbed sortSlice m).1.Updates.Pairwise
        (fun a b => stringLess b.CreatedAt a.CreatedAt = false) ∧
      (m.Updates.Pairwise (fun a b => stringLess a.CreatedAt b.CreatedAt = true) →
        (Instatus.makeMaintenanceEmbed sortSlice m).1 = m)) := by
  refine ⟨⟨rfl, rfl, rfl⟩, fun hs => ?_, fun hs => ?_, fun hs => ?_⟩
  · obtain ⟨h1, h2, h3⟩ := sorted_in_place sortSlice
      (fun u : Discordstatus.IncidentUpdate => u.CreatedAt) Discordstatus.updateLess
      (fun _ _ => rfl) dinc.Updates hs
    refine ⟨h1, h2, fun hx => ?_⟩
    show ({ dinc with Updates := sortSlice _ Discordstatus.updateLess dinc.Updates } :
      Discordstatus.Incident) = dinc
    rw [h3 hx]
  · obtain ⟨h1, h2, h3⟩ := sorted_in_place sortSlice
      (fun u : Instatus.IncidentUpdate => u.CreatedAt) Instatus.updateLess
      (fun _ _ => rfl) iinc.Updates hs
    refine ⟨h1, h2, fun hx => ?_⟩
    show ({ iinc with Updates := sortSlice _ Instatus.updateLess iinc.Updates } :
      Instatus.Incident) = iinc
    rw [h3 hx]
  · obtain ⟨h1, h2, h3⟩ := sorted_in_place sortSlice
      (fun u : Instatus.MaintenanceUpdate => u.CreatedAt) Instatus.maintenanceUpdateLess
      (fun _ _ => rfl) m.Updates hs
    refine ⟨h1, h2, fun hx => ?_⟩
    show ({ m with Updates := sortSlice _ Instatus.maintenanceUpdateLess m.Updates } :
      Instatus.Maintenance) = m
    rw [h3 hx]

/-- Witness of C12 amended. Go's sort.Slice on the incident whose three updates arrive third,
first, second: the record after the call is the input with its updates in the order first,
second, third, a rearrangement with ascending CreatedAt. Go's sort.Slice on three updates that
arrive in ascending order: the incident and the maintenance are left as they were. -/
theorem embed_builder_sorts_input_in_place_witness :
    (Discordstatus.threeUpdates.length ≤ 12 ∧ Discordstatus.orderedUpdates.length ≤ 12 ∧
      Instatus.orderedUpdates.length ≤ 12 ∧ Instatus.orderedMaintenanceUpdates.length ≤ 12) ∧
    (Discordstatus.orderedUpdates.Pairwise
        (fun a b => stringLess a.CreatedAt b.CreatedAt = true) ∧
      Instatus.orderedUpdates.Pairwise (fun a b => stringLess a.CreatedAt b.CreatedAt = true) ∧
      Instatus.orderedMaintenanceUpdates.Pairwise
        (fun a b => stringLess a.CreatedAt b.CreatedAt = true)) ∧
    ((Discordstatus.makeIncidentEmbed GoSort.sortSlice
        (Discordstatus.incidentOf "resolved" "API outage" Discordstatus.threeUpdates)).1 =
      { Discordstatus.incidentOf "resolved" "API outage" Discordstatus.threeUpdates with
        Updates := GoSort.sortSlice _ Discordstatus.updateLess Discordstatus.threeUpdates } ∧
      (GoSort.sortSlice _ Discordstatus.updateLess Discordstatus.threeUpdates).map
        (fun u => u.Body) = ["first", "second", "third"] ∧
      (Discordstatus.makeIncidentEmbed GoSort.sortSlice
        (Discordstatus.incidentOf "resolved" "API outage"
          Discordstatus.threeUpdates)).1.Updates.Perm Discordstatus.threeUpdates ∧
      (Discordstatus.makeIncidentEmbed GoSort.sortSlice
        (Discordstatus.incidentOf "resolved" "API outage"
          Discordstatus.threeUpdates)).1.Updates.Pairwise
        (fun a b => stringLess b.CreatedAt a.CreatedAt = false)) ∧
    ((Discordstatus.makeIncidentEmbed GoSort.sortSlice
        (Discordstatus.incidentOf "resolved" "API outage" Discordstatus.orderedUpdates)).1 =
      Discordstatus.incidentOf "resolved" "API outage" Discordstatus.orderedUpdates ∧
      (Instatus.makeIncidentEmbed GoSort.sortSlice
        (Instatus.incidentOf "Resolved" "API outage" Instatus.orderedUpdates)).1 =
      Instatus.incidentOf "Resolved" "API outage" Instatus.orderedUpdates ∧
      (Instatus.makeMaintenanceEmbed GoSort.sortSlice
        (Instatus.maintenanceOf "Completed" "DB upgrade"
          Instatus.orderedMaintenanceUpdates)).1 =
      Instatus.maintenanceOf "Completed" "DB upgrade" Instatus.orderedMaintenanceUpdates) :=
  have hu := embed_builder_sorts_input_in_place GoSort.sortSlice
    (Discordstatus.incidentOf "resolved" "API outage" Discordstatus.threeUpdates)
    (Instatus.incidentOf "Resolved" "API outage" Instatus.orderedUpdates)
    (Instatus.maintenanceOf "Completed" "DB upgrade" Instatus.orderedMaintenanceUpdates)
  have ho := embed_builder_sorts_input_in_place GoSort.sortSlice
    (Discordstatus.incidentOf "resolved" "API outage" Discordstatus.orderedUpdates)
    (Instatus.incidentOf "Resolved" "API outage" Instatus.orderedUpdates)
    (Instatus.maintenanceOf "Completed" "DB upgrade" Instatus.orderedMaintenanceUpdates)
  have hu2 := hu.2.1 (Or.inr ⟨rfl, by decide⟩)
  ⟨⟨by decide, by decide, by decide, by decide⟩, ⟨by decide, by decide, by decide⟩,
    ⟨hu.1.1, by decide, hu2.1, hu2.2.1⟩,
    ⟨(ho.2.1 (Or.inr ⟨rfl, by decide⟩)).2.2 (by decide),
      (ho.2.2.1 (Or.inr ⟨rfl, by decide⟩)).2.2 (by decide),
      (ho.2.2.2 (Or.inr ⟨rfl, by decide⟩)).2.2 (by decide)⟩⟩

/-!
## Updates with the same timestamp
-/

/-- The tie-reversing sorter meets the contract of sort.Slice. -/
theorem tieReversingSorter_sortsSlice : SortsSlice tieReversingSorter := by
  intro α less x hto
  obtain ⟨hperm, hchain⟩ := referenceSorter_sortsSlice α less x.reverse hto
  exact ⟨hperm.trans (List.reverse_perm x), hchain⟩

/-- What a sort meeting the contract of sort.Slice leaves of records compared by a string key:
a rearrangement in which no record has a key less than that of a record before it, holding, for
every key value, the records of the input that carry it. -/
theorem ties_kept_together {α : Type} (sortSlice : SliceSorter) (hs : SortsSlice sortSlice)
    (key : α → String) (less : α → α → Bool)
    (hless : ∀ a b, less a b = stringLess (key a) (key b)) (x : List α) :
    (sortSlice α less x).Perm x ∧
    (sortSlice α less x).Pairwise (fun a b => stringLess (key b) (key a) = false) ∧
    ∀ k : String, ((sortSlice α less x).filter (fun u => key u == k)).Perm
      (x.filter (fun u => key u == k)) := by
  obtain ⟨h1, h2, -⟩ := sorted_in_place sortSlice key less hless x (Or.inl hs)
  exact ⟨h1, h2, fun k => h1.filter _⟩

/-- C2, amended. The update sort is sort.Slice, which Go documents as not guaranteed to be
stable. Whenever sort.Slice does what Go documents it to do, for every incident (of either
package) and every maintenance the fields are the renderings of the updates as the sort leaves
them, that list is a rearrangement of the updates of the payload in which no update has a
CreatedAt less than that of an update before it, and for every CreatedAt value it holds the
updates of the payload that carry it, in some order. The order among them is not settled by what
Go documents: the reference sorter and the tie-reversing sorter both do what Go documents, and of
four updates on two timestamps, arriving late1, early1, late2, early2, the first renders early1,
early2, late1, late2 and the second early2, early1, late2, late1, which is not the order of the
payload. -/
theorem ties_rendered_in_sort_order (sortSlice : SliceSorter) (hs : SortsSlice sortSlice)
    (dinc : Discordstatus.Incident) (iinc : Instatus.Incident) (m : Instatus.Maintenance) :
    ((Discordstatus.makeIncidentEmbed sortSlice dinc).2.Fields =
        (Discordstatus.makeIncidentEmbed sortSlice dinc).1.Updates.map
          Discordstatus.incidentField ∧
      (Discordstatus.makeIncidentEmbed sortSlice dinc).1.Updates.Perm dinc.Updates ∧
      (Discordstatus.makeIncidentEmbed sortSlice dinc).1.Updates.Pairwise
        (fun a b => stringLess b.CreatedAt a.CreatedAt = false) ∧
      ∀ k : String,
        ((Discordstatus.makeIncidentEmbed sortSlice dinc).1.Updates.filter
          (fun u => u.CreatedAt == k)).Perm (dinc.Updates.filter (fun u => u.CreatedAt == k))) ∧
    ((Instatus.makeIncidentEmbed sortSlice iinc).2.Fields =
        (Instatus.makeIncidentEmbed sortSlice iinc).1.Updates.map Instatus.incidentField ∧
      (Instatus.makeIncidentEmbed sortSlice iinc).1.Updates.Perm iinc.Updates ∧
      (Instatus.makeIncidentEmbed sortSlice iinc).1.Updates.Pairwise
        (fun a b => stringLess b.CreatedAt a.CreatedAt = false) ∧
      ∀ k : String,
        ((Instatus.makeIncidentEmbed sortSlice iinc).1.Updates.filter
          (fun u => u.CreatedAt == k)).Perm (iinc.Updates.filter (fun u => u.CreatedAt == k))) ∧
    ((Instatus.makeMaintenanceEmbed sortSlice m).2.Fields =
        (Instatus.makeMaintenanceEmbed sortSlice m).1.Updates.map Instatus.maintenanceField ∧
      (Instatus.makeMaintenanceEmbed sortSlice m).1.Updates.Perm m.Updates ∧
      (Instatus.makeMaintenanceEmbed sortSlice m).1.Updates.Pairwise
        (fun a b => stringLess b.CreatedAt a.CreatedAt = false) ∧
      ∀ k : String,
        ((Instatus.makeMaintenanceEmbed sortSlice m).1.Updates.filter
          (fun u => u.CreatedAt == k)).Perm (m.Updates.filter (fun u => u.CreatedAt == k))) ∧
    (SortsSlice referenceSorter ∧ SortsSlice tieReversingSorter ∧
      Discordstatus.tiedUpdates.map (fun u => u.Body) = ["late1", "early1", "late2", "early2"] ∧
      (Discordstatus.makeIncidentEmbed referenceSorter
        (Discordstatus.incidentOf "resolved" "API outage"
          Discordstatus.tiedUpdates)).2.Fields.map (fun f => f.Value) =
        ["early1", "early2", "late1", "late2"] ∧
      (Discordstatus.makeIncidentEmbed tieReversingSorter
        (Discordstatus.incidentOf "resolved" "API outage"
          Discordstatus.tiedUpdates)).2.Fields.map (fun f => f.Value) =
        ["early2", "early1", "late2", "late1"] ∧
      (Instatus.makeIncidentEmbed tieReversingSorter
        (Instatus.incidentOf "Resolved" "API outage"
          Instatus.tiedUpdates)).2.Fields.map (fun f => f.Value) =
        ["early2", "early1", "late2", "late1"] ∧
      (Instatus.makeMaintenanceEmbed tieReversingSorter
        (Instatus.maintenanceOf "Completed" "DB upgrade"
          Instatus.tiedMaintenanceUpdates)).2.Fields.map (fun f => f.Value) =
        ["early2", "early1", "late2", "late1"]) := by
  refine ⟨⟨Discordstatus.discordstatus_incident_fields _ dinc, ?_⟩,
    ⟨Instatus.instatus_incident_fields _ iinc, ?_⟩,
    ⟨Instatus.instatus_maintenance_fields _ m, ?_⟩,
    referenceSorter_sortsSlice, tieReversingSorter_sortsSlice, by decide, by decide, by decide,
    by decide, by decide⟩
  · exact ties_kept_together sortSlice hs (fun u : Discordstatus.IncidentUpdate => u.CreatedAt)
      Discordstatus.updateLess (fun _ _ => rfl) dinc.Updates
  · exact ties_kept_together sortSlice hs (fun u : Instatus.IncidentUpdate => u.CreatedAt)
      Instatus.updateLess (fun _ _ => rfl) iinc.Updates
  · exact ties_kept_together sortSlice hs (fun u : Instatus.MaintenanceUpdate => u.CreatedAt)
      Instatus.maintenanceUpdateLess (fun _ _ => rfl) m.Updates

/-- Witness of C2 amended: the tie-reversing sorter, which does what Go documents for sort.Slice,
on the four updates on two timestamps: the updates after the sort are a rearrangement of the
payload with no CreatedAt less than one before it, and they are not in the relative order of the
payload. -/
theorem ties_rendered_in_sort_order_witness :
    SortsSlice tieReversingSorter ∧
    ((Discordstatus.makeIncidentEmbed tieReversingSorter
        (Discordstatus.incidentOf "resolved" "API outage"
          Discordstatus.tiedUpdates)).1.Updates.Perm Discordstatus.tiedUpdates ∧
      (Discordstatus.makeIncidentEmbed tieReversingSorter
        (Discordstatus.incidentOf "resolved" "API outage"
          Discordstatus.tiedUpdates)).1.Updates.Pairwise
        (fun a b => stringLess b.CreatedAt a.CreatedAt = false)) ∧
    ¬ StableBy (fun u => u.CreatedAt) Discordstatus.tiedUpdates
      (Discordstatus.makeIncidentEmbed tieReversingSorter
        (Discordstatus.incidentOf "resolved" "API outage"
          Discordstatus.tiedUpdates)).1.Updates :=
  have h := (ties_rendered_in_sort_order tieReversingSorter tieReversingSorter_sortsSlice
    (Discordstatus.incidentOf "resolved" "API outage" Discordstatus.tiedUpdates)
    (Instatus.incidentOf "Resolved" "API outage" Instatus.tiedUpdates)
    (Instatus.maintenanceOf "Completed" "DB upgrade" Instatus.tiedMaintenanceUpdates)).1
  ⟨tieReversingSorter_sortsSlice, ⟨h.2.1, h.2.2.1⟩,
    fun hst => absurd (hst "2024-01-02T03:04:05.000Z") (by decide)⟩

/-!
## The humanized time and the zone of the timestamp
-/

/-- The hour, minute and second of a wall clock determine the second of the day. -/
theorem GoTime.clock_eq_iff (x y : Nat) :
    ((x / 3600, x % 3600 / 60, x % 60) : Nat × Nat × Nat) = (y / 3600, y % 3600 / 60, y % 60) ↔
      x = y := by
  constructor
  · intro h
    simp only [Prod.mk.injEq] at h
    omega
  · intro h
    rw [h]

/-- The wall clock a time value shows in its own location is its UTC wall clock exactly when its
offset is a whole number of days. -/
theorem GoTime.Clock_eq_UTC_iff (t : GoTime.Time) :
    t.Clock = t.UTC.Clock ↔ t.offset % 86400 = 0 := by
  unfold GoTime.Time.Clock GoTime.Time.UTC
  simp only [add_zero]
  have h0 : 0 ≤ (t.unixSec + t.offset) % 86400 := Int.emod_nonneg _ (by norm_num)
  have h1 : (t.unixSec + t.offset) % 86400 < 86400 := Int.emod_lt_of_pos _ (by norm_num)
  have h2 : 0 ≤ t.unixSec % 86400 := Int.emod_nonneg _ (by norm_num)
  have h3 : t.unixSec % 86400 < 86400 := Int.emod_lt_of_pos _ (by norm_num)
  rw [GoTime.clock_eq_iff]
  omega

/-- C16, as stated, fails: for "2024-01-02T03:04:05.123+02:00" `humanizedTime` prints 03:04:05,
the time of day at the offset the timestamp is written with, while the UTC wall clock of the
denoted instant shows 01:04:05. -/
theorem humanizedTime_offset_not_utc :
    Discordstatus.humanizedTime "2024-01-02T03:04:05.123+02:00" = "03:04:05z" ∧
    Instatus.humanizedTime "2024-01-02T03:04:05.123+02:00" = "03:04:05z" ∧
    (GoTime.Parse_RFC3339Nano "2024-01-02T03:04:05.123+02:00".data).map
      (fun t => t.UTC.Clock) = some (1, 4, 5) ∧
    (GoTime.Parse_RFC3339Nano "2024-01-02T03:04:05.123+02:00".data).map
      (fun t => t.UTC.Format_150405z) = some "01:04:05z" := by
  decide

/-- C16, amended. For every timestamp that parses under RFC3339Nano, `humanizedTime` (the same
function in both packages) prints the two-digit hour, minute and second of the wall clock at the
offset the timestamp is written with, and the letter z; that wall clock is the UTC wall clock of
the denoted instant if and only if the offset is a whole number of days, as it is for the zone Z
and for a zero offset. -/
theorem humanizedTime_clock_of_offset (t : String) (parsed : GoTime.Time)
    (hp : GoTime.Parse_RFC3339Nano t.data = some parsed) :
    Instatus.humanizedTime t = Discordstatus.humanizedTime t ∧
    Discordstatus.humanizedTime t =
      String.mk (twoDigits parsed.Clock.1 ++ ':' :: twoDigits parsed.Clock.2.1 ++
        ':' :: twoDigits parsed.Clock.2.2 ++ ['z']) ∧
    parsed.Clock =
      (((parsed.unixSec + parsed.offset) % 86400).toNat / 3600,
        ((parsed.unixSec + parsed.offset) % 86400).toNat % 3600 / 60,
        ((parsed.unixSec + parsed.offset) % 86400).toNat % 60) ∧
    parsed.UTC.Clock =
      ((parsed.unixSec % 86400).toNat / 3600, (parsed.unixSec % 86400).toNat % 3600 / 60,
        (parsed.unixSec % 86400).toNat % 60) ∧
    (parsed.Clock = parsed.UTC.Clock ↔ parsed.offset % 86400 = 0) := by
  refine ⟨rfl, ?_, rfl, ?_, GoTime.Clock_eq_UTC_iff parsed⟩
  · unfold Discordstatus.humanizedTime
    rw [hp]
    exact GoTime.Format_150405z_eq parsed
  · unfold GoTime.Time.Clock GoTime.Time.UTC
    simp

/-- Witness of C16 amended: a timestamp written with the zone Z, whose humanized time 03:04:05 is
the UTC wall clock, and one written two hours east, whose humanized time 03:04:05 is not. -/
theorem humanizedTime_clock_of_offset_witness :
    (GoTime.Parse_RFC3339Nano "2024-01-02T03:04:05.123Z".data =
        some (GoTime.Date 2024 1 2 3 4 5 123000000 0) ∧
      Discordstatus.humanizedTime "2024-01-02T03:04:05.123Z" = "03:04:05z" ∧
      (GoTime.Date 2024 1 2 3 4 5 123000000 0).Clock =
        (GoTime.Date 2024 1 2 3 4 5 123000000 0).UTC.Clock) ∧
    (GoTime.Parse_RFC3339Nano "2024-01-02T03:04:05.123+02:00".data =
        some (GoTime.Date 2024 1 2 3 4 5 123000000 7200) ∧
      Discordstatus.humanizedTime "2024-01-02T03:04:05.123+02:00" = "03:04:05z" ∧
      (GoTime.Date 2024 1 2 3 4 5 123000000 7200).Clock ≠
        (GoTime.Date 2024 1 2 3 4 5 123000000 7200).UTC.Clock) :=
  have hz := humanizedTime_clock_of_offset "2024-01-02T03:04:05.123Z"
    (GoTime.Date 2024 1 2 3 4 5 123000000 0) (by decide)
  have he := humanizedTime_clock_of_offset "2024-01-02T03:04:05.123+02:00"
    (GoTime.Date 2024 1 2 3 4 5 123000000 7200) (by decide)
  ⟨⟨by decide, by decide, hz.2.2.2.2.mpr (by decide)⟩,
    ⟨by decide, by decide, fun h => absurd (he.2.2.2.2.mp h) (by decide)⟩⟩

/-!
## String order and chronological order of timestamps in the fixed profile
-/

/-- A digit character lies between '0' and '9', and its value is the digit. -/
theorem digitChar_spec (n : Nat) :
    (digitChar n < '0') = False ∧ ('9' < digitChar n) = False ∧
    decide ('0' ≤ digitChar n) = true ∧ decide (digitChar n ≤ '9') = true ∧
    GoTime.digitVal (digitChar n) = n % 10 := by
  unfold digitChar
  have h : n % 10 < 10 := Nat.mod_lt _ (by norm_num)
  generalize n % 10 = d at h
  interval_cases d <;> decide

/-- Digit characters are ordered as their digits. -/
theorem digitChar_lt_iff (m n : Nat) :
    (digitChar m < digitChar n ↔ m % 10 < n % 10) ∧
    (digitChar m = digitChar n ↔ m % 10 = n % 10) := by
  unfold digitChar
  have hm : m % 10 < 10 := Nat.mod_lt _ (by norm_num)
  have hn : n % 10 < 10 := Nat.mod_lt _ (by norm_num)
  generalize m % 10 = d at hm
  generalize n % 10 = e at hn
  interval_cases d <;> interval_cases e <;> decide

theorem padDigits_length (w n : Nat) : (padDigits w n).length = w := by
  induction w generalizing n with
  | zero => rfl
  | succ w ih => simp [padDigits, ih]

/-- Go's string order on strings that start with parts of equal length: the first parts decide
unless they are equal, and then the rests decide. -/
theorem stringLess_loop_append (p q s t : List Char) (h : p.length = q.length) :
    stringLess_loop (p ++ s) (q ++ t) =
      (stringLess_loop p q || (decide (p = q) && stringLess_loop s t)) := by
  induction p generalizing q with
  | nil =>
    cases q with
    | nil => simp [stringLess_loop]
    | cons b q => simp at h
  | cons a p ih =>
    cases q with
    | nil => simp at h
    | cons b q =>
      simp only [List.length_cons, add_left_inj] at h
      simp only [List.cons_append, stringLess_loop, List.cons.injEq]
      by_cases hab : a < b
      · simp [hab]
      · by_cases hba : b < a
        · have hne : a ≠ b := fun e => by
            subst e
            exact hab hba
          simp [hab, hba, hne]
        · have he : a = b := le_antisymm (not_lt.mp hba) (not_lt.mp hab)
          subst he
          simp [hab, ih q h]

/-- Two zero-padded fields of the same width compare, as strings, the way the numbers written in
them compare. -/
theorem padDigits_order (w m n : Nat) :
    stringLess_loop (padDigits w m) (padDigits w n) = decide (m % 10 ^ w < n % 10 ^ w) ∧
    (padDigits w m = padDigits w n ↔ m % 10 ^ w = n % 10 ^ w) := by
  induction w generalizing m n with
  | zero => simp [padDigits, stringLess_loop, Nat.mod_one]
  | succ w ih =>
    obtain ⟨ih1, ih2⟩ := ih (m / 10) (n / 10)
    have hm : m % 10 ^ (w + 1) = m % 10 + 10 * (m / 10 % 10 ^ w) := by
      rw [pow_succ', Nat.mod_mul]
    have hn : n % 10 ^ (w + 1) = n % 10 + 10 * (n / 10 % 10 ^ w) := by
      rw [pow_succ', Nat.mod_mul]
    have hdm : m % 10 < 10 := Nat.mod_lt _ (by norm_num)
    have hdn : n % 10 < 10 := Nat.mod_lt _ (by norm_num)
    obtain ⟨hlt, heq⟩ := digitChar_lt_iff m n
    have hlen : (padDigits w (m / 10)).length = (padDigits w (n / 10)).length := by
      rw [padDigits_length, padDigits_length]
    constructor
    · simp only [padDigits]
      rw [stringLess_loop_append _ _ _ _ hlen, ih1, hm, hn]
      have hlast : stringLess_loop [digitChar m] [digitChar n] = decide (m % 10 < n % 10) := by
        simp only [stringLess_loop]
        by_cases h : digitChar m < digitChar n
        · simp [h, hlt.mp h]
        · have h' : ¬ m % 10 < n % 10 := fun c => h (hlt.mpr c)
          simp [h, h']
      rw [hlast]
      by_cases hpq : padDigits w (m / 10) = padDigits w (n / 10)
      · have := ih2.mp hpq
        simp only [hpq, decide_True, Bool.true_and, this, lt_self_iff_false, decide_False,
          Bool.false_or]
        congr 1
        exact propext ⟨fun h => by omega, fun h => by omega⟩
      · have hne : m / 10 % 10 ^ w ≠ n / 10 % 10 ^ w := fun c => hpq (ih2.mpr c)
        simp only [hpq, decide_False, Bool.false_and, Bool.or_false]
        congr 1
        exact propext ⟨fun h => by omega, fun h => by omega⟩
    · simp only [padDigits]
      rw [hm, hn]
      constructor
      · intro h
        obtain ⟨h1, h2⟩ := List.append_inj h hlen
        have h3 := ih2.mp h1
        have h4 := heq.mp (by simpa using h2)
        omega
      · intro h
        have h3 : m / 10 % 10 ^ w = n / 10 % 10 ^ w := by omega
        have h4 : m % 10 = n % 10 := by omega
        rw [ih2.mpr h3, heq.mpr h4]

/-- The character of a digit is neither a sign nor the period. -/
theorem digitChar_ne (n : Nat) : digitChar n ≠ '-' ∧ digitChar n ≠ '+' := by
  unfold digitChar
  have h : n % 10 < 10 := Nat.mod_lt _ (by norm_num)
  generalize n % 10 = d at h
  interval_cases d <;> decide

/-- A zero-padded field starts with a digit. -/
theorem padDigits_head (w n : Nat) : ∃ m, (padDigits (w + 1) n).head? = some (digitChar m) := by
  induction w generalizing n with
  | zero => exact ⟨n, rfl⟩
  | succ w ih =>
    obtain ⟨m, hm⟩ := ih (n / 10)
    refine ⟨m, ?_⟩
    rw [padDigits, List.head?_append, hm]
    rfl

theorem padDigits_take (w n : Nat) (rest : List Char) :
    (padDigits w n ++ rest).take w = padDigits w n ∧
    (padDigits w n ++ rest).drop w = rest := by
  have h := padDigits_length w n
  constructor
  · rw [List.take_append_of_le_length (by omega), List.take_of_length_le (by omega)]
  · rw [List.drop_append_of_le_length (by omega), List.drop_of_length_le (by omega)]
    rfl

/-- Go `leadingInt` reads a zero-padded field as the number written in it. -/
theorem GoTime.leadingInt_padDigits (w n x : Nat) (rest : List Char)
    (hb : x * 10 ^ w + n % 10 ^ w ≤ 10 ^ 17) :
    GoTime.leadingInt (padDigits w n ++ rest) x =
      GoTime.leadingInt rest (x * 10 ^ w + n % 10 ^ w) := by
  induction w generalizing n rest with
  | zero => simp [padDigits, Nat.mod_one]
  | succ w ih =>
    have hn : n % 10 ^ (w + 1) = n % 10 + 10 * (n / 10 % 10 ^ w) := by
      rw [pow_succ', Nat.mod_mul]
    have hv : x * 10 ^ (w + 1) + n % 10 ^ (w + 1) =
        (x * 10 ^ w + n / 10 % 10 ^ w) * 10 + n % 10 := by
      rw [hn, pow_succ']
      ring
    rw [hv] at hb ⊢
    have hd := digitChar_spec n
    simp only [padDigits, List.append_assoc, List.singleton_append]
    rw [ih (n / 10) (digitChar n :: rest) (by omega)]
    generalize x * 10 ^ w + n / 10 % 10 ^ w = x' at hb
    rw [GoTime.leadingInt]
    have h1 : ¬ 922337203685477580 < x' := by omega
    have h2 : ¬ 9223372036854775808 < x' * 10 + n % 10 := by omega
    simp [hd.1, hd.2.1, hd.2.2.2.2, h1, h2]

/-- Go `atoi` reads a zero-padded field of one to seventeen digits as the number written in
it. -/
theorem GoTime.atoi_padDigits (w n : Nat) (hw : w + 1 ≤ 17) :
    GoTime.atoi (padDigits (w + 1) n) = some ((n % 10 ^ (w + 1) : Nat) : Int) := by
  obtain ⟨m, hm⟩ := padDigits_head w n
  have hne := digitChar_ne m
  have hlt : n % 10 ^ (w + 1) < 10 ^ (w + 1) := Nat.mod_lt _ (by positivity)
  have hle : 10 ^ (w + 1) ≤ 10 ^ 17 := Nat.pow_le_pow_right (by norm_num) hw
  have hl := GoTime.leadingInt_padDigits (w + 1) n 0 [] (by omega)
  simp only [List.append_nil, zero_mul, zero_add] at hl
  unfold GoTime.atoi
  simp [hm, hne.1, hne.2, hl, GoTime.leadingInt]

/-- Go `getnum` reads a zero-padded field of two digits as the number written in it. -/
theorem GoTime.getnum_padDigits (n : Nat) (rest : List Char) ( fixed : Bool) (hn : n < 100) :
    GoTime.getnum (padDigits 2 n ++ rest) fixed = some (n, rest) := by
  have h1 := digitChar_spec (n / 10)
  have h2 := digitChar_spec n
  have e : padDigits 2 n ++ rest = digitChar (n / 10) :: digitChar n :: rest := by
    simp [padDigits]
  rw [e]
  unfold GoTime.getnum GoTime.isDigit
  simp only [List.getElem?_cons_zero, List.getElem?_cons_succ, h1.2.2.1, h1.2.2.2.1, h2.2.2.1,
    h2.2.2.2.1, Bool.and_self, Bool.not_true, Bool.false_eq_true, if_false, List.headD_cons,
    List.drop_succ_cons, List.drop_zero, h1.2.2.2.2, h2.2.2.2.2]
  congr 2
  omega

theorem padDigits_takeWhile (w n : Nat) (rest : List Char) :
    (padDigits w n ++ rest).takeWhile (fun c => decide ('0' ≤ c) && decide (c ≤ '9')) =
      padDigits w n ++ rest.takeWhile (fun c => decide ('0' ≤ c) && decide (c ≤ '9')) := by
  induction w generalizing n rest with
  | zero => rfl
  | succ w ih =>
    have h := digitChar_spec n
    simp only [padDigits, List.append_assoc, List.singleton_append]
    rw [ih, List.takeWhile_cons]
    simp [h.2.2.1, h.2.2.2.1]

/-- Go's fractional-second chunk reads one to nine fractional digits before the zone letter as
nanoseconds. -/
theorem GoTime.parseFracSecond9_padDigits (k f : Nat) (hk : k + 1 ≤ 9) :
    GoTime.parseFracSecond9 ('.' :: (padDigits (k + 1) f ++ ['Z'])) =
      some (f % 10 ^ (k + 1) * 10 ^ (9 - (k + 1)), ['Z']) := by
  obtain ⟨m, hm⟩ := padDigits_head k f
  have hd := digitChar_spec m
  have hlen := padDigits_length (k + 1) f
  have htk := padDigits_take (k + 1) f ['Z']
  have hhead : ('.' :: (padDigits (k + 1) f ++ ['Z']))[1]? = some (digitChar m) := by
    rw [List.getElem?_cons_succ, ← List.head?_eq_getElem?, List.head?_append, hm]
    rfl
  have htw : ((padDigits (k + 1) f ++ ['Z']).takeWhile
      (fun c => decide ('0' ≤ c) && decide (c ≤ '9'))).length = k + 1 := by
    rw [padDigits_takeWhile]
    simp [hlen]
  unfold GoTime.parseFracSecond9
  have hlen2 : ¬ ('.' :: (padDigits (k + 1) f ++ ['Z'])).length < 2 := by
    simp [hlen]
  simp only [hlen2, decide_False, List.headD_cons, GoTime.isDigit, hhead, hd.2.2.1, hd.2.2.2.1,
    Bool.and_self, Bool.not_true, Bool.or_false, Bool.false_or, List.drop_succ_cons,
    List.drop_zero, htw]
  have hcp : GoTime.commaOrPeriod '.' = true := by decide
  have hnb : ¬ 10 < 1 + (k + 1) := by omega
  have hat := GoTime.atoi_padDigits k f (by omega)
  unfold GoTime.parseNanoseconds
  simp only [List.headD_cons, hcp, Bool.not_true, Bool.false_eq_true, if_false, hnb]
  have e1 : (('.' :: (padDigits (k + 1) f ++ ['Z'])).take (1 + (k + 1))).drop 1 =
      padDigits (k + 1) f := by
    rw [Nat.add_comm 1 (k + 1), List.take_succ_cons, List.drop_succ_cons, List.drop_zero, htk.1]
  have e2 : ('.' :: (padDigits (k + 1) f ++ ['Z'])).drop (1 + (k + 1)) = ['Z'] := by
    rw [Nat.add_comm 1 (k + 1), List.drop_succ_cons, htk.2]
  rw [e1, hat, e2]
  have e3 : 10 - (1 + (k + 1)) = 9 - (k + 1) := by omega
  have hnn : ¬ (((f % 10 ^ (k + 1) : Nat) : Int) < 0) := not_lt.mpr (Int.natCast_nonneg _)
  simp only [hnn, if_false, Int.toNat_natCast, e3]

/-- Go `skip` steps over a literal character of the layout. -/
theorem GoTime.skip_cons (c : Char) (rest : List Char) :
    GoTime.skip (c :: rest) [c] = some rest := by
  cases rest <;> simp [GoTime.skip]

/-- Go `time.Parse(time.RFC3339Nano, …)` accepts every timestamp of the profile with one to nine
fractional digits whose fields are valid, and returns the instant the fields denote, in UTC. -/
theorem GoTime.Parse_render (k : Nat) (hk : k + 1 ≤ 9) (s : Stamp) (hv : s.Valid (k + 1)) :
    GoTime.Parse_RFC3339Nano (s.render (k + 1)).data =
      some (GoTime.Date s.year s.month s.day s.hour s.minute s.second
        (s.fraction * 10 ^ (9 - (k + 1))) 0) := by
  obtain ⟨hy, hmo1, hmo2, hd1, hd2, hh, hmi, hs, hf⟩ := hv
  have hdl : s.day < 100 := by
    have : GoTime.daysIn s.month s.year ≤ 31 := by
      unfold GoTime.daysIn GoTime.daysBefore
      split
      · norm_num
      · have h1 := hmo1
        have h2 := hmo2
        generalize s.month = mo at h1 h2
        interval_cases mo <;> simp
    omega
  obtain ⟨m, hm⟩ := padDigits_head 3 s.year
  have hdm := digitChar_spec m
  unfold Stamp.render GoTime.Parse_RFC3339Nano
  have hlen : ¬ (padDigits 4 s.year ++ '-' :: (padDigits 2 s.month ++ '-' ::
      (padDigits 2 s.day ++ 'T' :: (padDigits 2 s.hour ++ ':' :: (padDigits 2 s.minute ++
      ':' :: (padDigits 2 s.second ++ '.' ::
      (padDigits (k + 1) s.fraction ++ ['Z']))))))).length < 4 := by
    simp [padDigits_length]
  have hdig : GoTime.isDigit (padDigits 4 s.year ++ '-' :: (padDigits 2 s.month ++ '-' ::
      (padDigits 2 s.day ++ 'T' :: (padDigits 2 s.hour ++ ':' :: (padDigits 2 s.minute ++
      ':' :: (padDigits 2 s.second ++ '.' ::
      (padDigits (k + 1) s.fraction ++ ['Z']))))))) 0 = true := by
    unfold GoTime.isDigit
    rw [← List.head?_eq_getElem?, List.head?_append, hm]
    simp [hdm.2.2.1, hdm.2.2.2.1]
  have hyear : GoTime.atoi (padDigits 4 s.year) = some (s.year : Int) := by
    rw [GoTime.atoi_padDigits 3 s.year (by norm_num), Nat.mod_eq_of_lt (by omega)]
  have hfrac : s.fraction % 10 ^ (k + 1) = s.fraction := Nat.mod_eq_of_lt hf
  simp only [hlen, hdig, decide_False, Bool.not_true, Bool.or_self, Bool.false_eq_true,
    if_false, (padDigits_take 4 s.year _).1, (padDigits_take 4 s.year _).2, hyear, GoTime.skip_cons,
    if_true, GoTime.getnum_padDigits _ _ _ (show s.month < 100 by omega),
    GoTime.getnum_padDigits _ _ _ hdl, GoTime.getnum_padDigits _ _ _ (show s.hour < 100 by omega),
    GoTime.getnum_padDigits _ _ _ (show s.minute < 100 by omega),
    GoTime.getnum_padDigits _ _ _ (show s.second < 100 by omega),
    GoTime.parseFracSecond9_padDigits k s.fraction hk, hfrac]
  have hz : GoTime.parseISO8601ColonTZ ['Z'] = some (0, []) := by decide
  have h1 : ¬ s.month = 0 := by omega
  have h2 : ¬ 12 < s.month := by omega
  have h3 : ¬ 24 ≤ s.hour := by omega
  have h4 : ¬ 60 ≤ s.minute := by omega
  have h5 : ¬ 60 ≤ s.second := by omega
  have h6 : ¬ s.day < 1 := by omega
  have h7 : ¬ GoTime.daysIn s.month s.year < s.day := by omega
  simp [hz, h1, h2, h3, h4, h5, h6, h7]

/-- Two strings that start with zero-padded fields of the same width, followed by the same
separator, compare by the numbers in the fields and, when these are equal, by what follows. -/
theorem stringLess_loop_field (w m n : Nat) (c : Char) (s t : List Char) (hm : m < 10 ^ w)
    (hn : n < 10 ^ w) :
    stringLess_loop (padDigits w m ++ c :: s) (padDigits w n ++ c :: t) = true ↔
      m < n ∨ (m = n ∧ stringLess_loop s t = true) := by
  have hlen : (padDigits w m).length = (padDigits w n).length := by
    rw [padDigits_length, padDigits_length]
  obtain ⟨h1, h2⟩ := padDigits_order w m n
  rw [Nat.mod_eq_of_lt hm, Nat.mod_eq_of_lt hn] at h1 h2
  have hc : stringLess_loop (c :: s) (c :: t) = stringLess_loop s t := by
    simp [stringLess_loop]
  rw [stringLess_loop_append _ _ _ _ hlen, h1, hc]
  simp only [Bool.or_eq_true, Bool.and_eq_true, decide_eq_true_eq, h2]

/-- The last field, before the zone letter. -/
theorem stringLess_loop_last_field (w m n : Nat) (hm : m < 10 ^ w) (hn : n < 10 ^ w) :
    stringLess_loop (padDigits w m ++ ['Z']) (padDigits w n ++ ['Z']) = true ↔ m < n := by
  rw [stringLess_loop_field w m n 'Z' [] [] hm hn]
  simp [stringLess_loop]

/-- Go's string order on two timestamps of the profile with the same number of fractional digits
is the order of their fields, read from the year down. -/
theorem stringLess_render (digits : Nat) (a b : Stamp) (ha : a.Valid digits)
    (hb : b.Valid digits) :
    stringLess (a.render digits) (b.render digits) = true ↔ a.FieldsLess b := by
  obtain ⟨hy, hmo1, hmo2, hd1, hd2, hh, hmi, hs, hf⟩ := ha
  obtain ⟨hy', hmo1', hmo2', hd1', hd2', hh', hmi', hs', hf'⟩ := hb
  have hday : ∀ (mo : Nat) (y : Int), GoTime.daysIn mo y ≤ 31 ∨ 12 < mo ∨ mo = 0 := by
    intro mo y
    by_cases h : 12 < mo
    · exact Or.inr (Or.inl h)
    · by_cases h0 : mo = 0
      · exact Or.inr (Or.inr h0)
      · left
        unfold GoTime.daysIn GoTime.daysBefore
        split
        · norm_num
        · have h1 : 1 ≤ mo := by omega
          have h2 : mo ≤ 12 := by omega
          interval_cases mo <;> simp
  have hdl : a.day < 10 ^ 2 := by
    rcases hday a.month a.year with h | h | h <;> omega
  have hdl' : b.day < 10 ^ 2 := by
    rcases hday b.month b.year with h | h | h <;> omega
  unfold stringLess Stamp.render Stamp.FieldsLess
  simp only []
  rw [stringLess_loop_field 4 _ _ _ _ _ (by omega) (by omega),
    stringLess_loop_field 2 _ _ _ _ _ (by omega) (by omega),
    stringLess_loop_field 2 _ _ _ _ _ hdl hdl',
    stringLess_loop_field 2 _ _ _ _ _ (by omega) (by omega),
    stringLess_loop_field 2 _ _ _ _ _ (by omega) (by omega),
    stringLess_loop_field 2 _ _ _ _ _ (by omega) (by omega),
    stringLess_loop_last_field digits _ _ hf hf']

/-- The first of January of the next year comes 365 days after that of a year, 366 after that of
a leap year. -/
theorem GoTime.daysSinceEpoch_next_year (y : Int) :
    GoTime.daysSinceEpoch (y + 1) 1 1 =
      GoTime.daysSinceEpoch y 1 1 + 365 + (if GoTime.isLeap y = true then 1 else 0) := by
  unfold GoTime.daysSinceEpoch GoTime.isLeap GoTime.daysBefore
  simp only [Bool.and_eq_true, beq_iff_eq, Bool.or_eq_true, bne_iff_ne, ne_eq,
    decide_eq_true_eq]
  norm_num
  split <;> omega

/-- The first of January of a later year comes after every day of an earlier year. -/
theorem GoTime.daysSinceEpoch_later_year (y n : Nat) :
    GoTime.daysSinceEpoch (y : Int) 1 1 + 365 +
        (if GoTime.isLeap (y : Int) = true then 1 else 0) ≤
      GoTime.daysSinceEpoch ((y + n + 1 : Nat) : Int) 1 1 := by
  induction n with
  | zero =>
    have h := GoTime.daysSinceEpoch_next_year (y : Int)
    simp only [Nat.add_zero, Nat.cast_add, Nat.cast_one]
    omega
  | succ n ih =>
    have h := GoTime.daysSinceEpoch_next_year ((y + n + 1 : Nat) : Int)
    have e : (((y + n + 1 : Nat) : Int) + 1) = ((y + (n + 1) + 1 : Nat) : Int) := by
      push_cast
      ring
    rw [e] at h
    split at h <;> omega

/-- Go's day count, split into the days before the year, the days of the year before the month,
and the day of the month. -/
theorem GoTime.daysSinceEpoch_eq (y : Int) (m d : Nat) :
    GoTime.daysSinceEpoch y m d =
      (365 * (y - 1) + (y - 1) / 4 - (y - 1) / 100 + (y - 1) / 400) +
      (((GoTime.daysBefore (m - 1) : Nat) : Int) +
        (if (GoTime.isLeap y && decide (3 ≤ m)) = true then 1 else 0)) +
      ((d : Int) - 1) - 719162 := by
  unfold GoTime.daysSinceEpoch
  simp only []
  ring

/-- The days before a month and the days in it, by the usual formula for the day of the year;
the correction from March on is 1 in a leap year and 2 otherwise. -/
theorem GoTime.month_start_formula (L : Bool) (m : Nat) (hm1 : 1 ≤ m) (hm2 : m ≤ 12) :
    ((m ≤ 2 ∧ ((GoTime.daysBefore (m - 1) : Nat) : Int) +
        (if (L && decide (3 ≤ m)) = true then 1 else 0) = (367 * (m : Int) - 362) / 12) ∨
     (3 ≤ m ∧ ((GoTime.daysBefore (m - 1) : Nat) : Int) +
        (if (L && decide (3 ≤ m)) = true then 1 else 0) =
          (367 * (m : Int) - 362) / 12 - (if L = true then 1 else 2))) ∧
    ((m + 1 ≤ 2 ∧ ((GoTime.daysBefore (m - 1) : Nat) : Int) +
        (if (L && decide (3 ≤ m)) = true then 1 else 0) +
        (((if (m == 2 && L) = true then 29
          else GoTime.daysBefore m - GoTime.daysBefore (m - 1)) : Nat) : Int) =
          (367 * ((m : Int) + 1) - 362) / 12) ∨
     (3 ≤ m + 1 ∧ ((GoTime.daysBefore (m - 1) : Nat) : Int) +
        (if (L && decide (3 ≤ m)) = true then 1 else 0) +
        (((if (m == 2 && L) = true then 29
          else GoTime.daysBefore m - GoTime.daysBefore (m - 1)) : Nat) : Int) =
          (367 * ((m : Int) + 1) - 362) / 12 - (if L = true then 1 else 2))) := by
  cases L <;> interval_cases m <;> simp [GoTime.daysBefore]

/-- Within a year the days are ordered as month and day of the month are, and every day of the
year comes on or after its first of January and before the first of January of the next
year. -/
theorem GoTime.daysSinceEpoch_same_year (y : Int) (m d m' d' : Nat) (hm1 : 1 ≤ m) (hm2 : m ≤ 12)
    (hd1 : 1 ≤ d) (hd2 : d ≤ GoTime.daysIn m y) (hm1' : 1 ≤ m') (hm2' : m' ≤ 12)
    (hd1' : 1 ≤ d') (hd2' : d' ≤ GoTime.daysIn m' y) :
    (GoTime.daysSinceEpoch y m d < GoTime.daysSinceEpoch y m' d' ↔
      m < m' ∨ (m = m' ∧ d < d')) ∧
    (GoTime.daysSinceEpoch y m d = GoTime.daysSinceEpoch y m' d' ↔ m = m' ∧ d = d') ∧
    GoTime.daysSinceEpoch y 1 1 ≤ GoTime.daysSinceEpoch y m d ∧
    GoTime.daysSinceEpoch y m d <
      GoTime.daysSinceEpoch y 1 1 + 365 + (if GoTime.isLeap y = true then 1 else 0) := by
  rw [GoTime.daysSinceEpoch_eq y m d, GoTime.daysSinceEpoch_eq y m' d',
    GoTime.daysSinceEpoch_eq y 1 1]
  unfold GoTime.daysIn at hd2 hd2'
  obtain ⟨a1, a3⟩ := GoTime.month_start_formula (GoTime.isLeap y) m hm1 hm2
  obtain ⟨b1, b3⟩ := GoTime.month_start_formula (GoTime.isLeap y) m' hm1' hm2'
  obtain ⟨c1, -⟩ := GoTime.month_start_formula (GoTime.isLeap y) 1 (by norm_num)
    (by norm_num)
  have hk : (if GoTime.isLeap y = true then (1 : Int) else 2) +
      (if GoTime.isLeap y = true then (1 : Int) else 0) = 2 ∧
      0 ≤ (if GoTime.isLeap y = true then (1 : Int) else 0) ∧
      (if GoTime.isLeap y = true then (1 : Int) else 0) ≤ 1 := by
    split <;> decide
  generalize (if GoTime.isLeap y = true then (1 : Int) else 2) = k at a1 a3 b1 b3 c1 hk
  generalize (if GoTime.isLeap y = true then (1 : Int) else 0) = l at hk ⊢
  generalize ((GoTime.daysBefore (m - 1) : Nat) : Int) +
    (if (GoTime.isLeap y && decide (3 ≤ m)) = true then 1 else 0) = s at a1 a3 ⊢
  generalize ((GoTime.daysBefore (m' - 1) : Nat) : Int) +
    (if (GoTime.isLeap y && decide (3 ≤ m')) = true then 1 else 0) = s' at b1 b3 ⊢
  generalize ((GoTime.daysBefore (1 - 1) : Nat) : Int) +
    (if (GoTime.isLeap y && decide (3 ≤ 1)) = true then 1 else 0) = s1 at c1 ⊢
  generalize (if (m == 2 && GoTime.isLeap y) = true then 29
    else GoTime.daysBefore m - GoTime.daysBefore (m - 1)) = n at a3 hd2
  generalize (if (m' == 2 && GoTime.isLeap y) = true then 29
    else GoTime.daysBefore m' - GoTime.daysBefore (m' - 1)) = n' at b3 hd2'
  generalize 365 * (y - 1) + (y - 1) / 4 - (y - 1) / 100 + (y - 1) / 400 = Y
  norm_num at c1
  refine ⟨⟨fun h => ?_, fun h => ?_⟩, ⟨fun h => ?_, fun h => ?_⟩, ?_, ?_⟩ <;> omega

/-- The instants denoted by two valid sets of fields, in UTC, are ordered as the fields are,
read from the year down. -/
theorem GoTime.Before_Date_iff (digits : Nat) (a b : Stamp) (ha : a.Valid digits)
    (hb : b.Valid digits) :
    (GoTime.Date a.year a.month a.day a.hour a.minute a.second
        (a.fraction * 10 ^ (9 - digits)) 0).Before
      (GoTime.Date b.year b.month b.day b.hour b.minute b.second
        (b.fraction * 10 ^ (9 - digits)) 0) = true ↔ a.FieldsLess b := by
  obtain ⟨hy, hmo1, hmo2, hd1, hd2, hh, hmi, hs, hf⟩ := ha
  obtain ⟨hy', hmo1', hmo2', hd1', hd2', hh', hmi', hs', hf'⟩ := hb
  have hP : 0 < 10 ^ (9 - digits) := by positivity
  have hfr : a.fraction * 10 ^ (9 - digits) < b.fraction * 10 ^ (9 - digits) ↔
      a.fraction < b.fraction := Nat.mul_lt_mul_right hP
  unfold GoTime.Time.Before GoTime.Date Stamp.FieldsLess
  simp only [Bool.or_eq_true, Bool.and_eq_true, decide_eq_true_eq, sub_zero, hfr]
  rcases lt_trichotomy a.year b.year with hlt | heq | hgt
  · obtain ⟨-, -, -, h2⟩ := GoTime.daysSinceEpoch_same_year a.year a.month a.day a.month a.day
      hmo1 hmo2 hd1 hd2 hmo1 hmo2 hd1 hd2
    obtain ⟨-, -, h3, -⟩ := GoTime.daysSinceEpoch_same_year b.year b.month b.day b.month b.day
      hmo1' hmo2' hd1' hd2' hmo1' hmo2' hd1' hd2'
    have h4 := GoTime.daysSinceEpoch_later_year a.year (b.year - a.year - 1)
    have e : a.year + (b.year - a.year - 1) + 1 = b.year := by omega
    rw [e] at h4
    generalize GoTime.daysSinceEpoch (a.year : Int) a.month a.day = dA at h2 ⊢
    generalize GoTime.daysSinceEpoch (b.year : Int) b.month b.day = dB at h3 ⊢
    constructor
    · intro _
      exact Or.inl hlt
    · intro _
      left
      omega
  · obtain ⟨h1, h2, -, -⟩ := GoTime.daysSinceEpoch_same_year a.year a.month a.day b.month b.day
      hmo1 hmo2 hd1 hd2 hmo1' hmo2' hd1' (by rw [heq]; exact hd2')
    rw [← heq]
    generalize GoTime.daysSinceEpoch (a.year : Int) a.month a.day = dA at h1 h2 ⊢
    generalize GoTime.daysSinceEpoch (a.year : Int) b.month b.day = dB at h1 h2 ⊢
    constructor
    · intro h
      right
      refine ⟨rfl, ?_⟩
      by_cases c1 : dA < dB
      · rcases h1.mp c1 with c | c
        · omega
        · omega
      · by_cases c2 : dA = dB
        · obtain ⟨c3, c4⟩ := h2.mp c2
          omega
        · exfalso
          omega
    · intro h
      by_cases c1 : a.month < b.month ∨ a.month = b.month ∧ a.day < b.day
      · have := h1.mpr c1
        left
        omega
      · have c2 : a.month = b.month ∧ a.day = b.day := by omega
        have := h2.mpr c2
        omega
  · obtain ⟨-, -, h3, -⟩ := GoTime.daysSinceEpoch_same_year a.year a.month a.day a.month a.day
      hmo1 hmo2 hd1 hd2 hmo1 hmo2 hd1 hd2
    obtain ⟨-, -, -, h2⟩ := GoTime.daysSinceEpoch_same_year b.year b.month b.day b.month b.day
      hmo1' hmo2' hd1' hd2' hmo1' hmo2' hd1' hd2'
    have h4 := GoTime.daysSinceEpoch_later_year b.year (a.year - b.year - 1)
    have e : b.year + (a.year - b.year - 1) + 1 = a.year := by omega
    rw [e] at h4
    generalize GoTime.daysSinceEpoch (a.year : Int) a.month a.day = dA at h3 ⊢
    generalize GoTime.daysSinceEpoch (b.year : Int) b.month b.day = dB at h2 ⊢
    constructor
    · intro h
      exfalso
      omega
    · intro h
      exfalso
      omega

/-- C13. Take two timestamps written in the profile YYYY-MM-DDTHH:MM:SS.f…fZ with zero-padded
fields, the same number of fractional digits (one to nine) and the literal Z, whose fields denote
dates and times that exist. Both parse under RFC3339Nano, to the instants their fields denote,
and the comparison the sort uses on the CreatedAt strings, Go's string order, holds if and only
if the instant of the first is strictly before the instant of the second. -/
theorem lexicographic_iff_chronological (digits : Nat) (hlo : 1 ≤ digits) (hhi : digits ≤ 9)
    (a b : Stamp) (ha : a.Valid digits) (hb : b.Valid digits)
    (du dv : Discordstatus.IncidentUpdate) (iu iv : Instatus.IncidentUpdate)
    (mu mv : Instatus.MaintenanceUpdate) :
    GoTime.Parse_RFC3339Nano (a.render digits).data =
      some (GoTime.Date a.year a.month a.day a.hour a.minute a.second
        (a.fraction * 10 ^ (9 - digits)) 0) ∧
    GoTime.Parse_RFC3339Nano (b.render digits).data =
      some (GoTime.Date b.year b.month b.day b.hour b.minute b.second
        (b.fraction * 10 ^ (9 - digits)) 0) ∧
    (stringLess (a.render digits) (b.render digits) = true ↔
      (GoTime.Date a.year a.month a.day a.hour a.minute a.second
          (a.fraction * 10 ^ (9 - digits)) 0).Before
        (GoTime.Date b.year b.month b.day b.hour b.minute b.second
          (b.fraction * 10 ^ (9 - digits)) 0) = true) ∧
    Discordstatus.updateLess { du with CreatedAt := a.render digits }
        { dv with CreatedAt := b.render digits } =
      stringLess (a.render digits) (b.render digits) ∧
    Instatus.updateLess { iu with CreatedAt := a.render digits }
        { iv with CreatedAt := b.render digits } =
      stringLess (a.render digits) (b.render digits) ∧
    Instatus.maintenanceUpdateLess { mu with CreatedAt := a.render digits }
        { mv with CreatedAt := b.render digits } =
      stringLess (a.render digits) (b.render digits) := by
  obtain ⟨k, rfl⟩ : ∃ k, digits = k + 1 := ⟨digits - 1, by omega⟩
  refine ⟨GoTime.Parse_render k hhi a ha, GoTime.Parse_render k hhi b hb, ?_, rfl, rfl, rfl⟩
  rw [stringLess_render (k + 1) a b ha hb, GoTime.Before_Date_iff (k + 1) a b ha hb]

/-- Witness of C13: "2024-01-02T03:04:05.123Z" and "2024-01-02T03:04:06.000Z", three fractional
digits: the first is less as a string and earlier as an instant. -/
theorem lexicographic_iff_chronological_witness :
    (1 ≤ 3 ∧ 3 ≤ 9 ∧ Stamp.earlySample.Valid 3 ∧ Stamp.lateSample.Valid 3) ∧
    (Stamp.earlySample.render 3 = "2024-01-02T03:04:05.123Z" ∧
      Stamp.lateSample.render 3 = "2024-01-02T03:04:06.000Z") ∧
    (stringLess "2024-01-02T03:04:05.123Z" "2024-01-02T03:04:06.000Z" = true ∧
      stringLess "2024-01-02T03:04:06.000Z" "2024-01-02T03:04:05.123Z" = false) ∧
    (stringLess (Stamp.earlySample.render 3) (Stamp.lateSample.render 3) = true ↔
      (GoTime.Date 2024 1 2 3 4 5 123000000 0).Before
        (GoTime.Date 2024 1 2 3 4 6 0 0) = true) :=
  ⟨⟨by decide, by decide, by decide, by decide⟩, ⟨by decide, by decide⟩,
    ⟨by decide, by decide⟩,
    (lexicographic_iff_chronological 3 (by decide) (by decide) Stamp.earlySample
      Stamp.lateSample (by decide) (by decide)
      (Discordstatus.updateOf "" "" "") (Discordstatus.updateOf "" "" "")
      (Instatus.updateOf "" "" "") (Instatus.updateOf "" "" "")
      (Instatus.maintenanceUpdateOf "" "") (Instatus.maintenanceUpdateOf "" "")).2.2.1⟩
